import Mathlib

/-!
# rpg-realtime: the campaign document and the jukebox

A shallow embedding of `src/server.js`, of one legacy module and of one handler of
the client.

* The document half: the JSON values the server holds, `JSON.stringify` /
  `JSON.parse`, the `sha1` helper, the guard `stateLooksEmpty`, the SQLite tables
  `snapshots` and `campaign`, and the handlers `GET /api/campaign`,
  `PUT /api/campaign`, `POST /api/campaign/restore/:id` and the socket event
  `state:update`.
* The jukebox half: the playlist state `jbState`, `jbSave`, and the handlers of the
  socket namespace `/jukebox`.
* The legacy jukebox of `src/jukebox.server.mjs`: `insertTrack`,
  `reindexAndPersist`, `removeAt` and `move` over the table `jb_tracks`, and the
  handler of `set_volume`.
* The handlers on a store that refuses the write (`putCampaignOn`, `stateUpdateOn`,
  `restoreCampaignOn`, `handleCmdOn`).
* The handler of the event `state` of the client `src/public/jukebox.js`
  (`onState`), as the calls it makes on the player.
* The route `DELETE /api/albums/:album` (`normaliza`, `deleteAlbum`) over paths
  below `UPLOADS_DIR`.

Conventions of the model.

* A JavaScript value that came out of `JSON.parse` is a `Json`.  Numbers are
  restricted to the integers, printed in decimal (as JavaScript prints an integer
  of magnitude below `10^21`); an object is the list of its own properties in
  property order, with distinct keys.
* A JavaScript string is a `String`; its `.length` counts UTF-16 code units
  (`jsLength`).
* A thrown exception is `Except.error`.
* The columns `created_at` / `updated_at` and the fire-and-forget backup file
  written by `writeBackupFile` are not part of the model.
-/

namespace RpgRealtime

/-! ## JSON values -/

/-- A JavaScript value produced by `JSON.parse`. -/
inductive Json where
  | null
  | bool (b : Bool)
  | num (n : Int)
  | str (s : String)
  | arr (xs : List Json)
  | obj (kvs : List (String × Json))
  deriving Inhabited

/-- The exceptions the modelled code can raise: a `TypeError` (reading a property of `null`,
converting an object without a usable `toString`) and the `SyntaxError` of `JSON.parse`. -/
inductive JsError where
  | typeError
  | syntaxError
  deriving DecidableEq, Repr

/-- The double quote, code point 34. -/
def dquote : Char := Char.ofNat 34

/-- The backslash, code point 92. -/
def bslash : Char := Char.ofNat 92

/-- Lower-case hexadecimal digit of a number below 16. -/
def hexDigit (n : Nat) : Char :=
  if n < 10 then Char.ofNat (48 + n) else Char.ofNat (87 + n)

/-- Decimal digit of a number below 10. -/
def digitChar (n : Nat) : Char := Char.ofNat (48 + n)

/-- Decimal digits of `n`, most significant first; the first argument is fuel,
`n + 1` is always enough. -/
def natDigits : Nat → Nat → List Char
  | 0, _ => []
  | fuel + 1, n =>
    if n < 10 then [digitChar n] else natDigits fuel (n / 10) ++ [digitChar (n % 10)]

/-- Decimal form of a natural number. -/
def natChars (n : Nat) : List Char := natDigits (n + 1) n

/-- Decimal form of an integer, as `Number::toString` prints it. -/
def intChars : Int → List Char
  | Int.ofNat n => natChars n
  | Int.negSucc n => (Char.ofNat 45) :: natChars (n + 1)

/-- One character of a string as `JSON.stringify` writes it inside quotes. -/
def quoteChar (c : Char) : List Char :=
  let n := c.toNat
  if n = 34 then [bslash, dquote]
  else if n = 92 then [bslash, bslash]
  else if n = 8 then [bslash, Char.ofNat 98]
  else if n = 12 then [bslash, Char.ofNat 102]
  else if n = 10 then [bslash, Char.ofNat 110]
  else if n = 13 then [bslash, Char.ofNat 114]
  else if n = 9 then [bslash, Char.ofNat 116]
  else if n < 32 then
    [bslash, Char.ofNat 117, Char.ofNat 48, Char.ofNat 48, hexDigit (n / 16), hexDigit (n % 16)]
  else [c]

/-- The characters of a string with every character escaped by `quoteChar`. -/
def quoteBody : List Char → List Char
  | [] => []
  | c :: cs => quoteChar c ++ quoteBody cs

/-- A quoted JSON string. -/
def quoteString (s : String) : List Char :=
  dquote :: (quoteBody s.data ++ [dquote])

mutual
/-- The characters of `JSON.stringify(v)` (no indentation). -/
def stringifyChars : Json → List Char
  | .null => [Char.ofNat 110, Char.ofNat 117, Char.ofNat 108, Char.ofNat 108]
  | .bool true => [Char.ofNat 116, Char.ofNat 114, Char.ofNat 117, Char.ofNat 101]
  | .bool false =>
    [Char.ofNat 102, Char.ofNat 97, Char.ofNat 108, Char.ofNat 115, Char.ofNat 101]
  | .num n => intChars n
  | .str s => quoteString s
  | .arr xs => Char.ofNat 91 :: (stringifyElems xs ++ [Char.ofNat 93])
  | .obj kvs => Char.ofNat 123 :: (stringifyMembers kvs ++ [Char.ofNat 125])
/-- The elements of an array, separated by commas. -/
def stringifyElems : List Json → List Char
  | [] => []
  | x :: xs => stringifyChars x ++ stringifyElemsTail xs
/-- The elements after the first one, each preceded by a comma. -/
def stringifyElemsTail : List Json → List Char
  | [] => []
  | x :: xs => Char.ofNat 44 :: (stringifyChars x ++ stringifyElemsTail xs)
/-- The members of an object, separated by commas. -/
def stringifyMembers : List (String × Json) → List Char
  | [] => []
  | (k, v) :: kvs =>
    quoteString k ++ Char.ofNat 58 :: (stringifyChars v ++ stringifyMembersTail kvs)
/-- The members after the first one, each preceded by a comma. -/
def stringifyMembersTail : List (String × Json) → List Char
  | [] => []
  | (k, v) :: kvs =>
    Char.ofNat 44 ::
      (quoteString k ++ Char.ofNat 58 :: (stringifyChars v ++ stringifyMembersTail kvs))
end

/-- The string `JSON.stringify(v)`. -/
def stringify (v : Json) : String := String.mk (stringifyChars v)

/-- The `.length` of a JavaScript string: its number of UTF-16 code units. -/
def jsLength (s : String) : Nat :=
  (s.data.map (fun c => if c.toNat < 65536 then 1 else 2)).sum

/-! ## The JavaScript operations used by `stateLooksEmpty` -/

/-- Truthiness of a value (`!!v`). -/
def truthy : Json → Bool
  | .null => false
  | .bool b => b
  | .num n => n != 0
  | .str s => s.data.length != 0
  | .arr _ => true
  | .obj _ => true

/-- The guard `!v || typeof v !== "object"` is false exactly for arrays and objects. -/
def isObjectLike : Json → Bool
  | .arr _ => true
  | .obj _ => true
  | _ => false

/-- Property read `v.k` for a name `k` that no built-in prototype defines (the server reads
`tables`, `rows`, `notes`, `quickNotes`, `lists`, `items`): `none` is `undefined`, and reading
a property of `null` throws. -/
def getProp (v : Json) (k : String) : Except JsError (Option Json) :=
  match v with
  | .null => .error .typeError
  | .obj kvs => .ok (kvs.lookup k)
  | _ => .ok none

/-- Whether an object has an own property `k`. -/
def hasOwn (kvs : List (String × Json)) (k : String) : Bool :=
  (kvs.lookup k).isSome

mutual
/-- The conversion `String(v)`.  An object converts to `[object Object]`, unless it has an own
property `toString`: a value that came out of `JSON.parse` is not callable, the inherited
`valueOf` returns the object itself, and the conversion throws. -/
def jsStringChars : Json → Except JsError (List Char)
  | .null => .ok "null".data
  | .bool true => .ok "true".data
  | .bool false => .ok "false".data
  | .num n => .ok (intChars n)
  | .str s => .ok s.data
  | .arr xs => jsJoin xs
  | .obj kvs => if hasOwn kvs "toString" then .error .typeError else .ok "[object Object]".data
/-- The method `Array.prototype.join` with the default separator; `null` elements give the empty
string. -/
def jsJoin : List Json → Except JsError (List Char)
  | [] => .ok []
  | x :: xs =>
    let first : Except JsError (List Char) :=
      match x with
      | .null => .ok []
      | y => jsStringChars y
    match first, jsJoinTail xs with
    | .ok a, .ok b => .ok (a ++ b)
    | _, _ => .error .typeError
/-- The elements after the first one, each preceded by the separator. -/
def jsJoinTail : List Json → Except JsError (List Char)
  | [] => .ok []
  | x :: xs =>
    let first : Except JsError (List Char) :=
      match x with
      | .null => .ok []
      | y => jsStringChars y
    match first, jsJoinTail xs with
    | .ok a, .ok b => .ok (Char.ofNat 44 :: (a ++ b))
    | _, _ => .error .typeError
end

/-- White space and line terminators, the characters `String.prototype.trim` removes. -/
def isJsSpace (c : Char) : Bool :=
  let n := c.toNat
  n = 9 || n = 10 || n = 11 || n = 12 || n = 13 || n = 32 || n = 160 || n = 5760 ||
    (8192 ≤ n && n ≤ 8202) || n = 8232 || n = 8233 || n = 8239 || n = 8287 || n = 12288 ||
    n = 65279

/-- The method `String.prototype.trim`. -/
def jsTrim (cs : List Char) : List Char :=
  ((cs.dropWhile isJsSpace).reverse.dropWhile isJsSpace).reverse

/-- The condition `v && String(v).trim()`. -/
def nonBlank (v : Option Json) : Except JsError Bool :=
  match v with
  | none => .ok false
  | some w =>
    if truthy w then
      match jsStringChars w with
      | .ok cs => .ok ((jsTrim cs).length != 0)
      | .error e => .error e
    else .ok false

/-- The callback `t => Array.isArray(t[k]) && t[k].length > 0`, used with `k = rows` for
tables and `k = items` for lists. -/
def hasEntries (k : String) (t : Json) : Except JsError Bool :=
  match getProp t k with
  | .error e => .error e
  | .ok (some (.arr xs)) => .ok (xs.length != 0)
  | .ok _ => .ok false

/-- The method `Array.prototype.some`: stops at the first element for which the callback is
true, and at the first exception. -/
def arraySome (f : Json → Except JsError Bool) : List Json → Except JsError Bool
  | [] => .ok false
  | x :: xs =>
    match f x with
    | .error e => .error e
    | .ok true => .ok true
    | .ok false => arraySome f xs

/-! ## `stateLooksEmpty` -/

/-- First statement of the `try` block: `tables` is a non-empty array and some table has a
non-empty `rows` array. -/
def tablesHaveRows (obj : Json) : Except JsError Bool :=
  match getProp obj "tables" with
  | .error e => .error e
  | .ok (some (.arr ts)) =>
    if ts.length != 0 then arraySome (hasEntries "rows") ts else .ok false
  | .ok _ => .ok false

/-- Second statement: `(obj.notes && String(obj.notes).trim()) ||
(obj.quickNotes && String(obj.quickNotes).trim())`. -/
def notesNonBlank (obj : Json) : Except JsError Bool :=
  match getProp obj "notes" with
  | .error e => .error e
  | .ok n =>
    match nonBlank n with
    | .error e => .error e
    | .ok true => .ok true
    | .ok false =>
      match getProp obj "quickNotes" with
      | .error e => .error e
      | .ok q => nonBlank q

/-- Third statement: `obj.lists && Array.isArray(obj.lists) &&
obj.lists.some(l => Array.isArray(l.items) && l.items.length)`. -/
def listsHaveItems (obj : Json) : Except JsError Bool :=
  match getProp obj "lists" with
  | .error e => .error e
  | .ok (some (.arr ls)) => arraySome (hasEntries "items") ls
  | .ok _ => .ok false

/-- The `try` block of `stateLooksEmpty`: `.ok true` when one of its three statements executes
`return false`, `.ok false` when the block runs to its end, `.error` when it throws. -/
def foundData (obj : Json) : Except JsError Bool :=
  match tablesHaveRows obj with
  | .error e => .error e
  | .ok true => .ok true
  | .ok false =>
    match notesNonBlank obj with
    | .error e => .error e
    | .ok true => .ok true
    | .ok false => listsHaveItems obj

/-- The function `stateLooksEmpty(obj)` of `server.js`: an exception inside the `try` block is
swallowed by `catch{}` and the function falls through to `return true`. -/
def stateLooksEmpty (obj : Json) : Bool :=
  if !isObjectLike obj then true
  else
    match foundData obj with
    | .ok true => false
    | _ => true

/-! ## `sha1` -/

/-- Reduction to 32 bits. -/
def sha1Mask (n : Nat) : Nat := n % 4294967296

/-- Rotation to the left of a 32-bit word. -/
def sha1Rotl (k x : Nat) : Nat := sha1Mask ((x <<< k) ||| (x >>> (32 - k)))

/-- UTF-8 encoding of a character: `hash.update(str)` hashes the UTF-8 bytes. -/
def utf8Bytes (c : Char) : List Nat :=
  let n := c.toNat
  if n < 128 then [n]
  else if n < 2048 then [192 + n / 64, 128 + n % 64]
  else if n < 65536 then [224 + n / 4096, 128 + (n / 64) % 64, 128 + n % 64]
  else [240 + n / 262144, 128 + (n / 4096) % 64, 128 + (n / 64) % 64, 128 + n % 64]

/-- Big-endian bytes of `n` on `width` bytes. -/
def sha1BigEndian (width n : Nat) : List Nat :=
  (List.range width).map (fun i => (n >>> (8 * (width - 1 - i))) % 256)

/-- Message padding: the bit `1`, zeros up to 56 modulo 64, and the bit length on 8 bytes. -/
def sha1Pad (bytes : List Nat) : List Nat :=
  bytes ++ [128] ++ List.replicate ((55 + 64 - bytes.length % 64) % 64) 0
    ++ sha1BigEndian 8 (8 * bytes.length)

/-- Bytes to big-endian 32-bit words. -/
def sha1Words : List Nat → List Nat
  | a :: b :: c :: d :: rest => (((a * 256 + b) * 256 + c) * 256 + d) :: sha1Words rest
  | _ => []

/-- Message schedule, newest word first. -/
def sha1Extend : Nat → List Nat → List Nat
  | 0, ws => ws
  | n + 1, ws =>
    sha1Extend n
      (sha1Rotl 1 (ws.getD 2 0 ^^^ ws.getD 7 0 ^^^ ws.getD 13 0 ^^^ ws.getD 15 0) :: ws)

/-- The five chaining words. -/
structure Sha1State where
  a : Nat
  b : Nat
  c : Nat
  d : Nat
  e : Nat

/-- Round function. -/
def sha1F (i b c d : Nat) : Nat :=
  if i < 20 then (b &&& c) ||| ((b ^^^ 4294967295) &&& d)
  else if i < 40 then b ^^^ c ^^^ d
  else if i < 60 then (b &&& c) ||| (b &&& d) ||| (c &&& d)
  else b ^^^ c ^^^ d

/-- Round constant. -/
def sha1K (i : Nat) : Nat :=
  if i < 20 then 0x5A827999 else if i < 40 then 0x6ED9EBA1
  else if i < 60 then 0x8F1BBCDC else 0xCA62C1D6

/-- The eighty rounds over the message schedule. -/
def sha1Rounds : Nat → List Nat → Sha1State → Sha1State
  | _, [], h => h
  | i, w :: ws, h =>
    sha1Rounds (i + 1) ws
      ⟨sha1Mask (sha1Rotl 5 h.a + sha1F i h.b h.c h.d + h.e + sha1K i + w), h.a,
        sha1Rotl 30 h.b, h.c, h.d⟩

/-- Compression of one block of sixteen words. -/
def sha1Block (h : Sha1State) (ws : List Nat) : Sha1State :=
  let r := sha1Rounds 0 (sha1Extend 64 ws.reverse).reverse h
  ⟨sha1Mask (h.a + r.a), sha1Mask (h.b + r.b), sha1Mask (h.c + r.c), sha1Mask (h.d + r.d),
    sha1Mask (h.e + r.e)⟩

/-- Compression of `n` consecutive blocks. -/
def sha1Blocks : Nat → List Nat → Sha1State → Sha1State
  | 0, _, h => h
  | n + 1, ws, h => sha1Blocks n (ws.drop 16) (sha1Block h (ws.take 16))

/-- Eight hexadecimal digits of a 32-bit word. -/
def sha1Hex (n : Nat) : List Char :=
  (List.range 8).map (fun i => hexDigit ((n >>> (4 * (7 - i))) % 16))

/-- The helper `sha1(str)` of `server.js`:
`crypto.createHash("sha1").update(str).digest("hex")`. -/
def sha1 (str : String) : String :=
  let ws := sha1Words (sha1Pad (str.data.flatMap utf8Bytes))
  let h := sha1Blocks (ws.length / 16) ws
    ⟨0x67452301, 0xEFCDAB89, 0x98BADCFE, 0x10325476, 0xC3D2E1F0⟩
  String.mk (sha1Hex h.a ++ sha1Hex h.b ++ sha1Hex h.c ++ sha1Hex h.d ++ sha1Hex h.e)

/-! ## `JSON.parse`

The parser accepts JSON text with insignificant white space and every string escape.  Two kinds
of text lie outside the model and are rejected: a number with a fraction or an exponent (the
model has integers only) and an escape that names a surrogate code unit.  An object keeps its
members as written: the model is exact for texts whose objects have distinct keys in property
order, as every output of `JSON.stringify` has. -/

/-- JSON white space: space, tab, line feed, carriage return. -/
def isJsonWs (c : Char) : Bool :=
  c.toNat = 32 || c.toNat = 9 || c.toNat = 10 || c.toNat = 13

/-- Skips JSON white space. -/
def skipWs (cs : List Char) : List Char := cs.dropWhile isJsonWs

/-- Decimal digit test. -/
def isDigitChar (c : Char) : Bool := 48 ≤ c.toNat && c.toNat ≤ 57

/-- Value of a hexadecimal digit. -/
def hexVal (c : Char) : Option Nat :=
  let n := c.toNat
  if 48 ≤ n ∧ n ≤ 57 then some (n - 48)
  else if 97 ≤ n ∧ n ≤ 102 then some (n - 87)
  else if 65 ≤ n ∧ n ≤ 70 then some (n - 55)
  else none

/-- Value of four hexadecimal digits. -/
def hex4 (a b c d : Char) : Option Nat :=
  match hexVal a, hexVal b, hexVal c, hexVal d with
  | some w, some x, some y, some z => some (((w * 16 + x) * 16 + y) * 16 + z)
  | _, _, _, _ => none

/-- The character a one-letter escape stands for. -/
def unescapeChar (e : Char) : Option Char :=
  let n := e.toNat
  if n = 34 then some dquote
  else if n = 92 then some bslash
  else if n = 47 then some (Char.ofNat 47)
  else if n = 98 then some (Char.ofNat 8)
  else if n = 102 then some (Char.ofNat 12)
  else if n = 110 then some (Char.ofNat 10)
  else if n = 114 then some (Char.ofNat 13)
  else if n = 116 then some (Char.ofNat 9)
  else none

/-- The rest of a string after its opening quote: the decoded characters (accumulated in
reverse in the second argument) and the text after the closing quote. -/
def parseStringBody : List Char → List Char → Option (List Char × List Char)
  | [], _ => none
  | c :: cs, acc =>
    if c.toNat = 34 then some (acc.reverse, cs)
    else if c.toNat = 92 then
      match cs with
      | [] => none
      | e :: rest =>
        if e.toNat = 117 then
          match rest with
          | h1 :: h2 :: h3 :: h4 :: r =>
            match hex4 h1 h2 h3 h4 with
            | some n =>
              if 55296 ≤ n ∧ n ≤ 57343 then none
              else parseStringBody r (Char.ofNat n :: acc)
            | none => none
          | _ => none
        else
          match unescapeChar e with
          | some ch => parseStringBody rest (ch :: acc)
          | none => none
    else if c.toNat < 32 then none
    else parseStringBody cs (c :: acc)

/-- Value of a run of decimal digits. -/
def digitsValue (cs : List Char) : Nat :=
  cs.foldl (fun acc c => acc * 10 + (c.toNat - 48)) 0

/-- An unsigned integer: a run of digits without a superfluous leading zero, not followed by a
fraction or an exponent. -/
def parseNat (cs : List Char) : Option (Nat × List Char) :=
  let ds := cs.takeWhile isDigitChar
  let rest := cs.dropWhile isDigitChar
  if ds.length = 0 then none
  else if ds.length ≠ 1 ∧ ds.head? = some (Char.ofNat 48) then none
  else
    match rest with
    | c :: _ =>
      if c.toNat = 46 ∨ c.toNat = 101 ∨ c.toNat = 69 then none
      else some (digitsValue ds, rest)
    | [] => some (digitsValue ds, rest)

/-- A number. -/
def parseNumber (cs : List Char) : Option (Json × List Char) :=
  match cs with
  | [] => none
  | c :: rest =>
    if c.toNat = 45 then
      match parseNat rest with
      | some (n, r) => some (.num (-(n : Int)), r)
      | none => none
    else
      match parseNat (c :: rest) with
      | some (n, r) => some (.num (n : Int), r)
      | none => none

/-- Removes the expected characters from the front of the text. -/
def expect : List Char → List Char → Option (List Char)
  | [], cs => some cs
  | _ :: _, [] => none
  | e :: es, c :: cs => if e = c then expect es cs else none

mutual
/-- One JSON value and the text after it; the first argument is fuel. -/
def parseValue : Nat → List Char → Option (Json × List Char)
  | 0, _ => none
  | fuel + 1, cs =>
    match skipWs cs with
    | [] => none
    | c :: rest =>
      if c.toNat = 34 then
        match parseStringBody rest [] with
        | some (s, r) => some (.str (String.mk s), r)
        | none => none
      else if c.toNat = 91 then
        match skipWs rest with
        | [] => none
        | d :: r =>
          if d.toNat = 93 then some (.arr [], r)
          else
            match parseElems fuel (d :: r) with
            | some (xs, r2) => some (.arr xs, r2)
            | none => none
      else if c.toNat = 123 then
        match skipWs rest with
        | [] => none
        | d :: r =>
          if d.toNat = 125 then some (.obj [], r)
          else
            match parseMembers fuel (d :: r) with
            | some (kvs, r2) => some (.obj kvs, r2)
            | none => none
      else if c.toNat = 110 then
        match expect "ull".data rest with
        | some r => some (.null, r)
        | none => none
      else if c.toNat = 116 then
        match expect "rue".data rest with
        | some r => some (.bool true, r)
        | none => none
      else if c.toNat = 102 then
        match expect "alse".data rest with
        | some r => some (.bool false, r)
        | none => none
      else parseNumber (c :: rest)
/-- The elements of a non-empty array up to and including the closing bracket. -/
def parseElems : Nat → List Char → Option (List Json × List Char)
  | 0, _ => none
  | fuel + 1, cs =>
    match parseValue fuel cs with
    | none => none
    | some (v, r) =>
      match skipWs r with
      | [] => none
      | d :: r2 =>
        if d.toNat = 44 then
          match parseElems fuel r2 with
          | some (xs, r3) => some (v :: xs, r3)
          | none => none
        else if d.toNat = 93 then some ([v], r2)
        else none
/-- The members of a non-empty object up to and including the closing brace. -/
def parseMembers : Nat → List Char → Option (List (String × Json) × List Char)
  | 0, _ => none
  | fuel + 1, cs =>
    match skipWs cs with
    | [] => none
    | q :: r =>
      if q.toNat = 34 then
        match parseStringBody r [] with
        | none => none
        | some (k, r1) =>
          match skipWs r1 with
          | [] => none
          | colon :: r2 =>
            if colon.toNat = 58 then
              match parseValue fuel r2 with
              | none => none
              | some (v, r3) =>
                match skipWs r3 with
                | [] => none
                | d :: r4 =>
                  if d.toNat = 44 then
                    match parseMembers fuel r4 with
                    | some (kvs, r5) => some ((String.mk k, v) :: kvs, r5)
                    | none => none
                  else if d.toNat = 125 then some ([(String.mk k, v)], r4)
                  else none
            else none
      else none
end

/-- The function `JSON.parse(text)`; the fuel is the length of the text plus one. -/
def jsonParse (text : String) : Except JsError Json :=
  match parseValue (text.data.length + 1) text.data with
  | some (v, rest) => if (skipWs rest).length = 0 then .ok v else .error .syntaxError
  | none => .error .syntaxError

/-! ## The store: tables `snapshots` and `campaign` -/

/-- A row of the table `snapshots`. -/
structure Snapshot where
  id : Nat
  data : String
  deriving DecidableEq, Repr

/-- The two campaign tables: the snapshot log in insertion order, and the `data` column of the
single row `id = 1` of `campaign` (`none` while the row does not exist). -/
structure Db where
  snapshots : List Snapshot
  campaign : Option String
  deriving DecidableEq, Repr

/-- The database as `CREATE TABLE IF NOT EXISTS` leaves it on first run. -/
def Db.empty : Db := ⟨[], none⟩

/-- Largest id of the snapshot log, `0` when it is empty. -/
def maxId (rows : List Snapshot) : Nat := (rows.map (fun r => r.id)).foldr max 0

/-- The id `INTEGER PRIMARY KEY AUTOINCREMENT` gives the next inserted row: one more than the
largest id the table has held (the server never deletes a snapshot). -/
def nextId (db : Db) : Nat := maxId db.snapshots + 1

/-- The operand `v ?? fallback` for a fallback object `{}`. -/
def orEmptyObject (v : Json) : Json :=
  match v with
  | .null => .obj []
  | w => w

/-- The operand `v || {}`. -/
def truthyOrEmptyObject (v : Json) : Json := if truthy v then v else .obj []

/-- The function `saveStateToDB(stateObj)`: one transaction that inserts a snapshot and upserts
the campaign row, both with `JSON.stringify(stateObj ?? {}, null, 0)`. -/
def saveStateToDB (db : Db) (stateObj : Json) : Db :=
  let data := stringify (orEmptyObject stateObj)
  { snapshots := db.snapshots ++ [⟨nextId db, data⟩], campaign := some data }

/-- The function `loadStateFromDB()`: `row ? JSON.parse(row.data) : null`. -/
def loadStateFromDB (db : Db) : Except JsError Json :=
  match db.campaign with
  | none => .ok .null
  | some data => jsonParse data

/-! ## The server -/

/-- The module-level variables `state` and `currentETag`, and the database. -/
structure Server where
  db : Db
  state : Json
  currentETag : String

/-- Who receives an emitted event: `io.emit` reaches every socket, `socket.broadcast.emit`
every socket but the sender. -/
inductive Audience where
  | all
  | others
  deriving DecidableEq, Repr

/-- An emitted socket event. -/
structure Emit where
  audience : Audience
  event : String
  payload : Json

/-- The JSON body of an HTTP reply. -/
inductive ReplyBody where
  /-- The body `{ ok: true, data, etag }`. -/
  | okData (data : Json) (etag : String)
  /-- The body `{ ok: true, etag }`. -/
  | okEtag (etag : String)
  /-- The body `{ ok: true, restored }`. -/
  | okRestored (id : Int)
  /-- The body `{ ok: false, error }`. -/
  | failure
  /-- No body (`res.status(304).end()`). -/
  | empty

/-- An HTTP reply: status, the `ETag` header when set, body. -/
structure Reply where
  status : Nat
  etagHeader : Option String
  body : ReplyBody

/-- What a handler leaves behind: the server afterwards, the reply (none for a socket event)
and the events emitted, in order. -/
structure Outcome where
  server : Server
  reply : Option Reply
  emits : List Emit

/-- Truthiness of an optional header or query value: absent and empty are falsy. -/
def headerTruthy : Option String → Bool
  | none => false
  | some v => v.data.length != 0

/-- Process start ("Bootstrap Campanha"): the document is loaded from the campaign row; when
there is none (or it is falsy) it is read from `campaign.json` (the argument, `none` when the
file does not exist; an unparsable file gives `{}`) and saved.  Then
`currentETag = sha1(JSON.stringify(state || {}))`.  An exception of `loadStateFromDB` ends the
process. -/
def boot (db : Db) (bootstrapFile : Option String) : Except JsError Server :=
  match loadStateFromDB db with
  | .error e => .error e
  | .ok loaded =>
    if !truthy loaded then
      let st : Json :=
        match bootstrapFile with
        | some text =>
          match jsonParse text with
          | .ok v => v
          | .error _ => .obj []
        | none => .obj []
      .ok { db := saveStateToDB db st, state := st,
            currentETag := sha1 (stringify (truthyOrEmptyObject st)) }
    else
      .ok { db := db, state := loaded,
            currentETag := sha1 (stringify (truthyOrEmptyObject loaded)) }

/-- The handler of `GET /api/campaign`; the argument is the header `If-None-Match`. -/
def getCampaign (s : Server) (ifNoneMatch : Option String) : Reply :=
  if headerTruthy ifNoneMatch && ifNoneMatch == some s.currentETag then
    { status := 304, etagHeader := none, body := .empty }
  else
    { status := 200, etagHeader := some s.currentETag,
      body := .okData s.state s.currentETag }

/-- A request `PUT /api/campaign`: the parsed body, the header `If-Match`, the query parameter
`allowEmpty` and the header `x-allow-empty`. -/
structure PutRequest where
  body : Json
  ifMatch : Option String
  queryAllowEmpty : Option String
  headerAllowEmpty : Option String

/-- The flag `req.query.allowEmpty === "1" || req.headers["x-allow-empty"] === "1"`. -/
def allowEmpty (req : PutRequest) : Bool :=
  req.queryAllowEmpty == some "1" || req.headerAllowEmpty == some "1"

/-- The ceiling on `jsonStr.length`. -/
def maxPayload : Nat := 2500000

/-- The handler of `PUT /api/campaign`. -/
def putCampaign (s : Server) (req : PutRequest) : Outcome :=
  if !isObjectLike req.body then
    ⟨s, some { status := 400, etagHeader := none, body := .failure }, []⟩
  else if jsLength (stringify req.body) > maxPayload then
    ⟨s, some { status := 413, etagHeader := none, body := .failure }, []⟩
  else if headerTruthy req.ifMatch && req.ifMatch != some s.currentETag then
    ⟨s, some { status := 412, etagHeader := none, body := .failure }, []⟩
  else if !allowEmpty req && stateLooksEmpty req.body then
    ⟨s, some { status := 422, etagHeader := none, body := .failure }, []⟩
  else
    let etag := sha1 (stringify req.body)
    ⟨{ db := saveStateToDB s.db req.body, state := req.body, currentETag := etag },
      some { status := 200, etagHeader := some etag, body := .okEtag etag },
      [⟨.all, "state:broadcast", req.body⟩]⟩

/-- The socket handler of `state:update`: the document is replaced and saved, the other sockets
are told; `currentETag` is not assigned. -/
def stateUpdate (s : Server) (newState : Json) : Outcome :=
  if !isObjectLike newState then ⟨s, none, []⟩
  else
    ⟨{ db := saveStateToDB s.db newState, state := newState, currentETag := s.currentETag },
      none, [⟨.others, "state:broadcast", newState⟩]⟩

/-- The number `Number(req.params.id)` of a restore request, by the three ways the handler can
tell numbers apart: not finite (`NaN`, an infinity), finite without being an integer, an
integer. -/
inductive IdParam where
  | notFinite
  | fraction
  | int (i : Int)

/-- The query `SELECT data FROM snapshots WHERE id = ?`. -/
def findSnapshot (db : Db) (i : Int) : Option Snapshot :=
  db.snapshots.find? (fun r => (r.id : Int) == i)

/-- The handler of `POST /api/campaign/restore/:id`. -/
def restoreCampaign (s : Server) (id : IdParam) : Outcome :=
  match id with
  | .notFinite => ⟨s, some { status := 400, etagHeader := none, body := .failure }, []⟩
  | .fraction => ⟨s, some { status := 404, etagHeader := none, body := .failure }, []⟩
  | .int i =>
    match findSnapshot s.db i with
    | none => ⟨s, some { status := 404, etagHeader := none, body := .failure }, []⟩
    | some row =>
      match jsonParse row.data with
      | .error _ => ⟨s, some { status := 500, etagHeader := none, body := .failure }, []⟩
      | .ok payload =>
        let etag := sha1 row.data
        ⟨{ db := saveStateToDB s.db payload, state := payload, currentETag := etag },
          some { status := 200, etagHeader := some etag, body := .okRestored i },
          [⟨.all, "state:broadcast", payload⟩]⟩

/-- The document operations a running server accepts. -/
inductive Op where
  | put (req : PutRequest)
  | update (newState : Json)
  | restore (id : IdParam)

/-- The outcome of one operation. -/
def Op.run (s : Server) : Op → Outcome
  | .put req => putCampaign s req
  | .update v => stateUpdate s v
  | .restore id => restoreCampaign s id

/-- The states a server can be in: started on the empty database, after any operation, and
restarted on the database a previous run left. -/
inductive Reachable : Server → Prop where
  | start (file : Option String) (s : Server) :
      boot Db.empty file = .ok s → Reachable s
  | step (s : Server) (op : Op) : Reachable s → Reachable (op.run s).server
  | restart (s : Server) (file : Option String) (t : Server) :
      Reachable s → boot s.db file = .ok t → Reachable t

/-- The HTTP status of an outcome, `none` for a socket event. -/
def Outcome.status (o : Outcome) : Option Nat := o.reply.map (fun r => r.status)

/-! ## The jukebox of `server.js`

The playlist state `jbState`, its persistence `jbSave` and the handlers of the socket namespace
`/jukebox`.

Conventions of this part.

* A track is the object `{ url, videoId, badge, title }` that `add_track` builds; its four
  properties are JavaScript values.
* A field of a command payload is an integer or absent: `none` stands for a field that is
  `undefined` or `null` (also when the whole payload is missing), so that `Number(x ?? d)` and
  `Number(x || d)` are the integer itself or the default `d`.
* A handler returns the playlist state it leaves and the effects it performed in order: the
  call of `jbSave` and the events it emitted. -/

/-- A playlist entry `{ url, videoId, badge, title }`. -/
structure Track where
  url : Json
  videoId : Json
  badge : Json
  title : Json

/-- The variable `jbState`. -/
structure JbState where
  playlist : List Track
  currentIndex : Int
  isPlaying : Bool
  volume : Int
  currentTime : Int

/-- The function `defaultJBState()`. -/
def defaultJBState : JbState :=
  { playlist := [], currentIndex := -1, isPlaying := false, volume := 70, currentTime := 0 }

/-- The helper `clamp(n, a, b) = Math.max(a, Math.min(b, n))`. -/
def clamp (n a b : Int) : Int := max a (min b n)

/-- The call `arr.splice(start, 1)` for `start ≥ 0`: the array without the element at
`start`. -/
def spliceRemove {α : Type} (arr : List α) (start : Nat) : List α :=
  arr.take start ++ arr.drop (start + 1)

/-- The call `arr.splice(start, 0, x)` for `start ≥ 0`: the array with `x` inserted at
`start`, at the end when `start` is beyond it. -/
def spliceInsert {α : Type} (arr : List α) (start : Nat) (x : α) : List α :=
  arr.take start ++ x :: arr.drop start

/-- The helper `moveItem(arr, from, to)`: a copy in which the element at `from` is taken out and
put back at `to`.  For `from` outside the array JavaScript would insert `undefined`; the handler
of `reorder` only calls it with `from` inside, and the model leaves the array as it is. -/
def moveItem (arr : List Track) (fromIdx toIdx : Nat) : List Track :=
  match arr.get? fromIdx with
  | some it => spliceInsert (spliceRemove arr fromIdx) toIdx it
  | none => arr

/-- A track as JSON, its properties in the order of the object literal. -/
def Track.toJson (t : Track) : Json :=
  .obj [("url", t.url), ("videoId", t.videoId), ("badge", t.badge), ("title", t.title)]

/-- The playlist state as JSON, its properties in the order of `defaultJBState()`. -/
def JbState.toJson (st : JbState) : Json :=
  .obj [("playlist", .arr (st.playlist.map Track.toJson)), ("currentIndex", .num st.currentIndex),
    ("isPlaying", .bool st.isPlaying), ("volume", .num st.volume),
    ("currentTime", .num st.currentTime)]

/-- The tables `jukebox_snapshots` and `jukebox` (the `data` column of its single row). -/
structure JbDb where
  snapshots : List Snapshot
  row : Option String
  deriving DecidableEq, Repr

/-- The function `jbSave(state)`: one transaction that inserts a snapshot and upserts the
jukebox row, both with `JSON.stringify(state)`. -/
def jbSave (db : JbDb) (st : JbState) : JbDb :=
  { snapshots := db.snapshots ++ [⟨maxId db.snapshots + 1, stringify st.toJson⟩],
    row := some (stringify st.toJson) }

/-- An event of the namespace `/jukebox` with its payload. -/
inductive JbEvent where
  /-- The event `state` with the whole `jbState`. -/
  | state (st : JbState)
  /-- The event `play_index` with `{ index, seek }`. -/
  | playIndex (index seek : Int)
  | paused
  | resumed
  /-- The event `volume` with `{ volume }`. -/
  | volume (volume : Int)
  /-- The event `seek` with `{ seconds }`. -/
  | seek (seconds : Int)
  /-- The event `toast` with a message. -/
  | toast (msg : String)

/-- What a handler does besides assigning `jbState`, in order. -/
inductive JbEffect where
  /-- The call `jbSave(jbState)` with the state at that moment. -/
  | save (st : JbState)
  /-- The call `jbio.emit` (audience `all`) or `socket.broadcast.emit` (audience `others`). -/
  | emit (audience : Audience) (event : JbEvent)

/-- The playlist state a handler leaves and its effects. -/
structure JbOutcome where
  state : JbState
  effects : List JbEffect

/-- The operand `v || fallback`. -/
def orElse (v : Option Json) (fallback : Json) : Json :=
  match v with
  | some w => if truthy w then w else fallback
  | none => fallback

/-- The own property `k` of an array or object, as destructuring reads it. -/
def ownField (v : Json) (k : String) : Option Json :=
  match v with
  | .obj kvs => kvs.lookup k
  | _ => none

/-- The handler of `add_track`. -/
def addTrack (st : JbState) (item : Json) : JbOutcome :=
  if !isObjectLike item then ⟨st, []⟩
  else
    match ownField item "videoId" with
    | none => ⟨st, []⟩
    | some videoId =>
      if !truthy videoId then ⟨st, []⟩
      else
        let st2 : JbState :=
          { st with playlist := st.playlist ++
              [{ url := orElse (ownField item "url") (.str ""), videoId := videoId,
                 badge := orElse (ownField item "badge") .null,
                 title := orElse (ownField item "title") (.str "") }] }
        ⟨st2, [.save st2, .emit .all (.state st2)]⟩

/-- The handler of `play_index`. -/
def playIndex (st : JbState) (index seek : Option Int) : JbOutcome :=
  if st.playlist.length = 0 then ⟨st, []⟩
  else
    let i := clamp (index.getD 0) 0 ((st.playlist.length : Int) - 1)
    let st2 : JbState :=
      { st with currentIndex := i, isPlaying := true, currentTime := max 0 (seek.getD 0) }
    ⟨st2, [.save st2, .emit .all (.playIndex i st2.currentTime), .emit .all (.state st2)]⟩

/-- The handler of `skip_next`. -/
def skipNext (st : JbState) : JbOutcome :=
  if st.playlist.length = 0 then ⟨st, []⟩
  else
    let i0 : Int := if st.currentIndex < 0 then 0 else st.currentIndex + 1
    let i : Int := if i0 ≥ (st.playlist.length : Int) then 0 else i0
    let st2 : JbState := { st with currentIndex := i, isPlaying := true, currentTime := 0 }
    ⟨st2, [.save st2, .emit .all (.playIndex i 0), .emit .all (.state st2)]⟩

/-- The handler of `skip_prev`. -/
def skipPrev (st : JbState) : JbOutcome :=
  if st.playlist.length = 0 then ⟨st, []⟩
  else
    let i : Int :=
      if st.currentIndex ≤ 0 then (st.playlist.length : Int) - 1 else st.currentIndex - 1
    let st2 : JbState := { st with currentIndex := i, isPlaying := true, currentTime := 0 }
    ⟨st2, [.save st2, .emit .all (.playIndex i 0), .emit .all (.state st2)]⟩

/-- The handler of `pause`. -/
def pause (st : JbState) : JbOutcome :=
  let st2 : JbState := { st with isPlaying := false }
  ⟨st2, [.save st2, .emit .all .paused, .emit .all (.state st2)]⟩

/-- The handler of `resume`. -/
def resume (st : JbState) : JbOutcome :=
  let st2 : JbState := { st with isPlaying := true }
  ⟨st2, [.save st2, .emit .all .resumed, .emit .all (.state st2)]⟩

/-- The handler of `set_volume`. -/
def setVolume (st : JbState) (volume : Option Int) : JbOutcome :=
  let v := clamp (volume.getD st.volume) 0 100
  let st2 : JbState := { st with volume := v }
  ⟨st2, [.save st2, .emit .all (.volume v)]⟩

/-- The handler of `seek_to`. -/
def seekTo (st : JbState) (seconds : Option Int) : JbOutcome :=
  let t := max 0 (seconds.getD 0)
  let st2 : JbState := { st with currentTime := t }
  ⟨st2, [.save st2, .emit .others (.seek t)]⟩

/-- The handler of `remove_index`. -/
def removeIndex (st : JbState) (index : Option Int) : JbOutcome :=
  if st.playlist.length = 0 then ⟨st, []⟩
  else
    let i := clamp (index.getD (-1)) 0 ((st.playlist.length : Int) - 1)
    let removingCurrent : Bool := i == st.currentIndex
    let rest := spliceRemove st.playlist i.toNat
    if rest.length = 0 then
      let st2 : JbState :=
        { st with playlist := rest, currentIndex := -1, isPlaying := false, currentTime := 0 }
      ⟨st2, [.emit .all (.toast "Playlist vazia."), .save st2, .emit .all (.state st2)]⟩
    else if removingCurrent then
      let next := min i ((rest.length : Int) - 1)
      let st2 : JbState :=
        { st with playlist := rest, currentIndex := next, isPlaying := true, currentTime := 0 }
      ⟨st2, [.emit .all (.playIndex next 0), .save st2, .emit .all (.state st2)]⟩
    else
      let st2 : JbState :=
        { st with playlist := rest,
                  currentIndex := if i < st.currentIndex then st.currentIndex - 1
                                  else st.currentIndex }
      ⟨st2, [.save st2, .emit .all (.state st2)]⟩

/-- The handler of `reorder`. -/
def reorder (st : JbState) (fromIdx toIdx : Option Int) : JbOutcome :=
  if st.playlist.length = 0 then ⟨st, []⟩
  else
    let f := clamp (fromIdx.getD (-1)) 0 ((st.playlist.length : Int) - 1)
    let t := clamp (toIdx.getD (-1)) 0 ((st.playlist.length : Int) - 1)
    if f = t then ⟨st, []⟩
    else
      let c := st.currentIndex
      let st2 : JbState :=
        { st with playlist := moveItem st.playlist f.toNat t.toNat,
                  currentIndex :=
                    if c = f then t
                    else if f < c ∧ t ≥ c then c - 1
                    else if f > c ∧ t ≤ c then c + 1
                    else c }
      ⟨st2, [.save st2, .emit .all (.state st2)]⟩

/-- The commands of the namespace `/jukebox` that assign `jbState`. -/
inductive JbCmd where
  | addTrack (item : Json)
  | playIndex (index seek : Option Int)
  | skipNext
  | skipPrev
  | pause
  | resume
  | setVolume (volume : Option Int)
  | seekTo (seconds : Option Int)
  | removeIndex (index : Option Int)
  | reorder (fromIdx toIdx : Option Int)

/-- The handler of a command. -/
def handleCmd (st : JbState) : JbCmd → JbOutcome
  | .addTrack item => addTrack st item
  | .playIndex index seek => playIndex st index seek
  | .skipNext => skipNext st
  | .skipPrev => skipPrev st
  | .pause => pause st
  | .resume => resume st
  | .setVolume volume => setVolume st volume
  | .seekTo seconds => seekTo st seconds
  | .removeIndex index => removeIndex st index
  | .reorder f t => reorder st f t

/-- The database after the effects of a handler. -/
def applyEffects (db : JbDb) : List JbEffect → JbDb
  | [] => db
  | .save st :: rest => applyEffects (jbSave db st) rest
  | .emit _ _ :: rest => applyEffects db rest

/-- The playlist states reachable from the default state through the commands. -/
inductive JbReachable : JbState → Prop where
  | default : JbReachable defaultJBState
  | step (st : JbState) (cmd : JbCmd) : JbReachable st → JbReachable (handleCmd st cmd).state

/-! ## The legacy jukebox `jukebox.server.mjs`

The variant that keeps the playlist in the table `jb_tracks` and the transport state in the row
of `jb_state`, next to the in-memory object `state`.  (`jukebox.server.js` has the same
functions over the asynchronous `sqlite3` driver.)

A number that reaches `removeAt` or `move` is `Number(x)` of a payload field: an integer, or
`NaN` when the field is missing.  The values bound to the columns of `jb_tracks` are kept as
they are passed. -/

/-- A number argument: `NaN` or an integer. -/
inductive JsNum where
  | nan
  | int (i : Int)
  deriving DecidableEq, Repr

/-- The helper `clamp(n, a, b) = Math.max(a, Math.min(b, n))` on an argument that may be `NaN`:
`Math.min` and `Math.max` return `NaN` as soon as an operand is `NaN`. -/
def JsNum.clamp (n : JsNum) (a b : Int) : JsNum :=
  match n with
  | .nan => .nan
  | .int i => .int (RpgRealtime.clamp i a b)

/-- The start index `splice` derives from its first argument: `NaN` converts to 0. -/
def JsNum.start (n : JsNum) : Nat :=
  match n with
  | .nan => 0
  | .int i => i.toNat

/-- Strict equality `a === b`: false as soon as an operand is `NaN`. -/
def JsNum.strictEq (a b : JsNum) : Bool :=
  match a, b with
  | .int i, .int j => i == j
  | _, _ => false

/-- The comparison `a < b`: false as soon as an operand is `NaN`. -/
def JsNum.lt (a b : JsNum) : Bool :=
  match a, b with
  | .int i, .int j => decide (i < j)
  | _, _ => false

/-- The comparison `a <= b`: false as soon as an operand is `NaN`. -/
def JsNum.le (a b : JsNum) : Bool :=
  match a, b with
  | .int i, .int j => decide (i ≤ j)
  | _, _ => false

/-- The increment `n + d`. -/
def JsNum.add (n : JsNum) (d : Int) : JsNum :=
  match n with
  | .nan => .nan
  | .int i => .int (i + d)

/-- A row of `jb_tracks`, also the shape of an element of `state.playlist`. -/
structure JbTrack where
  id : Nat
  videoId : Json
  url : Json
  title : Json
  badge : Json
  addedBy : Json
  position : Int

/-- The in-memory object `state` of the legacy variant. -/
structure LegacyState where
  playlist : List JbTrack
  currentIndex : JsNum
  isPlaying : Bool
  volume : Int
  currentTime : Int

/-- The columns of the row `id = 1` of `jb_state`. -/
structure JbStateRow where
  currentIndex : JsNum
  isPlaying : Int
  volume : Int
  currentTime : Int

/-- The legacy database: the rows of `jb_tracks` in insertion order, the largest id
`AUTOINCREMENT` has given so far, and the row of `jb_state`. -/
structure LegacyDb where
  tracks : List JbTrack
  seq : Nat
  stateRow : JbStateRow

/-- The legacy jukebox: the object `state` and the database. -/
structure Legacy where
  state : LegacyState
  db : LegacyDb

/-- The query `SELECT COALESCE(MAX(position), -1) FROM jb_tracks`. -/
def maxPosition (rows : List JbTrack) : Int :=
  rows.foldr (fun r m => max r.position m) (-1)

/-- The largest id among the rows, 0 when there is none. -/
def maxRowId (rows : List JbTrack) : Nat :=
  rows.foldr (fun r m => max r.id m) 0

/-- The statement `DELETE FROM jb_tracks WHERE id=?`. -/
def deleteTrack (rows : List JbTrack) (id : Nat) : List JbTrack :=
  rows.filter (fun r => r.id != id)

/-- The statement `UPDATE jb_tracks SET position=? WHERE id=?`. -/
def updatePosition (rows : List JbTrack) (position : Int) (id : Nat) : List JbTrack :=
  rows.map (fun r => if r.id = id then { r with position := position } else r)

/-- The function `saveState()` without a partial update: the row of `jb_state` takes the fields
of `state`. -/
def saveState (s : Legacy) : Legacy :=
  { s with db := { s.db with stateRow :=
      { currentIndex := s.state.currentIndex, isPlaying := if s.state.isPlaying then 1 else 0,
        volume := s.state.volume, currentTime := s.state.currentTime } } }

/-- The function `insertTrack`: the new row takes the position after the largest one of the
table and the next id; the same object is pushed onto `state.playlist`.  The optional fields
default to `null`. -/
def insertTrack (s : Legacy) (videoId url : Json) (title badge addedBy : Option Json) :
    Legacy :=
  let pos := maxPosition s.db.tracks + 1
  let id := max s.db.seq (maxRowId s.db.tracks) + 1
  let row : JbTrack :=
    { id := id, videoId := videoId, url := url, title := title.getD .null,
      badge := badge.getD .null, addedBy := addedBy.getD .null, position := pos }
  { state := { s.state with playlist := s.state.playlist ++ [row] },
    db := { s.db with tracks := s.db.tracks ++ [row], seq := id } }

/-- The in-memory half of the loop of `reindexAndPersist`: `t.position = i` for the `i`-th
track, counting from the first argument. -/
def reindexFrom (i : Nat) : List JbTrack → List JbTrack
  | [] => []
  | t :: ts => { t with position := (i : Int) } :: reindexFrom (i + 1) ts

/-- The database half of the loop of `reindexAndPersist`: `upd.run(i, t.id)` for the `i`-th
track, counting from the first argument. -/
def persistFrom (i : Nat) (rows : List JbTrack) : List JbTrack → List JbTrack
  | [] => rows
  | t :: ts => persistFrom (i + 1) (updatePosition rows (i : Int) t.id) ts

/-- The function `reindexAndPersist()`. -/
def reindexAndPersist (s : Legacy) : Legacy :=
  { state := { s.state with playlist := reindexFrom 0 s.state.playlist },
    db := { s.db with tracks := persistFrom 0 s.db.tracks s.state.playlist } }

/-- The element `state.playlist[index]`, `undefined` (`none`) unless the index is an integer
inside the playlist. -/
def playlistAt (pl : List JbTrack) (index : JsNum) : Option JbTrack :=
  match index with
  | .nan => none
  | .int i => if i < 0 then none else pl.get? i.toNat

/-- The function `removeAt(index)`. -/
def removeAt (s : Legacy) (index : JsNum) : Legacy :=
  match playlistAt s.state.playlist index with
  | none => s
  | some item =>
    let s1 : Legacy :=
      { state := { s.state with playlist := spliceRemove s.state.playlist index.start },
        db := { s.db with tracks := deleteTrack s.db.tracks item.id } }
    let s2 := reindexAndPersist s1
    let s3 : Legacy :=
      if JsNum.le (.int s2.state.playlist.length) s2.state.currentIndex then
        { s2 with state := { s2.state with
            currentIndex := .int ((s2.state.playlist.length : Int) - 1) } }
      else s2
    saveState s3

/-- The function `move(from, to)`. -/
def move (s : Legacy) (fromIdx toIdx : JsNum) : Legacy :=
  if s.state.playlist.length = 0 then s
  else
    let f := fromIdx.clamp 0 ((s.state.playlist.length : Int) - 1)
    let t := toIdx.clamp 0 ((s.state.playlist.length : Int) - 1)
    if f.strictEq t then s
    else
      match s.state.playlist.get? f.start with
      | none => s
      | some it =>
        let s1 : Legacy :=
          { s with state := { s.state with
              playlist := spliceInsert (spliceRemove s.state.playlist f.start) t.start it } }
        let s2 := reindexAndPersist s1
        let c := s2.state.currentIndex
        let s3 : Legacy :=
          { s2 with state := { s2.state with
              currentIndex :=
                if c.strictEq f then t
                else if f.lt c && c.le t then c.add (-1)
                else if c.lt f && t.le c then c.add 1
                else c } }
        saveState s3

/-- The three mutations of the legacy playlist. -/
inductive LegacyOp where
  | insertTrack (videoId url : Json) (title badge addedBy : Option Json)
  | removeAt (index : JsNum)
  | move (fromIdx toIdx : JsNum)

/-- One mutation. -/
def runLegacyOp (s : Legacy) : LegacyOp → Legacy
  | .insertTrack videoId url title badge addedBy => insertTrack s videoId url title badge addedBy
  | .removeAt index => removeAt s index
  | .move f t => move s f t

/-- A sequence of mutations, the first of the list first. -/
def runLegacyOps (s : Legacy) : List LegacyOp → Legacy
  | [] => s
  | op :: ops => runLegacyOps (runLegacyOp s op) ops

/-- The in-memory playlist and the table agree: the tracks in memory have distinct ids, the
table holds the same ids, a row and a track with the same id have the same position, and the
`i`-th track in memory has position `i`.  This is the state after `loadAll()` on a table whose
positions are `0..len-1`. -/
structure LegacySynced (s : Legacy) : Prop where
  nodup : (s.state.playlist.map (fun t => t.id)).Nodup
  sameIds : ∀ x, x ∈ s.db.tracks.map (fun r => r.id) ↔ x ∈ s.state.playlist.map (fun t => t.id)
  agree : ∀ r ∈ s.db.tracks, ∀ t ∈ s.state.playlist, t.id = r.id → r.position = t.position
  dense : ∀ (i : Nat) (t : JbTrack), s.state.playlist[i]? = some t → t.position = (i : Int)

/-- The legacy jukebox on an empty database. -/
def legacyEmpty : Legacy :=
  { state := { playlist := [], currentIndex := .int (-1), isPlaying := false, volume := 70,
               currentTime := 0 },
    db := { tracks := [], seq := 0,
            stateRow := { currentIndex := .int (-1), isPlaying := 0, volume := 70,
                          currentTime := 0 } } }

/-! ## A store that refuses the write

`saveStateToDB` and `jbSave` run one transaction.  When the store is unavailable the
transaction throws and the tables stay as they were.  In this part the flag `writeOk` says
whether the write of the operation goes through. -/

/-- The handler of `PUT /api/campaign` on a store that accepts or refuses the write.
`saveStateToDB(payload)` is the first statement after the guards, before `state` and
`currentETag` are assigned; its exception is caught by the handler and answered with 500. -/
def putCampaignOn (writeOk : Bool) (s : Server) (req : PutRequest) : Outcome :=
  if !isObjectLike req.body then
    ⟨s, some { status := 400, etagHeader := none, body := .failure }, []⟩
  else if jsLength (stringify req.body) > maxPayload then
    ⟨s, some { status := 413, etagHeader := none, body := .failure }, []⟩
  else if headerTruthy req.ifMatch && req.ifMatch != some s.currentETag then
    ⟨s, some { status := 412, etagHeader := none, body := .failure }, []⟩
  else if !allowEmpty req && stateLooksEmpty req.body then
    ⟨s, some { status := 422, etagHeader := none, body := .failure }, []⟩
  else if !writeOk then
    ⟨s, some { status := 500, etagHeader := none, body := .failure }, []⟩
  else
    let etag := sha1 (stringify req.body)
    ⟨{ db := saveStateToDB s.db req.body, state := req.body, currentETag := etag },
      some { status := 200, etagHeader := some etag, body := .okEtag etag },
      [⟨.all, "state:broadcast", req.body⟩]⟩

/-- The socket handler of `state:update` on a store that accepts or refuses the write.  The
handler assigns `state = newState` and then calls `saveStateToDB(state)`; it has no `try`, so
the exception leaves it with `state` assigned and nothing emitted. -/
def stateUpdateOn (writeOk : Bool) (s : Server) (newState : Json) : Outcome :=
  if !isObjectLike newState then ⟨s, none, []⟩
  else if !writeOk then
    ⟨{ db := s.db, state := newState, currentETag := s.currentETag }, none, []⟩
  else
    ⟨{ db := saveStateToDB s.db newState, state := newState, currentETag := s.currentETag },
      none, [⟨.others, "state:broadcast", newState⟩]⟩

/-- The handler of `POST /api/campaign/restore/:id` on a store that accepts or refuses the
write.  `saveStateToDB(payload)` comes before the assignments; its exception is caught by the
handler and answered with 500. -/
def restoreCampaignOn (writeOk : Bool) (s : Server) (id : IdParam) : Outcome :=
  match id with
  | .notFinite => ⟨s, some { status := 400, etagHeader := none, body := .failure }, []⟩
  | .fraction => ⟨s, some { status := 404, etagHeader := none, body := .failure }, []⟩
  | .int i =>
    match findSnapshot s.db i with
    | none => ⟨s, some { status := 404, etagHeader := none, body := .failure }, []⟩
    | some row =>
      match jsonParse row.data with
      | .error _ => ⟨s, some { status := 500, etagHeader := none, body := .failure }, []⟩
      | .ok payload =>
        if !writeOk then
          ⟨s, some { status := 500, etagHeader := none, body := .failure }, []⟩
        else
          let etag := sha1 row.data
          ⟨{ db := saveStateToDB s.db payload, state := payload, currentETag := etag },
            some { status := 200, etagHeader := some etag, body := .okRestored i },
            [⟨.all, "state:broadcast", payload⟩]⟩

/-- The effects of a trace that come before its first call of `jbSave`. -/
def effectsBeforeSave : List JbEffect → List JbEffect
  | [] => []
  | .save _ :: _ => []
  | .emit audience event :: rest => .emit audience event :: effectsBeforeSave rest

/-- The state handed to the first call of `jbSave` of a trace, `none` when the trace has no
such call. -/
def savedState : List JbEffect → Option JbState
  | [] => none
  | .save st :: _ => some st
  | .emit _ _ :: rest => savedState rest

/-- A command of the namespace `/jukebox` on a store that accepts or refuses the write.  Every
handler assigns the fields of `jbState` in place and then calls `jbSave(jbState)`.  When the
call throws, the rest of the handler is skipped (`add_track` swallows the exception in its
`catch`, the other handlers have no `try`): `jbState` keeps the value handed to `jbSave`, and
the events emitted are those before the call. -/
def handleCmdOn (writeOk : Bool) (st : JbState) (cmd : JbCmd) : JbOutcome :=
  let o := handleCmd st cmd
  if writeOk then o
  else
    match savedState o.effects with
    | none => o
    | some atSave => ⟨atSave, effectsBeforeSave o.effects⟩

/-- The event is the full-state event `state`. -/
def JbEvent.isState : JbEvent → Bool
  | .state _ => true
  | _ => false

/-- The effect emits the event `state`. -/
def JbEffect.emitsState : JbEffect → Bool
  | .emit _ event => event.isState
  | .save _ => false

/-! ## The legacy handlers compared with `server.js` -/

/-- The operand `Number(x) || d`: the default when the number is `NaN` or 0. -/
def JsNum.orDefault (n : JsNum) (d : Int) : Int :=
  match n with
  | .nan => d
  | .int i => if i = 0 then d else i

/-- The handler of `set_volume` of the legacy variants:
`saveState(\x7b volume: clamp(Number(volume) || 70, 0, 100) \x7d)`; the argument is
`Number(volume)`. -/
def legacySetVolume (s : Legacy) (volume : JsNum) : Legacy :=
  saveState { s with state := { s.state with volume := clamp (volume.orDefault 70) 0 100 } }

/-- The fields of a legacy track that a track of `server.js` has. -/
def JbTrack.toTrack (t : JbTrack) : Track :=
  { url := t.url, videoId := t.videoId, badge := t.badge, title := t.title }

/-! ## The client `public/jukebox.js`: the handler of `state`

Times are numbers of seconds; the model takes them as exact rationals. -/

/-- What the handler reads: the flag `ytReady`, `ytPlayer.getVideoData().video_id` (`none` when
the player has none) and `ytPlayer.getCurrentTime()`. -/
structure Player where
  ready : Bool
  videoId : Option String
  time : ℚ

/-- A call the handler makes on the player. -/
inductive PlayerCall where
  /-- The call `loadVideoById(videoId)`, or `loadVideoById(\x7b videoId, startSeconds \x7d)`. -/
  | loadVideoById (videoId : Json) (startSeconds : Option ℚ)
  /-- The call `seekTo(seconds, true)`. -/
  | seekTo (seconds : ℚ)
  | playVideo
  | pauseVideo
  /-- The call `setVolume(volume)`. -/
  | setVolume (volume : Int)

/-- The call reloads the media. -/
def PlayerCall.isLoad : PlayerCall → Bool
  | .loadVideoById _ _ => true
  | _ => false

/-- The call resynchronises the time. -/
def PlayerCall.isSeek : PlayerCall → Bool
  | .seekTo _ => true
  | _ => false

/-- The comparison `curId !== want` of the loaded id with the `videoId` of a track: the two are
equal only when `want` is the same string. -/
def idDiffers (curId : Option String) (want : Json) : Bool :=
  match curId, want with
  | some a, .str b => a != b
  | _, _ => true

/-- The function `loadAndPlay(index, seek)`: the calls on the player. -/
def loadAndPlay (p : Player) (st : JbState) (index : Int) (seek : ℚ) : List PlayerCall :=
  if index < 0 then []
  else
    match st.playlist.get? index.toNat with
    | none => []
    | some item =>
      if !p.ready then []
      else
        [if seek > 0 then .loadVideoById item.videoId (some seek)
         else .loadVideoById item.videoId none,
         .setVolume st.volume]

/-- The handler of the event `state`, from the point where `Object.assign(state, incoming)` has
made the client state the pushed one: the calls on the player, in order. -/
def onState (p : Player) (st : JbState) : List PlayerCall :=
  if !p.ready || decide (st.currentIndex < 0) then []
  else
    match st.playlist.get? st.currentIndex.toNat with
    | none => []
    | some item =>
      let desiredTime : ℚ := max 0 (st.currentTime : ℚ)
      let localTime : ℚ := max 0 p.time
      let delta : ℚ := |localTime - desiredTime|
      let sync : List PlayerCall :=
        if idDiffers p.videoId item.videoId then loadAndPlay p st st.currentIndex desiredTime
        else if delta > 3 / 2 then [.seekTo desiredTime]
        else []
      sync ++ [if st.isPlaying then .playVideo else .pauseVideo, .setVolume st.volume]

/-! ## The route `DELETE /api/albums/:album`

Paths are taken below `UPLOADS_DIR`, as lists of segments. -/

/-- The directory `GALLERY_ROOT = path.join(UPLOADS_DIR, "images")`. -/
def GALLERY_ROOT : List String := ["images"]

/-- The directory `THUMBS_ROOT = path.join(GALLERY_ROOT, "_thumbs")`. -/
def THUMBS_ROOT : List String := GALLERY_ROOT ++ ["_thumbs"]

/-- The method `toLowerCase` on one character, as far as `normaliza` can tell: the capital
letters `A`..`Z`, the Kelvin sign (U+212A, lower case `k`) and the dotted capital I (U+0130,
lower case `i` followed by U+0307) are the characters whose lower case has a character of
ASCII; the lower case of any other character is outside ASCII like the character itself. -/
def lowerChar (c : Char) : List Char :=
  let n := c.toNat
  if 65 ≤ n ∧ n ≤ 90 then [Char.ofNat (n + 32)]
  else if n = 8490 then [Char.ofNat 107]
  else if n = 304 then [Char.ofNat 105, Char.ofNat 775]
  else [c]

/-- The characters the pattern `/[^a-z0-9-_]/gi` does not match: letters of ASCII in either
case, digits, the hyphen and the underscore. -/
def keptChar (c : Char) : Bool :=
  let n := c.toNat
  (97 ≤ n && n ≤ 122) || (65 ≤ n && n ≤ 90) || (48 ≤ n && n ≤ 57) || n = 45 || n = 95

/-- The function `normaliza(s)`:
`String(s).trim().toLowerCase().replace(/[^a-z0-9-_]/gi, "")`. -/
def normaliza (s : String) : String :=
  String.mk (((jsTrim s.data).map lowerChar).flatten.filter keptChar)

/-- The reply status of the route and the directories handed to `fsp.rm`, in order. -/
structure AlbumOutcome where
  status : Nat
  removed : List (List String)
  deriving DecidableEq, Repr

/-- The handler of `DELETE /api/albums/:album`; the argument is `req.params.album`.  The
normalised name has neither a separator nor a dot, so `path.join(root, album)` is the root
followed by one more segment. -/
def deleteAlbum (param : String) : AlbumOutcome :=
  let album := normaliza param
  if album.data.length = 0 then ⟨400, []⟩
  else if album = "default" then ⟨400, []⟩
  else ⟨200, [GALLERY_ROOT ++ [album], THUMBS_ROOT ++ [album]]⟩

/-- The call `fsp.rm(dir, \x7b recursive: true, force: true \x7d)` on the files of a disk:
what is at `dir` or below it goes. -/
def rmRecursive (files : List (List String)) (dir : List String) : List (List String) :=
  files.filter (fun f => !(dir.isPrefixOf f))

/-- The files left on the disk by `DELETE /api/albums/:album`. -/
def deleteAlbumFiles (files : List (List String)) (param : String) : List (List String) :=
  (deleteAlbum param).removed.foldl rmRecursive files

/-- The place of an image of an album (`albumDir` of `images.js`). -/
def imagePath (album file : String) : List String := GALLERY_ROOT ++ [album, file]

/-- The place of the thumbnail of an image of an album (`albumDir` of `images.js`). -/
def thumbPath (album file : String) : List String := THUMBS_ROOT ++ [album, file ++ ".webp"]

/-! ## Measures used in the proofs -/

mutual
/-- Fuel that `parseValue` needs to read back the serialized form of a value. -/
def jsonSize : Json → Nat
  | .arr xs => 1 + elemsSize xs
  | .obj kvs => 1 + membersSize kvs
  | _ => 1
/-- Fuel that `parseElems` needs for the elements of an array. -/
def elemsSize : List Json → Nat
  | [] => 0
  | x :: xs => 1 + jsonSize x + elemsSize xs
/-- Fuel that `parseMembers` needs for the members of an object. -/
def membersSize : List (String × Json) → Nat
  | [] => 0
  | (_, v) :: kvs => 1 + jsonSize v + membersSize kvs
end

/-- The text after a value does not continue a number: it is empty or starts with a character
that is neither a digit nor the start of a fraction or an exponent. -/
def NumberEnds (rest : List Char) : Prop :=
  ∀ c tl, rest = c :: tl → isDigitChar c = false ∧ c.toNat ≠ 46 ∧ c.toNat ≠ 101 ∧ c.toNat ≠ 69

/-- A text the server itself wrote: the serialized form of a value other than `null`
(`saveStateToDB` serializes `stateObj ?? {}`). -/
def WrittenByServer (data : String) : Prop :=
  ∃ w : Json, w ≠ .null ∧ data = stringify w

/-- What every database the server has written satisfies: each snapshot and the campaign row
hold a text written by the server, and snapshot ids increase along the log. -/
structure StoreOk (db : Db) : Prop where
  rows : ∀ r ∈ db.snapshots, WrittenByServer r.data
  ids : (db.snapshots.map (fun r => r.id)).Pairwise (fun a b => a < b)
  row : ∀ d, db.campaign = some d → WrittenByServer d

/-! ## Sample values -/

/-- The server right after a first start without `campaign.json`. -/
def freshServer : Server :=
  { db := saveStateToDB Db.empty (.obj []), state := .obj [],
    currentETag := sha1 (stringify (.obj [])) }

/-- A text of 2,500,000 letters. -/
def bigText : String := String.mk (List.replicate 2500000 (Char.ofNat 97))

/-- A document whose notes are `bigText`. -/
def bigDoc : Json := .obj [("notes", .str bigText)]

/-- A small document with a note. -/
def noteDoc : Json := .obj [("notes", .str "hi")]

/-- A document whose second table has a row, after a `null` entry in `tables`. -/
def holedDoc : Json :=
  .obj [("tables", .arr [.null, .obj [("rows", .arr [.arr [.str "x"]])]])]

/-- A document with one table that has a row. -/
def tableDoc : Json :=
  .obj [("tables", .arr [.obj [("rows", .arr [.arr [.str "x"]])]])]

/-- Four tracks `A`, `B`, `C`, `D`. -/
def trackA : Track := ⟨.str "https://youtu.be/A", .str "A", .null, .str ""⟩

/-- The second sample track. -/
def trackB : Track := ⟨.str "https://youtu.be/B", .str "B", .null, .str ""⟩

/-- The third sample track. -/
def trackC : Track := ⟨.str "https://youtu.be/C", .str "C", .null, .str ""⟩

/-- The fourth sample track. -/
def trackD : Track := ⟨.str "https://youtu.be/D", .str "D", .null, .str ""⟩

/-- The playlist `[A, B, C, D]` with the cursor on `B`, playing at second 12. -/
def fourTracks : JbState :=
  { playlist := [trackA, trackB, trackC, trackD], currentIndex := 1, isPlaying := true,
    volume := 70, currentTime := 12 }

/-- The state after `add_track` of a track with video id `A` on the default state. -/
def oneTrack : JbState := (addTrack defaultJBState (.obj [("videoId", .str "A")])).state

/-- A run of the legacy mutations: three tracks are added, the first is moved to the end, the
track at index 1 is removed. -/
def legacySampleOps : List LegacyOp :=
  [.insertTrack (.str "A") (.str "https://youtu.be/A") none none none,
   .insertTrack (.str "B") (.str "https://youtu.be/B") none none none,
   .insertTrack (.str "C") (.str "https://youtu.be/C") none none none,
   .move (.int 0) (.int 2), .removeAt (.int 1)]

/-- A disk with one image in the default album and one in the album `maps`, each with its
thumbnail. -/
def sampleDisk : List (List String) :=
  [imagePath "default" "a.png", thumbPath "default" "a.png",
   imagePath "maps" "b.png", thumbPath "maps" "b.png"]

/-- A player that has the video `B` loaded, at second 12. -/
def playerOnB : Player := { ready := true, videoId := some "B", time := 12 }

/-- The playlist `[A, B, C, D]` with the cursor on `C`. -/
def fourTracksOnC : JbState := { fourTracks with currentIndex := 2 }

/-- A legacy row for a track of `server.js`. -/
def legacyTrack (id : Nat) (t : Track) (position : Int) : JbTrack :=
  { id := id, videoId := t.videoId, url := t.url, title := t.title, badge := t.badge,
    addedBy := .null, position := position }

/-- The legacy jukebox with the playlist `[A, B, C, D]` and the cursor on `C`. -/
def legacyFour : Legacy :=
  { state :=
      { playlist := [legacyTrack 1 trackA 0, legacyTrack 2 trackB 1, legacyTrack 3 trackC 2,
                     legacyTrack 4 trackD 3],
        currentIndex := .int 2, isPlaying := true, volume := 70, currentTime := 12 },
    db :=
      { tracks := [legacyTrack 1 trackA 0, legacyTrack 2 trackB 1, legacyTrack 3 trackC 2,
                   legacyTrack 4 trackD 3],
        seq := 4,
        stateRow := { currentIndex := .int 2, isPlaying := 1, volume := 70, currentTime := 12 } } }

/-! ## Basic facts -/

set_option maxRecDepth 100000

theorem orEmptyObject_of_isObjectLike (v : Json) (h : isObjectLike v = true) :
    orEmptyObject v = v := by
  cases v <;> simp_all [isObjectLike, orEmptyObject]

theorem length_le_jsLength (s : String) : s.data.length ≤ jsLength s := by
  unfold jsLength
  induction s.data with
  | nil => simp
  | cons c cs ih =>
    simp only [List.map_cons, List.sum_cons, List.length_cons]
    split <;> omega

theorem quoteChar_length_pos (c : Char) : 1 ≤ (quoteChar c).length := by
  unfold quoteChar
  simp only
  repeat' split
  all_goals simp

theorem length_le_quoteBody (cs : List Char) : cs.length ≤ (quoteBody cs).length := by
  induction cs with
  | nil => simp [quoteBody]
  | cons c cs ih =>
    have := quoteChar_length_pos c
    simp only [quoteBody, List.length_cons, List.length_append]
    omega

theorem bigText_length : bigText.data.length = 2500000 := by
  unfold bigText
  exact List.length_replicate _ _

theorem length_lt_jsLength_notes (t : String) :
    t.data.length < jsLength (stringify (.obj [("notes", .str t)])) := by
  have h1 := length_le_jsLength (stringify (.obj [("notes", .str t)]))
  have h2 := length_le_quoteBody t.data
  have h4 : (quoteBody t.data).length
      < (stringify (.obj [("notes", .str t)])).data.length := by
    simp only [stringify, stringifyChars, stringifyMembers, stringifyMembersTail,
      quoteString, List.length_cons, List.length_append, List.append_nil]
    omega
  omega

theorem bigDoc_too_large : jsLength (stringify bigDoc) > maxPayload := by
  have h1 := length_lt_jsLength_notes bigText
  have h3 := bigText_length
  unfold maxPayload
  unfold bigDoc
  omega

theorem freshServer_boot : boot Db.empty none = .ok freshServer := by
  rfl

theorem freshServer_reachable : Reachable freshServer :=
  Reachable.start none freshServer freshServer_boot

/-! ## `JSON.parse` undoes `JSON.stringify` -/

theorem char_eq_of_toNat (c : Char) (n : Nat) (h : c.toNat = n) : c = Char.ofNat n := by
  rw [← h, Char.ofNat_toNat]

theorem hexVal_hexDigit : ∀ k, k < 16 → hexVal (hexDigit k) = some k := by
  decide

theorem hex4_low (n : Nat) (h : n < 32) :
    hex4 (Char.ofNat 48) (Char.ofNat 48) (hexDigit (n / 16)) (hexDigit (n % 16)) = some n := by
  have h1 := hexVal_hexDigit (n / 16) (by omega)
  have h2 := hexVal_hexDigit (n % 16) (by omega)
  have h0 : hexVal (Char.ofNat 48) = some 0 := by decide
  unfold hex4
  rw [h0, h1, h2]
  simp only [Option.some.injEq]
  omega

theorem parseStringBody_cons (c : Char) (cs acc : List Char) :
    parseStringBody (c :: cs) acc =
      if c.toNat = 34 then some (acc.reverse, cs)
      else if c.toNat = 92 then
        match cs with
        | [] => none
        | e :: rest =>
          if e.toNat = 117 then
            match rest with
            | h1 :: h2 :: h3 :: h4 :: r =>
              match hex4 h1 h2 h3 h4 with
              | some n =>
                if 55296 ≤ n ∧ n ≤ 57343 then none
                else parseStringBody r (Char.ofNat n :: acc)
              | none => none
            | _ => none
          else
            match unescapeChar e with
            | some ch => parseStringBody rest (ch :: acc)
            | none => none
      else if c.toNat < 32 then none
      else parseStringBody cs (c :: acc) := by
  rw [parseStringBody.eq_def]

theorem parseStringBody_escape (e ch : Char) (tail acc : List Char)
    (he : e.toNat ≠ 117) (hu : unescapeChar e = some ch) :
    parseStringBody (bslash :: e :: tail) acc = parseStringBody tail (ch :: acc) := by
  rw [parseStringBody_cons]
  have h1 : ¬ ((92 : Nat) = 34) := by decide
  have h2 : bslash.toNat = 92 := by decide
  simp only [h1, h2, he, hu, if_true, if_false]

theorem parseStringBody_quoteChar (c : Char) (tail acc : List Char) :
    parseStringBody (quoteChar c ++ tail) acc = parseStringBody tail (c :: acc) := by
  unfold quoteChar
  simp only
  split_ifs with h1 h2 h3 h4 h5 h6 h7 h8
  · rw [char_eq_of_toNat c _ h1]
    exact parseStringBody_escape _ _ _ _ (by decide) (by decide)
  · rw [char_eq_of_toNat c _ h2]
    exact parseStringBody_escape _ _ _ _ (by decide) (by decide)
  · rw [char_eq_of_toNat c _ h3]
    exact parseStringBody_escape _ _ _ _ (by decide) (by decide)
  · rw [char_eq_of_toNat c _ h4]
    exact parseStringBody_escape _ _ _ _ (by decide) (by decide)
  · rw [char_eq_of_toNat c _ h5]
    exact parseStringBody_escape _ _ _ _ (by decide) (by decide)
  · rw [char_eq_of_toNat c _ h6]
    exact parseStringBody_escape _ _ _ _ (by decide) (by decide)
  · rw [char_eq_of_toNat c _ h7]
    exact parseStringBody_escape _ _ _ _ (by decide) (by decide)
  · have hb1 : ¬ ((92 : Nat) = 34) := by decide
    have hb2 : bslash.toNat = 92 := by decide
    have hu : (Char.ofNat 117).toNat = 117 := by decide
    have hx := hex4_low c.toNat h8
    have hc : Char.ofNat c.toNat = c := Char.ofNat_toNat c
    have hs : ¬ (55296 ≤ c.toNat ∧ c.toNat ≤ 57343) := by omega
    simp only [List.cons_append, List.nil_append]
    rw [parseStringBody_cons]
    simp only [hb1, hb2, hu, hx, hs, hc, if_true, if_false]
  · simp only [List.cons_append, List.nil_append]
    rw [parseStringBody_cons]
    have h9 : ¬ c.toNat < 32 := h8
    simp only [h1, h2, h9, if_false]

theorem parseStringBody_quoteBody (cs tail acc : List Char) :
    parseStringBody (quoteBody cs ++ dquote :: tail) acc = some (acc.reverse ++ cs, tail) := by
  induction cs generalizing acc with
  | nil =>
    have h : dquote.toNat = 34 := by decide
    simp only [quoteBody, List.nil_append, List.append_nil]
    rw [parseStringBody_cons]
    simp only [h, if_true]
  | cons c cs ih =>
    simp only [quoteBody, List.append_assoc]
    rw [parseStringBody_quoteChar, ih]
    simp

theorem parseStringBody_quoteString (s : String) (tail : List Char) :
    ∃ body, quoteString s ++ tail = dquote :: body ∧
      parseStringBody body [] = some (s.data, tail) := by
  refine ⟨quoteBody s.data ++ dquote :: tail, ?_, ?_⟩
  · simp [quoteString]
  · rw [parseStringBody_quoteBody]
    simp

theorem digitChar_facts :
    ∀ d, d < 10 → isDigitChar (digitChar d) = true ∧ (digitChar d).toNat = 48 + d := by
  decide

theorem natDigits_digits (f n : Nat) : ∀ c ∈ natDigits f n, isDigitChar c = true := by
  induction f generalizing n with
  | zero => simp [natDigits]
  | succ f ih =>
    intro c hc
    unfold natDigits at hc
    split_ifs at hc with h
    · simp only [List.mem_singleton] at hc
      rw [hc]
      exact (digitChar_facts n h).1
    · rcases List.mem_append.mp hc with hc | hc
      · exact ih _ c hc
      · simp only [List.mem_singleton] at hc
        rw [hc]
        exact (digitChar_facts (n % 10) (by omega)).1

theorem digitsValue_append_single (xs : List Char) (c : Char) :
    digitsValue (xs ++ [c]) = digitsValue xs * 10 + (c.toNat - 48) := by
  simp [digitsValue, List.foldl_append]

theorem digitsValue_natDigits (f n : Nat) (h : n < f) : digitsValue (natDigits f n) = n := by
  induction f generalizing n with
  | zero => omega
  | succ f ih =>
    unfold natDigits
    split_ifs with h10
    · have := (digitChar_facts n h10).2
      simp [digitsValue, this]
    · rw [digitsValue_append_single, ih (n / 10) (by omega),
        (digitChar_facts (n % 10) (by omega)).2]
      omega

theorem natDigits_ne_nil (f n : Nat) (h : n < f) : natDigits f n ≠ [] := by
  cases f with
  | zero => omega
  | succ f =>
    unfold natDigits
    split_ifs <;> simp

theorem digitChar_ne_zero : ∀ d, d < 10 → 0 < d → digitChar d ≠ Char.ofNat 48 := by
  decide

theorem natDigits_head (f n : Nat) (h : n < f) (hpos : 0 < n) :
    (natDigits f n).head? ≠ some (Char.ofNat 48) := by
  induction f generalizing n with
  | zero => omega
  | succ f ih =>
    unfold natDigits
    split_ifs with h10
    · simp only [List.head?_cons, ne_eq, Option.some.injEq]
      exact digitChar_ne_zero n h10 hpos
    · have hne := natDigits_ne_nil f (n / 10) (by omega)
      have := ih (n / 10) (by omega) (by omega)
      cases hd : natDigits f (n / 10) with
      | nil => exact absurd hd hne
      | cons a as =>
        rw [hd] at this
        simpa using this

theorem takeWhile_digits_append (ds rest : List Char)
    (hds : ∀ c ∈ ds, isDigitChar c = true)
    (hrest : ∀ c tl, rest = c :: tl → isDigitChar c = false) :
    (ds ++ rest).takeWhile isDigitChar = ds ∧ (ds ++ rest).dropWhile isDigitChar = rest := by
  induction ds with
  | nil =>
    cases rest with
    | nil => simp
    | cons c tl => simp [hrest c tl rfl]
  | cons d ds ih =>
    have hd := hds d (by simp)
    have := ih (fun c hc => hds c (by simp [hc]))
    simp [hd, this]

theorem parseNat_natChars (n : Nat) (rest : List Char)
    (hrest : ∀ c tl, rest = c :: tl →
      isDigitChar c = false ∧ c.toNat ≠ 46 ∧ c.toNat ≠ 101 ∧ c.toNat ≠ 69) :
    parseNat (natChars n ++ rest) = some (n, rest) := by
  have hds := natDigits_digits (n + 1) n
  have hval := digitsValue_natDigits (n + 1) n (by omega)
  have hne := natDigits_ne_nil (n + 1) n (by omega)
  obtain ⟨htake, hdrop⟩ := takeWhile_digits_append (natChars n) rest hds
    (fun c tl h => (hrest c tl h).1)
  unfold parseNat
  simp only [htake, hdrop]
  have hlen : (natChars n).length ≠ 0 := by
    intro h
    exact hne (List.length_eq_zero.mp h)
  have hlead : ¬ ((natChars n).length ≠ 1 ∧ (natChars n).head? = some (Char.ofNat 48)) := by
    rintro ⟨h1, h2⟩
    rcases Nat.eq_zero_or_pos n with h0 | hpos
    · subst h0
      exact h1 (by decide)
    · exact natDigits_head (n + 1) n (by omega) hpos h2
  simp only [hlen, hlead, if_false]
  cases rest with
  | nil => simp [natChars, hval]
  | cons c tl =>
    obtain ⟨_, h1, h2, h3⟩ := hrest c tl rfl
    simp [h1, h2, h3, natChars, hval]

theorem natChars_head (n : Nat) :
    ∃ c tl, natChars n = c :: tl ∧ isDigitChar c = true := by
  have hne := natDigits_ne_nil (n + 1) n (by omega)
  cases h : natChars n with
  | nil => exact absurd h hne
  | cons c tl =>
    exact ⟨c, tl, rfl, natDigits_digits (n + 1) n c (by
      show c ∈ natChars n
      rw [h]
      simp)⟩

theorem parseNumber_intChars (z : Int) (rest : List Char)
    (hrest : ∀ c tl, rest = c :: tl →
      isDigitChar c = false ∧ c.toNat ≠ 46 ∧ c.toNat ≠ 101 ∧ c.toNat ≠ 69) :
    parseNumber (intChars z ++ rest) = some (.num z, rest) := by
  cases z with
  | ofNat n =>
    obtain ⟨c, tl, hc, hdig⟩ := natChars_head n
    have h45 : c.toNat ≠ 45 := by
      intro h
      simp [isDigitChar, h] at hdig
    have hp := parseNat_natChars n rest hrest
    simp only [intChars]
    rw [hc] at hp ⊢
    simp only [List.cons_append] at hp ⊢
    unfold parseNumber
    simp only [h45, if_false, hp]
    rfl
  | negSucc n =>
    have hp := parseNat_natChars (n + 1) rest hrest
    have h45 : (Char.ofNat 45).toNat = 45 := by decide
    simp only [intChars, List.cons_append]
    unfold parseNumber
    simp only [h45, if_true, hp]
    rfl

theorem skipWs_cons (c : Char) (cs : List Char) (h : isJsonWs c = false) :
    skipWs (c :: cs) = c :: cs := by
  simp [skipWs, List.dropWhile, h]

theorem parseValue_succ (fuel : Nat) (cs : List Char) :
    parseValue (fuel + 1) cs =
      match skipWs cs with
      | [] => none
      | c :: rest =>
        if c.toNat = 34 then
          match parseStringBody rest [] with
          | some (s, r) => some (.str (String.mk s), r)
          | none => none
        else if c.toNat = 91 then
          match skipWs rest with
          | [] => none
          | d :: r =>
            if d.toNat = 93 then some (.arr [], r)
            else
              match parseElems fuel (d :: r) with
              | some (xs, r2) => some (.arr xs, r2)
              | none => none
        else if c.toNat = 123 then
          match skipWs rest with
          | [] => none
          | d :: r =>
            if d.toNat = 125 then some (.obj [], r)
            else
              match parseMembers fuel (d :: r) with
              | some (kvs, r2) => some (.obj kvs, r2)
              | none => none
        else if c.toNat = 110 then
          match expect "ull".data rest with
          | some r => some (.null, r)
          | none => none
        else if c.toNat = 116 then
          match expect "rue".data rest with
          | some r => some (.bool true, r)
          | none => none
        else if c.toNat = 102 then
          match expect "alse".data rest with
          | some r => some (.bool false, r)
          | none => none
        else parseNumber (c :: rest) := by
  rw [parseValue]

theorem parseElems_succ (fuel : Nat) (cs : List Char) :
    parseElems (fuel + 1) cs =
      match parseValue fuel cs with
      | none => none
      | some (v, r) =>
        match skipWs r with
        | [] => none
        | d :: r2 =>
          if d.toNat = 44 then
            match parseElems fuel r2 with
            | some (xs, r3) => some (v :: xs, r3)
            | none => none
          else if d.toNat = 93 then some ([v], r2)
          else none := by
  rw [parseElems]

theorem parseMembers_succ (fuel : Nat) (cs : List Char) :
    parseMembers (fuel + 1) cs =
      match skipWs cs with
      | [] => none
      | q :: r =>
        if q.toNat = 34 then
          match parseStringBody r [] with
          | none => none
          | some (k, r1) =>
            match skipWs r1 with
            | [] => none
            | colon :: r2 =>
              if colon.toNat = 58 then
                match parseValue fuel r2 with
                | none => none
                | some (v, r3) =>
                  match skipWs r3 with
                  | [] => none
                  | d :: r4 =>
                    if d.toNat = 44 then
                      match parseMembers fuel r4 with
                      | some (kvs, r5) => some ((String.mk k, v) :: kvs, r5)
                      | none => none
                    else if d.toNat = 125 then some ([(String.mk k, v)], r4)
                    else none
              else none
        else none := by
  rw [parseMembers]

theorem intChars_head (z : Int) :
    ∃ c tl, intChars z = c :: tl ∧ (isDigitChar c = true ∨ c.toNat = 45) := by
  cases z with
  | ofNat n =>
    obtain ⟨c, tl, h, hd⟩ := natChars_head n
    exact ⟨c, tl, h, Or.inl hd⟩
  | negSucc n => exact ⟨Char.ofNat 45, natChars (n + 1), rfl, Or.inr (by decide)⟩

theorem digit_or_minus_facts (c : Char) (h : isDigitChar c = true ∨ c.toNat = 45) :
    isJsonWs c = false ∧ c.toNat ≠ 34 ∧ c.toNat ≠ 91 ∧ c.toNat ≠ 123 ∧ c.toNat ≠ 110 ∧
      c.toNat ≠ 116 ∧ c.toNat ≠ 102 ∧ c.toNat ≠ 93 ∧ c.toNat ≠ 125 := by
  unfold isDigitChar isJsonWs at *
  simp only [Bool.and_eq_true, decide_eq_true_eq] at h
  refine ⟨?_, ?_, ?_, ?_, ?_, ?_, ?_, ?_, ?_⟩ <;> first
    | (simp only [Bool.or_eq_false_iff, decide_eq_false_iff_not]; omega)
    | omega

theorem stringifyChars_head (v : Json) :
    ∃ c tl, stringifyChars v = c :: tl ∧ isJsonWs c = false ∧ c.toNat ≠ 93 := by
  cases v with
  | null => exact ⟨_, _, by rw [stringifyChars], by decide, by decide⟩
  | bool b =>
    cases b
    · exact ⟨_, _, by rw [stringifyChars], by decide, by decide⟩
    · exact ⟨_, _, by rw [stringifyChars], by decide, by decide⟩
  | num z =>
    obtain ⟨c, tl, h, hc⟩ := intChars_head z
    have hf := digit_or_minus_facts c hc
    exact ⟨c, tl, by rw [stringifyChars, h], hf.1, hf.2.2.2.2.2.2.2.1⟩
  | str s => exact ⟨_, _, by rw [stringifyChars, quoteString], by decide, by decide⟩
  | arr xs => exact ⟨_, _, by rw [stringifyChars], by decide, by decide⟩
  | obj kvs => exact ⟨_, _, by rw [stringifyChars], by decide, by decide⟩

theorem skipWs_stringifyChars (v : Json) (rest : List Char) :
    skipWs (stringifyChars v ++ rest) = stringifyChars v ++ rest := by
  obtain ⟨c, tl, h, hws, _⟩ := stringifyChars_head v
  rw [h, List.cons_append, skipWs_cons c _ hws]

theorem string_mk_data (s : String) : String.mk s.data = s := rfl

theorem numberEnds_of_head (c : Char) (tl : List Char)
    (h : c.toNat = 44 ∨ c.toNat = 93 ∨ c.toNat = 125) : NumberEnds (c :: tl) := by
  intro d tl2 hd
  simp only [List.cons.injEq] at hd
  obtain ⟨rfl, _⟩ := hd
  unfold isDigitChar
  refine ⟨?_, ?_, ?_, ?_⟩ <;> first
    | (simp only [Bool.and_eq_false_iff, decide_eq_false_iff_not]; omega)
    | omega

theorem parseValue_leaf_null (fuel : Nat) (rest : List Char) :
    parseValue (fuel + 1) (stringifyChars .null ++ rest) = some (.null, rest) := by
  rw [parseValue_succ, skipWs_stringifyChars]
  rw [stringifyChars]
  rfl

theorem parseValue_leaf_bool (b : Bool) (fuel : Nat) (rest : List Char) :
    parseValue (fuel + 1) (stringifyChars (.bool b) ++ rest) = some (.bool b, rest) := by
  rw [parseValue_succ, skipWs_stringifyChars]
  cases b
  · rw [stringifyChars]
    rfl
  · rw [stringifyChars]
    rfl

theorem parseValue_leaf_str (s : String) (fuel : Nat) (rest : List Char) :
    parseValue (fuel + 1) (stringifyChars (.str s) ++ rest) = some (.str s, rest) := by
  rw [parseValue_succ, skipWs_stringifyChars]
  obtain ⟨body, hb, hp⟩ := parseStringBody_quoteString s rest
  have hq : dquote.toNat = 34 := by decide
  rw [stringifyChars, hb]
  simp only [hq, if_true, hp, string_mk_data]

theorem parseValue_leaf_num (z : Int) (fuel : Nat) (rest : List Char) (hrest : NumberEnds rest) :
    parseValue (fuel + 1) (stringifyChars (.num z) ++ rest) = some (.num z, rest) := by
  rw [parseValue_succ, skipWs_stringifyChars]
  have hp := parseNumber_intChars z rest hrest
  obtain ⟨c, tl, h, hc⟩ := intChars_head z
  obtain ⟨_, h1, h2, h3, h4, h5, h6, _, _⟩ := digit_or_minus_facts c hc
  rw [stringifyChars]
  rw [h] at hp ⊢
  simp only [List.cons_append] at hp ⊢
  simp only [h1, h2, h3, h4, h5, h6, if_false, hp]

theorem stringifyElemsTail_cons (y : Json) (ys : List Json) :
    stringifyElemsTail (y :: ys) = Char.ofNat 44 :: stringifyElems (y :: ys) := by
  rw [stringifyElemsTail, stringifyElems]

theorem stringifyMembersTail_cons (kv : String × Json) (kvs : List (String × Json)) :
    stringifyMembersTail (kv :: kvs) = Char.ofNat 44 :: stringifyMembers (kv :: kvs) := by
  obtain ⟨k, v⟩ := kv
  rw [stringifyMembersTail, stringifyMembers]

theorem numberEnds_elemsTail (xs : List Json) (rest : List Char) :
    NumberEnds (stringifyElemsTail xs ++ Char.ofNat 93 :: rest) := by
  cases xs with
  | nil =>
    rw [stringifyElemsTail]
    exact numberEnds_of_head _ _ (Or.inr (Or.inl (by decide)))
  | cons y ys =>
    rw [stringifyElemsTail_cons]
    exact numberEnds_of_head _ _ (Or.inl (by decide))

theorem numberEnds_membersTail (kvs : List (String × Json)) (rest : List Char) :
    NumberEnds (stringifyMembersTail kvs ++ Char.ofNat 125 :: rest) := by
  cases kvs with
  | nil =>
    rw [stringifyMembersTail]
    exact numberEnds_of_head _ _ (Or.inr (Or.inr (by decide)))
  | cons y ys =>
    rw [stringifyMembersTail_cons]
    exact numberEnds_of_head _ _ (Or.inl (by decide))

/-- One step of `parseElems` on the serialized elements, given what the recursive calls
return. -/
theorem parseElems_step (x : Json) (xs : List Json) (f : Nat) (rest : List Char)
    (hv : parseValue f (stringifyChars x ++ (stringifyElemsTail xs ++ Char.ofNat 93 :: rest))
      = some (x, stringifyElemsTail xs ++ Char.ofNat 93 :: rest))
    (hxs : xs ≠ [] →
      parseElems f (stringifyElems xs ++ Char.ofNat 93 :: rest) = some (xs, rest)) :
    parseElems (f + 1) (stringifyElems (x :: xs) ++ Char.ofNat 93 :: rest)
      = some (x :: xs, rest) := by
  rw [parseElems_succ, stringifyElems, List.append_assoc, hv]
  cases xs with
  | nil =>
    have h1 : isJsonWs (Char.ofNat 93) = false := by decide
    have h2 : ¬ ((93 : Nat) = 44) := by decide
    have h3 : (Char.ofNat 93).toNat = 93 := by decide
    rw [stringifyElemsTail]
    simp only [List.nil_append, skipWs_cons _ _ h1, h2, h3, if_true, if_false]
  | cons y ys =>
    have h1 : isJsonWs (Char.ofNat 44) = false := by decide
    have h2 : (Char.ofNat 44).toNat = 44 := by decide
    rw [stringifyElemsTail_cons]
    simp only [List.cons_append, skipWs_cons _ _ h1, h2, if_true, hxs (by simp)]

/-- One step of `parseMembers` on the serialized members, given what the recursive calls
return. -/
theorem parseMembers_step (k : String) (v : Json) (kvs : List (String × Json)) (f : Nat)
    (rest : List Char)
    (hv : parseValue f
        (stringifyChars v ++ (stringifyMembersTail kvs ++ Char.ofNat 125 :: rest))
      = some (v, stringifyMembersTail kvs ++ Char.ofNat 125 :: rest))
    (hkvs : kvs ≠ [] →
      parseMembers f (stringifyMembers kvs ++ Char.ofNat 125 :: rest) = some (kvs, rest)) :
    parseMembers (f + 1) (stringifyMembers ((k, v) :: kvs) ++ Char.ofNat 125 :: rest)
      = some ((k, v) :: kvs, rest) := by
  obtain ⟨body, hb, hp⟩ := parseStringBody_quoteString k
    (Char.ofNat 58 ::
      (stringifyChars v ++ (stringifyMembersTail kvs ++ Char.ofNat 125 :: rest)))
  have hq1 : isJsonWs dquote = false := by decide
  have hq2 : dquote.toNat = 34 := by decide
  have hc1 : isJsonWs (Char.ofNat 58) = false := by decide
  have hc2 : (Char.ofNat 58).toNat = 58 := by decide
  rw [parseMembers_succ, stringifyMembers]
  simp only [List.append_assoc, List.cons_append]
  rw [hb]
  simp only [skipWs_cons _ _ hq1, hq2, if_true, hp, skipWs_cons _ _ hc1, hc2, hv,
    string_mk_data]
  cases kvs with
  | nil =>
    have h1 : isJsonWs (Char.ofNat 125) = false := by decide
    have h2 : ¬ ((125 : Nat) = 44) := by decide
    have h3 : (Char.ofNat 125).toNat = 125 := by decide
    rw [stringifyMembersTail]
    simp only [List.nil_append, skipWs_cons _ _ h1, h2, h3, if_true, if_false]
  | cons y ys =>
    have h1 : isJsonWs (Char.ofNat 44) = false := by decide
    have h2 : (Char.ofNat 44).toNat = 44 := by decide
    rw [stringifyMembersTail_cons]
    simp only [List.cons_append, skipWs_cons _ _ h1, h2, if_true, hkvs (by simp)]

/-- The array case of `parseValue`, given what `parseElems` returns. -/
theorem parseValue_arr_step (xs : List Json) (f : Nat) (rest : List Char)
    (hxs : xs ≠ [] →
      parseElems f (stringifyElems xs ++ Char.ofNat 93 :: rest) = some (xs, rest)) :
    parseValue (f + 1) (stringifyChars (.arr xs) ++ rest) = some (.arr xs, rest) := by
  have hb1 : ¬ ((91 : Nat) = 34) := by decide
  have hb2 : (Char.ofNat 91).toNat = 91 := by decide
  rw [parseValue_succ, skipWs_stringifyChars, stringifyChars]
  simp only [List.cons_append, List.append_assoc, List.nil_append, hb1, hb2, if_true, if_false]
  cases xs with
  | nil =>
    have h1 : isJsonWs (Char.ofNat 93) = false := by decide
    have h3 : (Char.ofNat 93).toNat = 93 := by decide
    rw [stringifyElems]
    simp only [List.nil_append, skipWs_cons _ _ h1, h3, if_true]
  | cons x xs =>
    obtain ⟨d, tl, hd, hws, h93⟩ := stringifyChars_head x
    have hpar := hxs (by simp)
    rw [stringifyElems, hd] at hpar ⊢
    simp only [List.cons_append] at hpar ⊢
    simp only [skipWs_cons _ _ hws, h93, if_false, hpar]

/-- The object case of `parseValue`, given what `parseMembers` returns. -/
theorem parseValue_obj_step (kvs : List (String × Json)) (f : Nat) (rest : List Char)
    (hkvs : kvs ≠ [] →
      parseMembers f (stringifyMembers kvs ++ Char.ofNat 125 :: rest) = some (kvs, rest)) :
    parseValue (f + 1) (stringifyChars (.obj kvs) ++ rest) = some (.obj kvs, rest) := by
  have hb1 : ¬ ((123 : Nat) = 34) := by decide
  have hb2 : ¬ ((123 : Nat) = 91) := by decide
  have hb3 : (Char.ofNat 123).toNat = 123 := by decide
  rw [parseValue_succ, skipWs_stringifyChars, stringifyChars]
  simp only [List.cons_append, List.append_assoc, List.nil_append, hb1, hb2, hb3, if_true,
    if_false]
  cases kvs with
  | nil =>
    have h1 : isJsonWs (Char.ofNat 125) = false := by decide
    have h3 : (Char.ofNat 125).toNat = 125 := by decide
    rw [stringifyMembers]
    simp only [List.nil_append, skipWs_cons _ _ h1, h3, if_true]
  | cons kv kvs =>
    obtain ⟨k, v⟩ := kv
    have hq1 : isJsonWs dquote = false := by decide
    have hq2 : dquote.toNat = 34 := by decide
    have hq3 : ¬ ((34 : Nat) = 125) := by decide
    have hpar := hkvs (by simp)
    rw [stringifyMembers, quoteString] at hpar ⊢
    simp only [List.cons_append] at hpar ⊢
    simp only [skipWs_cons _ _ hq1, hq2, hq3, if_false, hpar]

mutual
/-- With enough fuel `parseValue` reads back a serialized value and leaves the rest. -/
theorem parseValue_stringifyChars : ∀ (v : Json) (fuel : Nat) (rest : List Char),
    jsonSize v ≤ fuel → NumberEnds rest →
    parseValue fuel (stringifyChars v ++ rest) = some (v, rest)
  | .null, fuel, rest, hf, _ => by
    obtain ⟨f, rfl⟩ : ∃ f, fuel = f + 1 := ⟨fuel - 1, by simp only [jsonSize] at hf; omega⟩
    exact parseValue_leaf_null f rest
  | .bool b, fuel, rest, hf, _ => by
    obtain ⟨f, rfl⟩ : ∃ f, fuel = f + 1 := ⟨fuel - 1, by simp only [jsonSize] at hf; omega⟩
    exact parseValue_leaf_bool b f rest
  | .num z, fuel, rest, hf, hr => by
    obtain ⟨f, rfl⟩ : ∃ f, fuel = f + 1 := ⟨fuel - 1, by simp only [jsonSize] at hf; omega⟩
    exact parseValue_leaf_num z f rest hr
  | .str s, fuel, rest, hf, _ => by
    obtain ⟨f, rfl⟩ : ∃ f, fuel = f + 1 := ⟨fuel - 1, by simp only [jsonSize] at hf; omega⟩
    exact parseValue_leaf_str s f rest
  | .arr xs, fuel, rest, hf, _ => by
    obtain ⟨f, rfl⟩ : ∃ f, fuel = f + 1 := ⟨fuel - 1, by simp only [jsonSize] at hf; omega⟩
    exact parseValue_arr_step xs f rest
      (fun hne => parseElems_stringifyElems xs f rest hne
        (by simp only [jsonSize] at hf; omega))
  | .obj kvs, fuel, rest, hf, _ => by
    obtain ⟨f, rfl⟩ : ∃ f, fuel = f + 1 := ⟨fuel - 1, by simp only [jsonSize] at hf; omega⟩
    exact parseValue_obj_step kvs f rest
      (fun hne => parseMembers_stringifyMembers kvs f rest hne
        (by simp only [jsonSize] at hf; omega))
/-- With enough fuel `parseElems` reads back the serialized elements of an array. -/
theorem parseElems_stringifyElems : ∀ (xs : List Json) (fuel : Nat) (rest : List Char),
    xs ≠ [] → elemsSize xs ≤ fuel →
    parseElems fuel (stringifyElems xs ++ Char.ofNat 93 :: rest) = some (xs, rest)
  | [], _, _, hne, _ => absurd rfl hne
  | x :: xs, fuel, rest, _, hf => by
    obtain ⟨f, rfl⟩ : ∃ f, fuel = f + 1 := ⟨fuel - 1, by simp only [elemsSize] at hf; omega⟩
    exact parseElems_step x xs f rest
      (parseValue_stringifyChars x f _ (by simp only [elemsSize] at hf; omega)
        (numberEnds_elemsTail xs rest))
      (fun hne => parseElems_stringifyElems xs f rest hne
        (by simp only [elemsSize] at hf; omega))
/-- With enough fuel `parseMembers` reads back the serialized members of an object. -/
theorem parseMembers_stringifyMembers : ∀ (kvs : List (String × Json)) (fuel : Nat)
    (rest : List Char), kvs ≠ [] → membersSize kvs ≤ fuel →
    parseMembers fuel (stringifyMembers kvs ++ Char.ofNat 125 :: rest) = some (kvs, rest)
  | [], _, _, hne, _ => absurd rfl hne
  | (k, v) :: kvs, fuel, rest, _, hf => by
    obtain ⟨f, rfl⟩ : ∃ f, fuel = f + 1 := ⟨fuel - 1, by simp only [membersSize] at hf; omega⟩
    exact parseMembers_step k v kvs f rest
      (parseValue_stringifyChars v f _ (by simp only [membersSize] at hf; omega)
        (numberEnds_membersTail kvs rest))
      (fun hne => parseMembers_stringifyMembers kvs f rest hne
        (by simp only [membersSize] at hf; omega))
end

mutual
theorem jsonSize_le_length : ∀ v : Json, jsonSize v ≤ (stringifyChars v).length
  | .null => by simp [jsonSize, stringifyChars]
  | .bool true => by simp [jsonSize, stringifyChars]
  | .bool false => by simp [jsonSize, stringifyChars]
  | .num z => by
    obtain ⟨c, tl, h, _⟩ := intChars_head z
    simp [jsonSize, stringifyChars, h]
  | .str s => by simp [jsonSize, stringifyChars, quoteString]
  | .arr xs => by
    have h := elemsSize_le_length xs
    cases xs with
    | nil => simp [jsonSize, stringifyChars, elemsSize]
    | cons x xs =>
      rw [stringifyElemsTail_cons] at h
      simp only [jsonSize, stringifyChars, List.length_cons, List.length_append,
        List.length_nil] at h ⊢
      omega
  | .obj kvs => by
    have h := membersSize_le_length kvs
    cases kvs with
    | nil => simp [jsonSize, stringifyChars, membersSize]
    | cons kv kvs =>
      rw [stringifyMembersTail_cons] at h
      simp only [jsonSize, stringifyChars, List.length_cons, List.length_append,
        List.length_nil] at h ⊢
      omega
theorem elemsSize_le_length : ∀ xs : List Json,
    elemsSize xs ≤ (stringifyElemsTail xs).length
  | [] => by simp [elemsSize]
  | x :: xs => by
    have h1 := jsonSize_le_length x
    have h2 := elemsSize_le_length xs
    simp only [elemsSize, stringifyElemsTail, List.length_cons, List.length_append]
    omega
theorem membersSize_le_length : ∀ kvs : List (String × Json),
    membersSize kvs ≤ (stringifyMembersTail kvs).length
  | [] => by simp [membersSize]
  | (k, v) :: kvs => by
    have h1 := jsonSize_le_length v
    have h2 := membersSize_le_length kvs
    simp only [membersSize, stringifyMembersTail, List.length_cons, List.length_append]
    omega
end

/-- The function `JSON.parse` gives back every value from its `JSON.stringify` text. -/
theorem jsonParse_stringify (v : Json) : jsonParse (stringify v) = .ok v := by
  have h := parseValue_stringifyChars v ((stringifyChars v).length + 1) []
    (by have := jsonSize_le_length v; omega)
    (by intro c tl hc; simp at hc)
  rw [List.append_nil] at h
  unfold jsonParse
  simp only [stringify, h]
  rfl

/-! ## The five exits of `PUT /api/campaign` -/

theorem putCampaign_not_object (s : Server) (req : PutRequest)
    (hobj : isObjectLike req.body = false) :
    putCampaign s req = ⟨s, some ⟨400, none, .failure⟩, []⟩ := by
  unfold putCampaign
  simp [hobj]

theorem putCampaign_too_large (s : Server) (req : PutRequest)
    (hobj : isObjectLike req.body = true)
    (hbig : jsLength (stringify req.body) > maxPayload) :
    putCampaign s req = ⟨s, some ⟨413, none, .failure⟩, []⟩ := by
  unfold putCampaign
  simp [hobj, hbig]

theorem putCampaign_stale (s : Server) (req : PutRequest)
    (hobj : isObjectLike req.body = true)
    (hsize : jsLength (stringify req.body) ≤ maxPayload)
    (htruthy : headerTruthy req.ifMatch = true)
    (hstale : req.ifMatch ≠ some s.currentETag) :
    putCampaign s req = ⟨s, some ⟨412, none, .failure⟩, []⟩ := by
  unfold putCampaign
  have h : ¬ jsLength (stringify req.body) > maxPayload := by omega
  simp [hobj, h, htruthy, hstale]

theorem putCampaign_looks_empty (s : Server) (req : PutRequest)
    (hobj : isObjectLike req.body = true)
    (hsize : jsLength (stringify req.body) ≤ maxPayload)
    (hver : headerTruthy req.ifMatch = false ∨ req.ifMatch = some s.currentETag)
    (hflag : allowEmpty req = false) (hempty : stateLooksEmpty req.body = true) :
    putCampaign s req = ⟨s, some ⟨422, none, .failure⟩, []⟩ := by
  unfold putCampaign
  have h : ¬ jsLength (stringify req.body) > maxPayload := by omega
  rcases hver with hver | hver <;> simp [hobj, h, hver, hflag, hempty]

theorem putCampaign_accepted (s : Server) (req : PutRequest)
    (hobj : isObjectLike req.body = true)
    (hsize : jsLength (stringify req.body) ≤ maxPayload)
    (hver : headerTruthy req.ifMatch = false ∨ req.ifMatch = some s.currentETag)
    (hgo : allowEmpty req = true ∨ stateLooksEmpty req.body = false) :
    putCampaign s req =
      ⟨{ db := saveStateToDB s.db req.body, state := req.body,
         currentETag := sha1 (stringify req.body) },
       some ⟨200, some (sha1 (stringify req.body)), .okEtag (sha1 (stringify req.body))⟩,
       [⟨.all, "state:broadcast", req.body⟩]⟩ := by
  unfold putCampaign
  have h : ¬ jsLength (stringify req.body) > maxPayload := by omega
  rcases hver with hver | hver <;> rcases hgo with hgo | hgo <;>
    simp [hobj, h, hver, hgo]

/-- An accepted `PUT` went through every guard. -/
theorem putCampaign_status_200 (s : Server) (req : PutRequest)
    (h : (putCampaign s req).status = some 200) :
    isObjectLike req.body = true ∧ jsLength (stringify req.body) ≤ maxPayload ∧
      (headerTruthy req.ifMatch = false ∨ req.ifMatch = some s.currentETag) ∧
      (allowEmpty req = true ∨ stateLooksEmpty req.body = false) := by
  unfold putCampaign Outcome.status at h
  split_ifs at h with h1 h2 h3 h4
  all_goals first
    | (exfalso; revert h; simp; done)
    | skip
  refine ⟨by simpa using h1, by omega, ?_, ?_⟩
  · by_cases ht : headerTruthy req.ifMatch = true
    · right
      simpa [ht] using h3
    · left
      simpa using ht
  · by_cases ha : allowEmpty req = true
    · exact Or.inl ha
    · right
      simpa [ha] using h4

theorem saveStateToDB_of_isObjectLike (db : Db) (v : Json) (h : isObjectLike v = true) :
    saveStateToDB db v =
      { snapshots := db.snapshots ++ [⟨nextId db, stringify v⟩],
        campaign := some (stringify v) } := by
  unfold saveStateToDB
  rw [orEmptyObject_of_isObjectLike v h]

/-! ## Claims on `PUT /api/campaign` -/

/-- C1, counterexample: on the freshly started server a `PUT` of the object `bigDoc`, whose
serialized form is longer than 2,500,000, with the stale expected version `"stale"`, is answered
413 and not 412: the size check comes before the version check. -/
theorem put_stale_oversized_gets_413 :
    isObjectLike bigDoc = true ∧ headerTruthy (some "stale") = true ∧
      "stale" ≠ freshServer.currentETag ∧
      (putCampaign freshServer ⟨bigDoc, some "stale", none, none⟩).status = some 413 ∧
      (putCampaign freshServer ⟨bigDoc, some "stale", none, none⟩).status ≠ some 412 := by
  have h := putCampaign_too_large freshServer ⟨bigDoc, some "stale", none, none⟩ rfl
    bigDoc_too_large
  refine ⟨rfl, rfl, by decide, ?_, ?_⟩
  · rw [h]
    rfl
  · rw [h]
    simp [Outcome.status]

/-- C1, amended: for every server state and every JSON-object candidate, a `PUT` whose
`If-Match` is non-empty and differs from the current version leaves the server (document,
version token, campaign row, snapshot log) unchanged and emits nothing; it is answered 412
when the serialized candidate is within the size ceiling, and 413 when it is not. -/
theorem put_stale_version_rejected (s : Server) (req : PutRequest)
    (hobj : isObjectLike req.body = true)
    (htruthy : headerTruthy req.ifMatch = true)
    (hstale : req.ifMatch ≠ some s.currentETag) :
    (putCampaign s req).server = s ∧ (putCampaign s req).emits = [] ∧
      (putCampaign s req).status =
        some (if jsLength (stringify req.body) ≤ maxPayload then 412 else 413) := by
  by_cases hsize : jsLength (stringify req.body) ≤ maxPayload
  · rw [putCampaign_stale s req hobj hsize htruthy hstale]
    simp [Outcome.status, hsize]
  · rw [putCampaign_too_large s req hobj (by omega)]
    simp [Outcome.status, hsize]

/-- C1, witness: the small document `noteDoc` sent to the fresh server with the stale version
`"stale"` is answered 412 and changes nothing. -/
theorem put_stale_version_rejected_witness :
    (putCampaign freshServer ⟨noteDoc, some "stale", none, none⟩).server = freshServer ∧
      (putCampaign freshServer ⟨noteDoc, some "stale", none, none⟩).emits = [] ∧
      (putCampaign freshServer ⟨noteDoc, some "stale", none, none⟩).status = some 412 :=
  put_stale_version_rejected freshServer ⟨noteDoc, some "stale", none, none⟩ rfl rfl
    (by decide)

/-- C2: when a `PUT` of the candidate `c = req.body` is accepted (status 200), the version in
the reply and in the `ETag` header is `sha1` of the string `JSON.stringify(c)`, that same string
is the data of the campaign row and of the one snapshot appended to the log, and a `GET` right
after it (whose `If-None-Match` is not that version) returns `c` as data with that version. -/
theorem put_accepted_version_roundtrip (s : Server) (req : PutRequest)
    (h : (putCampaign s req).status = some 200) :
    (putCampaign s req).reply =
        some ⟨200, some (sha1 (stringify req.body)), .okEtag (sha1 (stringify req.body))⟩ ∧
      (putCampaign s req).server.db.campaign = some (stringify req.body) ∧
      (putCampaign s req).server.db.snapshots =
        s.db.snapshots ++ [⟨nextId s.db, stringify req.body⟩] ∧
      (putCampaign s req).server.currentETag = sha1 (stringify req.body) ∧
      ∀ inm : Option String, inm ≠ some (sha1 (stringify req.body)) →
        getCampaign (putCampaign s req).server inm =
          ⟨200, some (sha1 (stringify req.body)),
            .okData req.body (sha1 (stringify req.body))⟩ := by
  obtain ⟨hobj, hsize, hver, hgo⟩ := putCampaign_status_200 s req h
  rw [putCampaign_accepted s req hobj hsize hver hgo,
    saveStateToDB_of_isObjectLike s.db req.body hobj]
  refine ⟨rfl, rfl, rfl, rfl, ?_⟩
  intro inm hinm
  unfold getCampaign
  simp [hinm]

/-- C2, witness: the `PUT` of `noteDoc` on the fresh server is accepted. -/
theorem put_accepted_version_roundtrip_witness :
    (putCampaign freshServer ⟨noteDoc, none, none, none⟩).status = some 200 ∧
      (putCampaign freshServer ⟨noteDoc, none, none, none⟩).server.db.campaign =
        some (stringify noteDoc) :=
  ⟨by decide,
    (put_accepted_version_roundtrip freshServer ⟨noteDoc, none, none, none⟩ (by decide)).2.1⟩

/-- C4: for a JSON-object candidate `c` that looks empty, is within the size ceiling and passes
the version check: without `allowEmpty` the `PUT` is answered 422, the server is unchanged and
nothing is emitted; with `allowEmpty` the same candidate is accepted and becomes the current
document, saved and broadcast. -/
theorem put_empty_state_guard (s : Server) (c : Json) (m q x : Option String)
    (hobj : isObjectLike c = true)
    (hsize : jsLength (stringify c) ≤ maxPayload)
    (hver : headerTruthy m = false ∨ m = some s.currentETag)
    (hempty : stateLooksEmpty c = true) :
    (allowEmpty ⟨c, m, q, x⟩ = false →
        (putCampaign s ⟨c, m, q, x⟩).server = s ∧
        (putCampaign s ⟨c, m, q, x⟩).status = some 422 ∧
        (putCampaign s ⟨c, m, q, x⟩).emits = []) ∧
      (allowEmpty ⟨c, m, q, x⟩ = true →
        (putCampaign s ⟨c, m, q, x⟩).status = some 200 ∧
        (putCampaign s ⟨c, m, q, x⟩).server.state = c ∧
        (putCampaign s ⟨c, m, q, x⟩).server.currentETag = sha1 (stringify c) ∧
        (putCampaign s ⟨c, m, q, x⟩).server.db = saveStateToDB s.db c ∧
        (putCampaign s ⟨c, m, q, x⟩).emits = [⟨.all, "state:broadcast", c⟩]) := by
  constructor
  · intro hflag
    rw [putCampaign_looks_empty s ⟨c, m, q, x⟩ hobj hsize hver hflag hempty]
    exact ⟨rfl, rfl, rfl⟩
  · intro hflag
    rw [putCampaign_accepted s ⟨c, m, q, x⟩ hobj hsize hver (Or.inl hflag)]
    exact ⟨rfl, rfl, rfl, rfl, rfl⟩

/-- C4, witness: the empty object sent to the fresh server is answered 422 without the flag and
200 with `?allowEmpty=1`. -/
theorem put_empty_state_guard_witness :
    stateLooksEmpty (.obj []) = true ∧
      (putCampaign freshServer ⟨.obj [], none, none, none⟩).status = some 422 ∧
      (putCampaign freshServer ⟨.obj [], none, some "1", none⟩).status = some 200 :=
  ⟨rfl,
    ((put_empty_state_guard freshServer (.obj []) none none none rfl (by decide)
      (Or.inl rfl) rfl).1 rfl).2.1,
    ((put_empty_state_guard freshServer (.obj []) none (some "1") none rfl (by decide)
      (Or.inl rfl) rfl).2 rfl).1⟩

/-- C6: for every JSON-object candidate, whatever the expected version and the `allowEmpty`
inputs: when the serialized candidate is longer than 2,500,000 the `PUT` is answered 413, the
server (document, version token, campaign row, snapshot log) is unchanged and nothing is
emitted; when it is not longer, the answer is not 413. -/
theorem put_payload_ceiling (s : Server) (req : PutRequest)
    (hobj : isObjectLike req.body = true) :
    (jsLength (stringify req.body) > 2500000 →
        (putCampaign s req).server = s ∧ (putCampaign s req).status = some 413 ∧
        (putCampaign s req).emits = []) ∧
      (jsLength (stringify req.body) ≤ 2500000 → (putCampaign s req).status ≠ some 413) := by
  constructor
  · intro hbig
    rw [putCampaign_too_large s req hobj hbig]
    exact ⟨rfl, rfl, rfl⟩
  · intro hsize
    have h : ¬ jsLength (stringify req.body) > maxPayload := by
      unfold maxPayload
      omega
    unfold putCampaign Outcome.status
    simp only [hobj, h, Bool.not_true, Bool.false_eq_true, if_false]
    split_ifs <;> simp

/-- C6, witness: `bigDoc` is rejected with 413 even with a matching-free request that sets
`allowEmpty`, and `noteDoc` is not. -/
theorem put_payload_ceiling_witness :
    jsLength (stringify bigDoc) > 2500000 ∧
      (putCampaign freshServer ⟨bigDoc, some "stale", some "1", none⟩).status = some 413 ∧
      (putCampaign freshServer ⟨noteDoc, none, none, none⟩).status ≠ some 413 :=
  ⟨bigDoc_too_large,
    ((put_payload_ceiling freshServer ⟨bigDoc, some "stale", some "1", none⟩ rfl).1
      bigDoc_too_large).2.1,
    (put_payload_ceiling freshServer ⟨noteDoc, none, none, none⟩ rfl).2 (by decide)⟩

/-- C9, counterexample: two peers read the version of the fresh server and each send the same
document `noteDoc` with that expected version; the first `PUT` is accepted, the second is
answered 412. -/
theorem identical_puts_second_conflicts :
    (putCampaign freshServer ⟨noteDoc, some freshServer.currentETag, none, none⟩).status
        = some 200 ∧
      (putCampaign
          (putCampaign freshServer ⟨noteDoc, some freshServer.currentETag, none, none⟩).server
          ⟨noteDoc, some freshServer.currentETag, none, none⟩).status = some 412 := by
  decide

/-- C9, amended: two peers read the version `v` of the server and send the same acceptable
candidate `c` with expected version `v`, one after the other.  The first `PUT` is accepted.  The
second is accepted when `v` already is `sha1(JSON.stringify(c))` and is answered 412 when it is
not (and `v` is not empty); a second `PUT` of `c` that carries the version the first one
returned, `sha1(JSON.stringify(c))`, is accepted. -/
theorem identical_puts_versions (s : Server) (c : Json) (q x : Option String)
    (hobj : isObjectLike c = true)
    (hsize : jsLength (stringify c) ≤ maxPayload)
    (hgo : allowEmpty ⟨c, some s.currentETag, q, x⟩ = true ∨ stateLooksEmpty c = false) :
    (putCampaign s ⟨c, some s.currentETag, q, x⟩).status = some 200 ∧
      (s.currentETag = sha1 (stringify c) →
        (putCampaign (putCampaign s ⟨c, some s.currentETag, q, x⟩).server
          ⟨c, some s.currentETag, q, x⟩).status = some 200) ∧
      (s.currentETag ≠ sha1 (stringify c) → headerTruthy (some s.currentETag) = true →
        (putCampaign (putCampaign s ⟨c, some s.currentETag, q, x⟩).server
          ⟨c, some s.currentETag, q, x⟩).status = some 412) ∧
      (putCampaign (putCampaign s ⟨c, some s.currentETag, q, x⟩).server
          ⟨c, some (sha1 (stringify c)), q, x⟩).status = some 200 := by
  have h1 := putCampaign_accepted s ⟨c, some s.currentETag, q, x⟩ hobj hsize (Or.inr rfl) hgo
  rw [h1]
  refine ⟨rfl, ?_, ?_, ?_⟩
  · intro hv
    rw [putCampaign_accepted _ ⟨c, some s.currentETag, q, x⟩ hobj hsize
      (Or.inr (by simp [hv])) hgo]
    rfl
  · intro hv ht
    rw [putCampaign_stale _ ⟨c, some s.currentETag, q, x⟩ hobj hsize ht (by simpa using hv)]
    rfl
  · rw [putCampaign_accepted _ ⟨c, some (sha1 (stringify c)), q, x⟩ hobj hsize
      (Or.inr rfl) hgo]
    rfl

/-- C9, witness: on the fresh server the candidate `noteDoc` is acceptable; the first `PUT` is
accepted and a second one that carries the returned version is accepted too. -/
theorem identical_puts_versions_witness :
    (putCampaign freshServer ⟨noteDoc, some freshServer.currentETag, none, none⟩).status
        = some 200 ∧
      (putCampaign
          (putCampaign freshServer ⟨noteDoc, some freshServer.currentETag, none, none⟩).server
          ⟨noteDoc, some (sha1 (stringify noteDoc)), none, none⟩).status = some 200 :=
  ⟨(identical_puts_versions freshServer noteDoc none none rfl (by decide)
      (Or.inr (by decide))).1,
    (identical_puts_versions freshServer noteDoc none none rfl (by decide)
      (Or.inr (by decide))).2.2.2⟩

/-! ## The version token after `state:update` -/

/-- C3, the code at the failing input: the server is started on an empty database and a socket
sends `state:update` with the document `noteDoc`.  The state reached holds `noteDoc`, saved in
the campaign row, while `currentETag` is still `sha1` of the serialized empty object, which is
not `sha1(JSON.stringify(state))`; the next `GET` hands out the new document under the old
version, and a `PUT` that expects the old version is accepted.  The handlers of `PUT` and of
restore assign `currentETag` after saving; the handler of `state:update` does not. -/
theorem stateUpdate_leaves_version_stale :
    Reachable (stateUpdate freshServer noteDoc).server ∧
      (stateUpdate freshServer noteDoc).server.state = noteDoc ∧
      (stateUpdate freshServer noteDoc).server.db.campaign = some (stringify noteDoc) ∧
      (stateUpdate freshServer noteDoc).server.currentETag = sha1 (stringify (.obj [])) ∧
      (stateUpdate freshServer noteDoc).server.currentETag
        ≠ sha1 (stringify (stateUpdate freshServer noteDoc).server.state) ∧
      getCampaign (stateUpdate freshServer noteDoc).server none =
        ⟨200, some (sha1 (stringify (.obj []))),
          .okData noteDoc (sha1 (stringify (.obj [])))⟩ ∧
      (putCampaign (stateUpdate freshServer noteDoc).server
        ⟨.obj [("notes", .str "other")], some (sha1 (stringify (.obj []))), none, none⟩).status
        = some 200 :=
  ⟨Reachable.step freshServer (.update noteDoc) freshServer_reachable, rfl, rfl, rfl,
    by decide, rfl, by decide⟩

/-! ## Claims on `POST /api/campaign/restore/:id` -/

theorem findSnapshot_eq_none (db : Db) (i : Int)
    (h : ∀ r ∈ db.snapshots, (r.id : Int) ≠ i) : findSnapshot db i = none := by
  unfold findSnapshot
  rw [List.find?_eq_none]
  intro r hr
  simpa using h r hr

/-- C8, counterexample: a restore whose `:id` is not a finite number (so it is the id of no
snapshot) is answered 400, not 404. -/
theorem restore_not_finite_gets_400 :
    (restoreCampaign freshServer .notFinite).status = some 400 ∧
      (restoreCampaign freshServer .notFinite).status ≠ some 404 := by
  decide

/-- C8, amended: a restore whose id is a finite number that is the id of no stored snapshot (an
integer without a row, or a number that is not an integer) is answered 404; an id that is not a
finite number is answered 400; in each case the server (document, version token, campaign row,
snapshot log) is unchanged and nothing is emitted. -/
theorem restore_unknown_id (s : Server) (i : Int)
    (h : ∀ r ∈ s.db.snapshots, (r.id : Int) ≠ i) :
    (restoreCampaign s (.int i)).server = s ∧
      (restoreCampaign s (.int i)).status = some 404 ∧
      (restoreCampaign s (.int i)).emits = [] ∧
      (restoreCampaign s .fraction).server = s ∧
      (restoreCampaign s .fraction).status = some 404 ∧
      (restoreCampaign s .fraction).emits = [] ∧
      (restoreCampaign s .notFinite).server = s ∧
      (restoreCampaign s .notFinite).status = some 400 ∧
      (restoreCampaign s .notFinite).emits = [] := by
  have hnone := findSnapshot_eq_none s.db i h
  refine ⟨?_, ?_, ?_, rfl, rfl, rfl, rfl, rfl, rfl⟩ <;>
    simp [restoreCampaign, hnone, Outcome.status]

/-- C8, witness: the fresh server holds snapshot 1 only, and a restore of id 7 is answered
404. -/
theorem restore_unknown_id_witness :
    (∀ r ∈ freshServer.db.snapshots, (r.id : Int) ≠ 7) ∧
      (restoreCampaign freshServer (.int 7)).status = some 404 :=
  ⟨by decide, (restore_unknown_id freshServer 7 (by decide)).2.1⟩

/-! ## Claims on `stateLooksEmpty` -/

theorem hasEntries_of_ne_null (k : String) (t : Json) (ht : t ≠ .null) :
    ∃ b, hasEntries k t = .ok b ∧
      (b = true ↔ ∃ rs, getProp t k = .ok (some (.arr rs)) ∧ rs ≠ []) := by
  cases t with
  | null => exact absurd rfl ht
  | bool b => exact ⟨false, rfl, by simp [getProp]⟩
  | num n => exact ⟨false, rfl, by simp [getProp]⟩
  | str s => exact ⟨false, rfl, by simp [getProp]⟩
  | arr xs => exact ⟨false, rfl, by simp [getProp]⟩
  | obj kvs =>
    unfold hasEntries
    simp only [getProp]
    cases hl : kvs.lookup k with
    | none => exact ⟨false, rfl, by simp⟩
    | some v =>
      cases v with
      | arr xs =>
        refine ⟨xs.length != 0, rfl, ?_⟩
        cases xs <;> simp
      | null => exact ⟨false, rfl, by simp⟩
      | bool b => exact ⟨false, rfl, by simp⟩
      | num n => exact ⟨false, rfl, by simp⟩
      | str s => exact ⟨false, rfl, by simp⟩
      | obj ys => exact ⟨false, rfl, by simp⟩

theorem arraySome_hasEntries (k : String) (ts : List Json) (hnull : Json.null ∉ ts) :
    ∃ b, arraySome (hasEntries k) ts = .ok b ∧
      (b = true ↔ ∃ t ∈ ts, ∃ rs, getProp t k = .ok (some (.arr rs)) ∧ rs ≠ []) := by
  induction ts with
  | nil => exact ⟨false, rfl, by simp⟩
  | cons t ts ih =>
    have ht : t ≠ .null := fun h => hnull (by simp [h])
    have hts : Json.null ∉ ts := fun h => hnull (by simp [h])
    obtain ⟨b, hb, hiff⟩ := hasEntries_of_ne_null k t ht
    obtain ⟨b2, hb2, hiff2⟩ := ih hts
    cases b with
    | true =>
      refine ⟨true, by simp [arraySome, hb], ?_⟩
      simp only [true_iff]
      obtain ⟨rs, h1, h2⟩ := hiff.mp rfl
      exact ⟨t, by simp, rs, h1, h2⟩
    | false =>
      refine ⟨b2, by simp [arraySome, hb, hb2], ?_⟩
      rw [hiff2]
      constructor
      · rintro ⟨u, hu, rs, h1, h2⟩
        exact ⟨u, by simp [hu], rs, h1, h2⟩
      · rintro ⟨u, hu, rs, h1, h2⟩
        rcases List.mem_cons.mp hu with rfl | hu
        · exact absurd (hiff.mpr ⟨rs, h1, h2⟩) (by simp)
        · exact ⟨u, hu, rs, h1, h2⟩

theorem getProp_of_isObjectLike (c : Json) (k : String) (hobj : isObjectLike c = true) :
    ∃ o, getProp c k = .ok o := by
  cases c <;> simp_all [isObjectLike, getProp]

theorem tablesHaveRows_of_no_null (c : Json) (hobj : isObjectLike c = true)
    (hT : ∀ ts, getProp c "tables" = .ok (some (.arr ts)) → Json.null ∉ ts) :
    ∃ b, tablesHaveRows c = .ok b ∧
      ((∃ ts t rs, getProp c "tables" = .ok (some (.arr ts)) ∧ t ∈ ts ∧
          getProp t "rows" = .ok (some (.arr rs)) ∧ rs ≠ []) → b = true) := by
  obtain ⟨o, ho⟩ := getProp_of_isObjectLike c "tables" hobj
  unfold tablesHaveRows
  rw [ho]
  rcases o with _ | v
  · exact ⟨false, rfl, by simp⟩
  · cases v with
    | arr ts =>
      obtain ⟨b, hb, hiff⟩ := arraySome_hasEntries "rows" ts (hT ts ho)
      cases ts with
      | nil => exact ⟨false, rfl, by simp⟩
      | cons t ts =>
        refine ⟨b, by simpa using hb, ?_⟩
        rintro ⟨ts2, u, rs, h1, h2, h3, h4⟩
        simp only [Except.ok.injEq, Option.some.injEq, Json.arr.injEq] at h1
        subst h1
        exact hiff.mpr ⟨u, h2, rs, h3, h4⟩
    | null => exact ⟨false, rfl, by simp⟩
    | bool b => exact ⟨false, rfl, by simp⟩
    | num n => exact ⟨false, rfl, by simp⟩
    | str t => exact ⟨false, rfl, by simp⟩
    | obj ys => exact ⟨false, rfl, by simp⟩

theorem listsHaveItems_of_no_null (c : Json) (hobj : isObjectLike c = true)
    (hL : ∀ ls, getProp c "lists" = .ok (some (.arr ls)) → Json.null ∉ ls) :
    ∃ b, listsHaveItems c = .ok b ∧
      ((∃ ls l items, getProp c "lists" = .ok (some (.arr ls)) ∧ l ∈ ls ∧
          getProp l "items" = .ok (some (.arr items)) ∧ items ≠ []) → b = true) := by
  obtain ⟨o, ho⟩ := getProp_of_isObjectLike c "lists" hobj
  unfold listsHaveItems
  rw [ho]
  rcases o with _ | v
  · exact ⟨false, rfl, by simp⟩
  · cases v with
    | arr ls =>
      obtain ⟨b, hb, hiff⟩ := arraySome_hasEntries "items" ls (hL ls ho)
      refine ⟨b, by simpa using hb, ?_⟩
      rintro ⟨ls2, u, rs, h1, h2, h3, h4⟩
      simp only [Except.ok.injEq, Option.some.injEq, Json.arr.injEq] at h1
      subst h1
      exact hiff.mpr ⟨u, h2, rs, h3, h4⟩
    | null => exact ⟨false, rfl, by simp⟩
    | bool b => exact ⟨false, rfl, by simp⟩
    | num n => exact ⟨false, rfl, by simp⟩
    | str t => exact ⟨false, rfl, by simp⟩
    | obj ys => exact ⟨false, rfl, by simp⟩

theorem jsTrim_nil : jsTrim [] = [] := rfl

theorem nonBlank_of_convertible (o : Option Json)
    (hconv : ∀ v, o = some v → ∀ e, jsStringChars v ≠ .error e) :
    ∃ b, nonBlank o = .ok b ∧
      (∀ t : String, o = some (.str t) → jsTrim t.data ≠ [] → b = true) := by
  rcases o with _ | v
  · exact ⟨false, rfl, by simp⟩
  · unfold nonBlank
    by_cases htr : truthy v = true
    · simp only [htr, if_true]
      cases hs : jsStringChars v with
      | error e => exact absurd hs (hconv v rfl e)
      | ok cs =>
        refine ⟨(jsTrim cs).length != 0, rfl, ?_⟩
        intro t ht hne
        simp only [Option.some.injEq] at ht
        subst ht
        simp only [jsStringChars, Except.ok.injEq] at hs
        subst hs
        cases hj : jsTrim t.data with
        | nil => exact absurd hj hne
        | cons a as => simp
    · refine ⟨false, by simp [htr], ?_⟩
      intro t ht hne
      simp only [Option.some.injEq] at ht
      subst ht
      have : t.data = [] := by
        cases h : t.data with
        | nil => rfl
        | cons a as => simp [truthy, h] at htr
      rw [this] at hne
      exact absurd jsTrim_nil hne

theorem notesNonBlank_of_convertible (c : Json) (hobj : isObjectLike c = true)
    (hN : ∀ v, getProp c "notes" = .ok (some v) → ∀ e, jsStringChars v ≠ .error e)
    (hQ : ∀ v, getProp c "quickNotes" = .ok (some v) → ∀ e, jsStringChars v ≠ .error e) :
    ∃ b, notesNonBlank c = .ok b ∧
      ((∃ t : String, (getProp c "notes" = .ok (some (.str t)) ∨
            getProp c "quickNotes" = .ok (some (.str t))) ∧ jsTrim t.data ≠ []) →
        b = true) := by
  obtain ⟨n, hn⟩ := getProp_of_isObjectLike c "notes" hobj
  obtain ⟨q, hq⟩ := getProp_of_isObjectLike c "quickNotes" hobj
  obtain ⟨b1, hb1, himp1⟩ := nonBlank_of_convertible n
    (fun v hv e => hN v (by rw [hn, hv]) e)
  obtain ⟨b2, hb2, himp2⟩ := nonBlank_of_convertible q
    (fun v hv e => hQ v (by rw [hq, hv]) e)
  unfold notesNonBlank
  rw [hn, hq]
  simp only [hb1]
  cases b1 with
  | true => exact ⟨true, rfl, fun _ => rfl⟩
  | false =>
    refine ⟨b2, by simpa using hb2, ?_⟩
    rintro ⟨t, h | h, hne⟩
    · simp only [Except.ok.injEq] at h
      exact absurd (himp1 t h hne) (by simp)
    · simp only [Except.ok.injEq] at h
      exact himp2 t h hne

/-- C5, counterexample: `holedDoc` has a table whose `rows` array is non-empty, after a `null`
entry of `tables`.  Reading `rows` of the `null` entry throws, `catch{}` swallows it, and
`stateLooksEmpty` returns true; the `PUT` of that document without `allowEmpty` is answered
422. -/
theorem stateLooksEmpty_true_despite_row :
    isObjectLike holedDoc = true ∧
      (∃ ts t rs, getProp holedDoc "tables" = .ok (some (.arr ts)) ∧ t ∈ ts ∧
        getProp t "rows" = .ok (some (.arr rs)) ∧ rs ≠ []) ∧
      stateLooksEmpty holedDoc = true ∧
      (putCampaign freshServer ⟨holedDoc, none, none, none⟩).status = some 422 :=
  ⟨rfl,
    ⟨[.null, .obj [("rows", .arr [.arr [.str "x"]])]], .obj [("rows", .arr [.arr [.str "x"]])],
      [.arr [.str "x"]], rfl, by simp, rfl, by simp⟩,
    by decide, by decide⟩

/-- C5, amended: let `c` be a JSON-object candidate in which `tables` and `lists`, when they are
arrays, have no `null` entry, and `notes` and `quickNotes`, when present, convert to a string
without an exception (every string does).  If `c` has a table whose `rows` array is non-empty,
or `notes` or `quickNotes` is a string that is not blank, or a list whose `items` array is
non-empty, then `stateLooksEmpty(c)` is false and no `PUT` of `c` is answered 422. -/
theorem stateLooksEmpty_false_of_populated (c : Json) (hobj : isObjectLike c = true)
    (hT : ∀ ts, getProp c "tables" = .ok (some (.arr ts)) → Json.null ∉ ts)
    (hL : ∀ ls, getProp c "lists" = .ok (some (.arr ls)) → Json.null ∉ ls)
    (hN : ∀ v, getProp c "notes" = .ok (some v) → ∀ e, jsStringChars v ≠ .error e)
    (hQ : ∀ v, getProp c "quickNotes" = .ok (some v) → ∀ e, jsStringChars v ≠ .error e)
    (hpop :
      (∃ ts t rs, getProp c "tables" = .ok (some (.arr ts)) ∧ t ∈ ts ∧
          getProp t "rows" = .ok (some (.arr rs)) ∧ rs ≠ []) ∨
      (∃ t : String, (getProp c "notes" = .ok (some (.str t)) ∨
          getProp c "quickNotes" = .ok (some (.str t))) ∧ jsTrim t.data ≠ []) ∨
      (∃ ls l items, getProp c "lists" = .ok (some (.arr ls)) ∧ l ∈ ls ∧
          getProp l "items" = .ok (some (.arr items)) ∧ items ≠ [])) :
    stateLooksEmpty c = false ∧
      ∀ (s : Server) (m q x : Option String),
        (putCampaign s ⟨c, m, q, x⟩).status ≠ some 422 := by
  have hfalse : stateLooksEmpty c = false := by
    obtain ⟨b1, hb1, h1⟩ := tablesHaveRows_of_no_null c hobj hT
    obtain ⟨b2, hb2, h2⟩ := notesNonBlank_of_convertible c hobj hN hQ
    obtain ⟨b3, hb3, h3⟩ := listsHaveItems_of_no_null c hobj hL
    unfold stateLooksEmpty foundData
    simp only [hobj, hb1, hb2, hb3]
    rcases hpop with hp | hp | hp
    · rw [h1 hp]
      rfl
    · rw [h2 hp]
      cases b1 <;> rfl
    · rw [h3 hp]
      cases b1 <;> cases b2 <;> rfl
  refine ⟨hfalse, ?_⟩
  intro s m q x
  unfold putCampaign Outcome.status
  simp only [hfalse]
  split_ifs <;> simp_all

/-- C5, witness: `tableDoc` has one table with a row and no `null` entry; it does not look
empty. -/
theorem stateLooksEmpty_false_of_populated_witness :
    isObjectLike tableDoc = true ∧ stateLooksEmpty tableDoc = false :=
  ⟨rfl,
    (stateLooksEmpty_false_of_populated tableDoc rfl
      (by
        intro ts h
        have hg : getProp tableDoc "tables"
            = .ok (some (.arr [.obj [("rows", .arr [.arr [.str "x"]])]])) := rfl
        rw [hg] at h
        simp only [Except.ok.injEq, Option.some.injEq, Json.arr.injEq] at h
        subst h
        simp)
      (by
        intro ls h
        simp [tableDoc, getProp, List.lookup] at h)
      (by
        intro v h
        simp [tableDoc, getProp, List.lookup] at h)
      (by
        intro v h
        simp [tableDoc, getProp, List.lookup] at h)
      (Or.inl ⟨[.obj [("rows", .arr [.arr [.str "x"]])]],
        .obj [("rows", .arr [.arr [.str "x"]])], [.arr [.str "x"]], rfl, by simp, rfl,
        by simp⟩)).1⟩

/-! ## The store invariant -/

theorem orEmptyObject_ne_null (v : Json) : orEmptyObject v ≠ .null := by
  cases v <;> simp [orEmptyObject]

theorem orEmptyObject_of_ne_null (v : Json) (h : v ≠ .null) : orEmptyObject v = v := by
  cases v <;> simp_all [orEmptyObject]

theorem le_maxId (rows : List Snapshot) : ∀ r ∈ rows, r.id ≤ maxId rows := by
  induction rows with
  | nil => simp
  | cons a rows ih =>
    intro r hr
    simp only [maxId, List.map_cons, List.foldr_cons]
    rcases List.mem_cons.mp hr with rfl | hr
    · exact Nat.le_max_left _ _
    · exact Nat.le_trans (ih r hr) (Nat.le_max_right _ _)

theorem lt_nextId (db : Db) : ∀ r ∈ db.snapshots, r.id < nextId db := by
  intro r hr
  have := le_maxId db.snapshots r hr
  unfold nextId
  omega

theorem storeOk_empty : StoreOk Db.empty :=
  ⟨by simp [Db.empty], by simp [Db.empty], by simp [Db.empty]⟩

theorem storeOk_saveStateToDB (db : Db) (v : Json) (h : StoreOk db) :
    StoreOk (saveStateToDB db v) := by
  have hw : WrittenByServer (stringify (orEmptyObject v)) :=
    ⟨orEmptyObject v, orEmptyObject_ne_null v, rfl⟩
  refine ⟨?_, ?_, ?_⟩
  · intro r hr
    simp only [saveStateToDB, List.mem_append, List.mem_singleton] at hr
    rcases hr with hr | rfl
    · exact h.rows r hr
    · exact hw
  · simp only [saveStateToDB, List.map_append, List.map_cons, List.map_nil]
    rw [List.pairwise_append]
    refine ⟨h.ids, by simp, ?_⟩
    intro a ha b hb
    simp only [List.mem_singleton] at hb
    subst hb
    obtain ⟨r, hr, rfl⟩ := List.mem_map.mp ha
    exact lt_nextId db r hr
  · intro d hd
    simp only [saveStateToDB, Option.some.injEq] at hd
    subst hd
    exact hw

theorem storeOk_boot (db : Db) (file : Option String) (t : Server) (h : StoreOk db)
    (hb : boot db file = .ok t) : StoreOk t.db := by
  unfold boot at hb
  cases hl : loadStateFromDB db with
  | error e => simp [hl] at hb
  | ok loaded =>
    simp only [hl] at hb
    split_ifs at hb
    · simp only [Except.ok.injEq] at hb
      subst hb
      exact storeOk_saveStateToDB db _ h
    · simp only [Except.ok.injEq] at hb
      subst hb
      exact h

theorem storeOk_putCampaign (s : Server) (req : PutRequest) (h : StoreOk s.db) :
    StoreOk (putCampaign s req).server.db := by
  unfold putCampaign
  split_ifs
  · exact h
  · exact h
  · exact h
  · exact h
  · exact storeOk_saveStateToDB s.db _ h

theorem storeOk_stateUpdate (s : Server) (v : Json) (h : StoreOk s.db) :
    StoreOk (stateUpdate s v).server.db := by
  unfold stateUpdate
  split_ifs
  · exact h
  · exact storeOk_saveStateToDB s.db _ h

theorem storeOk_restoreCampaign (s : Server) (id : IdParam) (h : StoreOk s.db) :
    StoreOk (restoreCampaign s id).server.db := by
  unfold restoreCampaign
  cases id with
  | notFinite => exact h
  | fraction => exact h
  | int i =>
    simp only
    cases findSnapshot s.db i with
    | none => exact h
    | some row =>
      simp only
      cases jsonParse row.data with
      | error e => exact h
      | ok payload => exact storeOk_saveStateToDB s.db _ h

/-- Every reachable server has a database it wrote itself. -/
theorem storeOk_of_reachable (s : Server) (h : Reachable s) : StoreOk s.db := by
  induction h with
  | start file s hb => exact storeOk_boot Db.empty file s storeOk_empty hb
  | step s op _ ih =>
    cases op with
    | put req => exact storeOk_putCampaign s req ih
    | update v => exact storeOk_stateUpdate s v ih
    | restore id => exact storeOk_restoreCampaign s id ih
  | restart s file t _ hb ih => exact storeOk_boot s.db file t ih hb

theorem find?_of_increasing (rows : List Snapshot) (r : Snapshot)
    (hids : (rows.map (fun r => r.id)).Pairwise (fun a b => a < b)) (hr : r ∈ rows) :
    rows.find? (fun x => (x.id : Int) == (r.id : Int)) = some r := by
  induction rows with
  | nil => simp at hr
  | cons a rows ih =>
    simp only [List.map_cons, List.pairwise_cons] at hids
    rcases List.mem_cons.mp hr with rfl | hr
    · simp
    · have hlt : a.id < r.id := hids.1 r.id (List.mem_map.mpr ⟨r, hr, rfl⟩)
      have hne : ((a.id : Int) == (r.id : Int)) = false := by
        simp only [beq_eq_false_iff_ne, ne_eq, Nat.cast_inj]
        omega
      rw [List.find?_cons, hne]
      exact ih hids.2 hr

/-- A restore of a stored snapshot on a database the server wrote. -/
theorem restoreCampaign_stored (s : Server) (h : StoreOk s.db) (r : Snapshot)
    (hr : r ∈ s.db.snapshots) :
    ∃ content : Json, jsonParse r.data = .ok content ∧ stringify content = r.data ∧
      restoreCampaign s (.int r.id) =
        ⟨{ db := { snapshots := s.db.snapshots ++ [⟨nextId s.db, r.data⟩],
                    campaign := some r.data },
           state := content, currentETag := sha1 r.data },
         some ⟨200, some (sha1 r.data), .okRestored r.id⟩,
         [⟨.all, "state:broadcast", content⟩]⟩ := by
  obtain ⟨w, hw, hdata⟩ := h.rows r hr
  have hparse : jsonParse r.data = .ok w := by
    rw [hdata]
    exact jsonParse_stringify w
  have hfind : findSnapshot s.db (r.id : Int) = some r :=
    find?_of_increasing s.db.snapshots r h.ids hr
  refine ⟨w, hparse, hdata.symm, ?_⟩
  unfold restoreCampaign
  simp only [hfind, hparse, saveStateToDB, orEmptyObject_of_ne_null w hw, ← hdata]

theorem putCampaign_not_200 (s : Server) (req : PutRequest)
    (h : (putCampaign s req).status ≠ some 200) : (putCampaign s req).server = s := by
  unfold Outcome.status at h
  unfold putCampaign at h ⊢
  split_ifs at h ⊢
  · rfl
  · rfl
  · rfl
  · rfl
  · exact absurd rfl h

theorem restoreCampaign_cases (s : Server) (id : IdParam) :
    ((restoreCampaign s id).status ≠ some 200 ∧ (restoreCampaign s id).server = s) ∨
      (∃ row payload, row ∈ s.db.snapshots ∧ jsonParse row.data = .ok payload ∧
        (restoreCampaign s id).status = some 200 ∧
        (restoreCampaign s id).server =
          { db := saveStateToDB s.db payload, state := payload,
            currentETag := sha1 row.data }) := by
  cases id with
  | notFinite => exact Or.inl ⟨by simp [restoreCampaign, Outcome.status], rfl⟩
  | fraction => exact Or.inl ⟨by simp [restoreCampaign, Outcome.status], rfl⟩
  | int i =>
    cases hf : findSnapshot s.db i with
    | none => exact Or.inl ⟨by simp [restoreCampaign, Outcome.status, hf],
        by simp [restoreCampaign, hf]⟩
    | some row =>
      have hmem : row ∈ s.db.snapshots := List.mem_of_find?_eq_some hf
      cases hp : jsonParse row.data with
      | error e => exact Or.inl ⟨by simp [restoreCampaign, Outcome.status, hf, hp],
          by simp [restoreCampaign, hf, hp]⟩
      | ok payload =>
        exact Or.inr ⟨row, payload, hmem, hp,
          by simp [restoreCampaign, Outcome.status, hf, hp],
          by simp [restoreCampaign, hf, hp]⟩

/-- C7: on a server in a reachable state, for every snapshot `r` of the log, the restore of
`r.id` is answered 200; the current document becomes the content of the snapshot (the value
`content` that `r.data` parses to and that serializes to `r.data`), whether or not it looks
empty; one snapshot holding `r.data` is appended; the campaign row holds `r.data`; and the
current version is `sha1` of that row. -/
theorem restore_stored_snapshot (s : Server) (hs : Reachable s) (r : Snapshot)
    (hr : r ∈ s.db.snapshots) :
    ∃ content : Json, jsonParse r.data = .ok content ∧ stringify content = r.data ∧
      (restoreCampaign s (.int r.id)).status = some 200 ∧
      (restoreCampaign s (.int r.id)).server.state = content ∧
      (restoreCampaign s (.int r.id)).server.db.snapshots =
        s.db.snapshots ++ [⟨nextId s.db, r.data⟩] ∧
      (restoreCampaign s (.int r.id)).server.db.campaign = some r.data ∧
      (restoreCampaign s (.int r.id)).server.currentETag = sha1 r.data ∧
      (restoreCampaign s (.int r.id)).emits = [⟨.all, "state:broadcast", content⟩] := by
  obtain ⟨content, hparse, hstr, hout⟩ :=
    restoreCampaign_stored s (storeOk_of_reachable s hs) r hr
  refine ⟨content, hparse, hstr, ?_⟩
  rw [hout]
  exact ⟨rfl, rfl, rfl, rfl, rfl, rfl⟩

/-- C7, witness: the fresh server holds snapshot 1, the serialized empty object, which looks
empty; its restore is accepted. -/
theorem restore_stored_snapshot_witness :
    (⟨1, stringify (.obj [])⟩ : Snapshot) ∈ freshServer.db.snapshots ∧
      stateLooksEmpty (.obj []) = true ∧
      ∃ content : Json, jsonParse (stringify (.obj [])) = .ok content ∧
        stringify content = stringify (.obj []) ∧
        (restoreCampaign freshServer (.int 1)).status = some 200 ∧
        (restoreCampaign freshServer (.int 1)).server.state = content ∧
        (restoreCampaign freshServer (.int 1)).server.db.snapshots =
          freshServer.db.snapshots ++ [⟨nextId freshServer.db, stringify (.obj [])⟩] ∧
        (restoreCampaign freshServer (.int 1)).server.db.campaign
          = some (stringify (.obj [])) ∧
        (restoreCampaign freshServer (.int 1)).server.currentETag
          = sha1 (stringify (.obj [])) ∧
        (restoreCampaign freshServer (.int 1)).emits = [⟨.all, "state:broadcast", content⟩] :=
  ⟨by decide, rfl,
    restore_stored_snapshot freshServer freshServer_reachable ⟨1, stringify (.obj [])⟩
      (by decide)⟩

/-- C10: on a server in a reachable state, an accepted `PUT` and an accepted restore (status
200) each append exactly one snapshot, whose data is the serialized form of the document the
server then holds; a `PUT` or a restore with any other status leaves the log as it was; the id
of an appended snapshot is greater than the id of every snapshot already in the log; and after
any operation (`PUT`, `state:update`, restore) the old log is a prefix of the new one. -/
theorem snapshot_log_append_only (s : Server) (hs : Reachable s) :
    (∀ req, (putCampaign s req).status = some 200 →
        (putCampaign s req).server.db.snapshots =
          s.db.snapshots ++ [⟨nextId s.db, stringify (putCampaign s req).server.state⟩]) ∧
      (∀ req, (putCampaign s req).status ≠ some 200 →
        (putCampaign s req).server.db.snapshots = s.db.snapshots) ∧
      (∀ id, (restoreCampaign s id).status = some 200 →
        (restoreCampaign s id).server.db.snapshots =
          s.db.snapshots ++ [⟨nextId s.db, stringify (restoreCampaign s id).server.state⟩]) ∧
      (∀ id, (restoreCampaign s id).status ≠ some 200 →
        (restoreCampaign s id).server.db.snapshots = s.db.snapshots) ∧
      (∀ r ∈ s.db.snapshots, r.id < nextId s.db) ∧
      (∀ op : Op, s.db.snapshots <+: (op.run s).server.db.snapshots) := by
  have hok := storeOk_of_reachable s hs
  have hrestore : ∀ id, (restoreCampaign s id).status = some 200 →
      (restoreCampaign s id).server.db.snapshots =
        s.db.snapshots ++ [⟨nextId s.db, stringify (restoreCampaign s id).server.state⟩] := by
    intro id h200
    rcases restoreCampaign_cases s id with ⟨hne, _⟩ | ⟨row, payload, hmem, hp, _, hsrv⟩
    · exact absurd h200 hne
    · obtain ⟨w, hw, hdata⟩ := hok.rows row hmem
      have hpw : payload = w := by
        rw [hdata, jsonParse_stringify] at hp
        exact (Except.ok.inj hp).symm
      rw [hsrv]
      simp only [saveStateToDB, hpw, orEmptyObject_of_ne_null w hw]
  have hput : ∀ req, (putCampaign s req).status = some 200 →
      (putCampaign s req).server.db.snapshots =
        s.db.snapshots ++ [⟨nextId s.db, stringify (putCampaign s req).server.state⟩] := by
    intro req h200
    obtain ⟨hobj, hsize, hver, hgo⟩ := putCampaign_status_200 s req h200
    rw [putCampaign_accepted s req hobj hsize hver hgo,
      saveStateToDB_of_isObjectLike s.db req.body hobj]
  refine ⟨hput, ?_, hrestore, ?_, lt_nextId s.db, ?_⟩
  · intro req hne
    rw [putCampaign_not_200 s req hne]
  · intro id hne
    rcases restoreCampaign_cases s id with ⟨_, hsame⟩ | ⟨_, _, _, _, h200, _⟩
    · rw [hsame]
    · exact absurd h200 hne
  · intro op
    cases op with
    | put req =>
      by_cases h200 : (putCampaign s req).status = some 200
      · exact ⟨_, (hput req h200).symm⟩
      · show s.db.snapshots <+: (putCampaign s req).server.db.snapshots
        rw [putCampaign_not_200 s req h200]
    | update v =>
      show s.db.snapshots <+: (stateUpdate s v).server.db.snapshots
      unfold stateUpdate
      split_ifs
      · exact List.prefix_refl _
      · exact ⟨_, rfl⟩
    | restore id =>
      by_cases h200 : (restoreCampaign s id).status = some 200
      · exact ⟨_, (hrestore id h200).symm⟩
      · show s.db.snapshots <+: (restoreCampaign s id).server.db.snapshots
        rcases restoreCampaign_cases s id with ⟨_, hsame⟩ | ⟨_, _, _, _, h, _⟩
        · rw [hsame]
        · exact absurd h h200

/-- C10, witness: on the fresh server, whose log holds snapshot 1, the accepted `PUT` of
`noteDoc` appends snapshot 2 with the serialized `noteDoc`, and the rejected `PUT` of the
empty object appends nothing. -/
theorem snapshot_log_append_only_witness :
    (putCampaign freshServer ⟨noteDoc, none, none, none⟩).server.db.snapshots =
        freshServer.db.snapshots ++ [⟨2, stringify noteDoc⟩] ∧
      (putCampaign freshServer ⟨.obj [], none, none, none⟩).server.db.snapshots =
        freshServer.db.snapshots :=
  ⟨(snapshot_log_append_only freshServer freshServer_reachable).1
      ⟨noteDoc, none, none, none⟩ (by decide),
    (snapshot_log_append_only freshServer freshServer_reachable).2.1
      ⟨.obj [], none, none, none⟩ (by decide)⟩

/-! ## The version token after `PUT` and restore

The two HTTP writers assign `currentETag` after saving, so that it is the content hash of the
document they install; `state:update` is the writer that does not. -/

theorem version_is_content_hash_after_put (s : Server) (req : PutRequest)
    (h : (putCampaign s req).status = some 200) :
    (putCampaign s req).server.currentETag
      = sha1 (stringify (putCampaign s req).server.state) := by
  obtain ⟨hobj, hsize, hver, hgo⟩ := putCampaign_status_200 s req h
  rw [putCampaign_accepted s req hobj hsize hver hgo]

theorem version_is_content_hash_after_restore (s : Server) (hs : Reachable s) (id : IdParam)
    (h : (restoreCampaign s id).status = some 200) :
    (restoreCampaign s id).server.currentETag
      = sha1 (stringify (restoreCampaign s id).server.state) := by
  have hok := storeOk_of_reachable s hs
  rcases restoreCampaign_cases s id with ⟨hne, _⟩ | ⟨row, payload, hmem, hp, _, hsrv⟩
  · exact absurd h hne
  · obtain ⟨w, _, hdata⟩ := hok.rows row hmem
    have hpw : payload = w := by
      rw [hdata, jsonParse_stringify] at hp
      exact (Except.ok.inj hp).symm
    rw [hsrv, hpw, hdata]

/-! ## The jukebox: lists and cursor -/

theorem spliceRemove_eq_eraseIdx {α : Type} (arr : List α) (i : Nat) :
    spliceRemove arr i = arr.eraseIdx i := by
  unfold spliceRemove
  rw [List.eraseIdx_eq_take_drop_succ]

theorem take_append_cons_drop (arr : List Track) (i : Nat) (x : Track) (h : i ≤ arr.length) :
    arr.take i ++ x :: arr.drop i = arr.insertIdx i x := by
  induction arr generalizing i with
  | nil =>
    have : i = 0 := by simpa using h
    subst this
    simp
  | cons a arr ih =>
    cases i with
    | zero => simp
    | succ i =>
      simp only [List.length_cons, Nat.add_le_add_iff_right] at h
      simp [List.insertIdx_succ_cons, ih i h]

theorem spliceInsert_eq_insertIdx (arr : List Track) (i : Nat) (x : Track)
    (h : i ≤ arr.length) : spliceInsert arr i x = arr.insertIdx i x :=
  take_append_cons_drop arr i x h

theorem length_spliceRemove (arr : List Track) (i : Nat) (h : i < arr.length) :
    (spliceRemove arr i).length = arr.length - 1 := by
  rw [spliceRemove_eq_eraseIdx, List.length_eraseIdx_of_lt h]

theorem moveItem_eq (arr : List Track) (f t : Nat) (hf : f < arr.length)
    (ht : t < arr.length) :
    ∃ x, arr[f]? = some x ∧ moveItem arr f t = (arr.eraseIdx f).insertIdx t x := by
  refine ⟨arr[f], by simp [hf], ?_⟩
  unfold moveItem
  have hget : arr.get? f = some arr[f] := by simp [hf]
  rw [hget]
  simp only
  rw [spliceRemove_eq_eraseIdx, spliceInsert_eq_insertIdx]
  rw [List.length_eraseIdx_of_lt hf]
  omega

theorem length_moveItem (arr : List Track) (f t : Nat) (hf : f < arr.length)
    (ht : t < arr.length) : (moveItem arr f t).length = arr.length := by
  obtain ⟨x, _, h⟩ := moveItem_eq arr f t hf ht
  rw [h, List.length_insertIdx, List.length_eraseIdx_of_lt hf]
  · omega
  · rw [List.length_eraseIdx_of_lt hf]
    omega

theorem clamp_bounds (n b : Int) (h : 0 ≤ b) : 0 ≤ clamp n 0 b ∧ clamp n 0 b ≤ b := by
  unfold clamp
  omega

theorem clamp_of_mem (n b : Int) (h0 : 0 ≤ n) (hb : n ≤ b) : clamp n 0 b = n := by
  unfold clamp
  omega

theorem toNat_clamp_lt (n : Int) (len : Nat) (h : len ≠ 0) :
    (clamp n 0 ((len : Int) - 1)).toNat < len := by
  have := clamp_bounds n ((len : Int) - 1) (by omega)
  omega

/-- The cursor is `-1` or an index of the playlist. -/
theorem cursor_valid_handleCmd (st : JbState) (cmd : JbCmd)
    (h : st.currentIndex = -1 ∨
      (0 ≤ st.currentIndex ∧ st.currentIndex < (st.playlist.length : Int))) :
    (handleCmd st cmd).state.currentIndex = -1 ∨
      (0 ≤ (handleCmd st cmd).state.currentIndex ∧
        (handleCmd st cmd).state.currentIndex
          < ((handleCmd st cmd).state.playlist.length : Int)) := by
  cases cmd with
  | addTrack item =>
    simp only [handleCmd, addTrack]
    split_ifs
    · exact h
    · cases ownField item "videoId" with
      | none => exact h
      | some v =>
        simp only
        split_ifs
        · exact h
        · simp only [List.length_append, List.length_singleton, Nat.cast_add, Nat.cast_one]
          omega
  | playIndex index seek =>
    simp only [handleCmd, playIndex]
    split_ifs with h0
    · exact h
    · have := clamp_bounds (index.getD 0) ((st.playlist.length : Int) - 1) (by omega)
      simp only
      omega
  | skipNext =>
    simp only [handleCmd, skipNext]
    split_ifs with h0 <;> simp only <;> omega
  | skipPrev =>
    simp only [handleCmd, skipPrev]
    split_ifs with h0 <;> simp only <;> omega
  | pause => exact h
  | resume => exact h
  | setVolume v => exact h
  | seekTo t => exact h
  | removeIndex index =>
    simp only [handleCmd, removeIndex]
    split_ifs with h0 h1 h2 h3
    · exact h
    · exact Or.inl rfl
    · have hb := clamp_bounds (index.getD (-1)) ((st.playlist.length : Int) - 1) (by omega)
      simp only
      omega
    · have hb := clamp_bounds (index.getD (-1)) ((st.playlist.length : Int) - 1) (by omega)
      have hl := length_spliceRemove st.playlist
        (clamp (index.getD (-1)) 0 ((st.playlist.length : Int) - 1)).toNat
        (toNat_clamp_lt _ _ h0)
      simp only [beq_iff_eq] at h2
      simp only [hl]
      omega
    · have hb := clamp_bounds (index.getD (-1)) ((st.playlist.length : Int) - 1) (by omega)
      have hl := length_spliceRemove st.playlist
        (clamp (index.getD (-1)) 0 ((st.playlist.length : Int) - 1)).toNat
        (toNat_clamp_lt _ _ h0)
      simp only [beq_iff_eq] at h2
      simp only [hl]
      omega
  | reorder f t =>
    by_cases h0 : st.playlist.length = 0
    · have hr : reorder st f t = ⟨st, []⟩ := by
        unfold reorder
        rw [if_pos h0]
      simp only [handleCmd, hr]
      exact h
    · have hf := clamp_bounds (f.getD (-1)) ((st.playlist.length : Int) - 1) (by omega)
      have ht := clamp_bounds (t.getD (-1)) ((st.playlist.length : Int) - 1) (by omega)
      have hl := length_moveItem st.playlist
        (clamp (f.getD (-1)) 0 ((st.playlist.length : Int) - 1)).toNat
        (clamp (t.getD (-1)) 0 ((st.playlist.length : Int) - 1)).toNat
        (toNat_clamp_lt _ _ h0) (toNat_clamp_lt _ _ h0)
      simp only [handleCmd, reorder, h0, if_false]
      split_ifs <;> first
        | exact h
        | (simp only [hl]; omega)

theorem oneTrack_reachable : JbReachable oneTrack :=
  JbReachable.step defaultJBState (.addTrack (.obj [("videoId", .str "A")])) JbReachable.default

/-- C11: in every state reachable from the default playlist state through the commands
`add_track`, `play_index`, `skip_next`, `skip_prev`, `pause`, `resume`, `set_volume`, `seek_to`,
`remove_index` and `reorder`, with integer (or absent) arguments, `currentIndex` is `-1` or
satisfies `0 ≤ currentIndex < playlist.length`. -/
theorem cursor_valid_of_reachable (st : JbState) (h : JbReachable st) :
    st.currentIndex = -1 ∨
      (0 ≤ st.currentIndex ∧ st.currentIndex < (st.playlist.length : Int)) := by
  induction h with
  | default => exact Or.inl rfl
  | step st cmd _ ih => exact cursor_valid_handleCmd st cmd ih

/-- C11, witness: after `add_track` and `play_index` with index 5 the cursor is on the only
track. -/
theorem cursor_valid_of_reachable_witness :
    JbReachable (playIndex oneTrack (some 5) none).state ∧
      (playIndex oneTrack (some 5) none).state.currentIndex = 0 ∧
      ((playIndex oneTrack (some 5) none).state.currentIndex = -1 ∨
        (0 ≤ (playIndex oneTrack (some 5) none).state.currentIndex ∧
          (playIndex oneTrack (some 5) none).state.currentIndex
            < ((playIndex oneTrack (some 5) none).state.playlist.length : Int))) :=
  ⟨JbReachable.step oneTrack (.playIndex (some 5) none) oneTrack_reachable, by decide,
    cursor_valid_of_reachable _
      (JbReachable.step oneTrack (.playIndex (some 5) none) oneTrack_reachable)⟩

theorem playIndex_playlist (st : JbState) (index seek : Option Int) :
    (playIndex st index seek).state.playlist = st.playlist := by
  unfold playIndex
  split_ifs <;> rfl

theorem skipNext_playlist (st : JbState) : (skipNext st).state.playlist = st.playlist := by
  unfold skipNext
  split_ifs <;> rfl

theorem skipPrev_playlist (st : JbState) : (skipPrev st).state.playlist = st.playlist := by
  unfold skipPrev
  split_ifs <;> rfl

theorem playIndex_empty (st : JbState) (index seek : Option Int)
    (h : st.playlist.length = 0) : playIndex st index seek = ⟨st, []⟩ := by
  unfold playIndex
  rw [if_pos h]

theorem skipNext_empty (st : JbState) (h : st.playlist.length = 0) :
    skipNext st = ⟨st, []⟩ := by
  unfold skipNext
  rw [if_pos h]

theorem skipPrev_empty (st : JbState) (h : st.playlist.length = 0) :
    skipPrev st = ⟨st, []⟩ := by
  unfold skipPrev
  rw [if_pos h]

theorem removeIndex_empty (st : JbState) (index : Option Int)
    (h : st.playlist.length = 0) : removeIndex st index = ⟨st, []⟩ := by
  unfold removeIndex
  rw [if_pos h]

theorem reorder_empty (st : JbState) (f t : Option Int)
    (h : st.playlist.length = 0) : reorder st f t = ⟨st, []⟩ := by
  unfold reorder
  rw [if_pos h]

/-- Every command but `resume` keeps "not playing while the playlist is empty". -/
theorem not_playing_when_empty_handleCmd (st : JbState) (cmd : JbCmd)
    (hcmd : cmd ≠ .resume)
    (h : st.playlist.length = 0 → st.isPlaying = false) :
    (handleCmd st cmd).state.playlist.length = 0 →
      (handleCmd st cmd).state.isPlaying = false := by
  cases cmd with
  | addTrack item =>
    simp only [handleCmd, addTrack]
    split_ifs
    · exact h
    · cases ownField item "videoId" with
      | none => exact h
      | some v =>
        simp only
        split_ifs
        · exact h
        · simp
  | playIndex index seek =>
    intro hl
    simp only [handleCmd, playIndex_playlist] at hl
    simp only [handleCmd, playIndex_empty st index seek hl]
    exact h hl
  | skipNext =>
    intro hl
    simp only [handleCmd, skipNext_playlist] at hl
    simp only [handleCmd, skipNext_empty st hl]
    exact h hl
  | skipPrev =>
    intro hl
    simp only [handleCmd, skipPrev_playlist] at hl
    simp only [handleCmd, skipPrev_empty st hl]
    exact h hl
  | pause => exact fun _ => rfl
  | resume => exact absurd rfl hcmd
  | setVolume v => exact h
  | seekTo t => exact h
  | removeIndex index =>
    simp only [handleCmd, removeIndex]
    split_ifs with h0 h1
    all_goals first
      | exact h
      | exact fun _ => rfl
      | (intro hl; exact absurd hl h1)
  | reorder f t =>
    by_cases h0 : st.playlist.length = 0
    · simp only [handleCmd, reorder_empty st f t h0]
      exact h
    · have hl := length_moveItem st.playlist
        (clamp (f.getD (-1)) 0 ((st.playlist.length : Int) - 1)).toNat
        (clamp (t.getD (-1)) 0 ((st.playlist.length : Int) - 1)).toNat
        (toNat_clamp_lt _ _ h0) (toNat_clamp_lt _ _ h0)
      simp only [handleCmd, reorder, h0, if_false]
      split_ifs
      all_goals first
        | exact h
        | (intro hl2; simp only [hl] at hl2; exact absurd hl2 h0)

/-- C12, the code at the failing input: the command `resume` on the default state, whose
playlist is empty.  The state reached has an empty playlist and `isPlaying = true`: the handler
of `resume` assigns the flag without looking at the playlist, while `play_index`, `skip_next`
and `skip_prev` return early on an empty playlist and `remove_index` clears the flag when the
playlist becomes empty. -/
theorem resume_on_empty_playlist_plays :
    JbReachable (resume defaultJBState).state ∧
      (resume defaultJBState).state.playlist.length = 0 ∧
      (resume defaultJBState).state.isPlaying = true :=
  ⟨JbReachable.step defaultJBState .resume JbReachable.default, rfl, rfl⟩

/-- The state `remove_index` leaves for an index inside the playlist. -/
theorem removeIndex_state (st : JbState) (i : Int) (h0 : 0 ≤ i)
    (hlt : i < (st.playlist.length : Int)) :
    (removeIndex st (some i)).state =
      if st.playlist.length = 1 then
        { st with playlist := st.playlist.eraseIdx i.toNat, currentIndex := -1,
                  isPlaying := false, currentTime := 0 }
      else if i = st.currentIndex then
        { st with playlist := st.playlist.eraseIdx i.toNat,
                  currentIndex := min i ((st.playlist.length : Int) - 2),
                  isPlaying := true, currentTime := 0 }
      else
        { st with playlist := st.playlist.eraseIdx i.toNat,
                  currentIndex := if i < st.currentIndex then st.currentIndex - 1
                                  else st.currentIndex } := by
  have hne : ¬ st.playlist.length = 0 := by omega
  have hc : clamp i 0 ((st.playlist.length : Int) - 1) = i := clamp_of_mem i _ h0 (by omega)
  have hlen : (st.playlist.eraseIdx i.toNat).length = st.playlist.length - 1 :=
    List.length_eraseIdx_of_lt (by omega)
  unfold removeIndex
  simp only [Option.getD_some, hc, spliceRemove_eq_eraseIdx, hlen, if_neg hne, beq_iff_eq]
  by_cases h1 : st.playlist.length = 1
  · have : st.playlist.length - 1 = 0 := by omega
    simp only [h1, this, if_true]
  · have h2 : ¬ st.playlist.length - 1 = 0 := by omega
    have h3 : ((st.playlist.length - 1 : Nat) : Int) - 1 = (st.playlist.length : Int) - 2 := by
      omega
    simp only [h1, h2, if_false, h3]
    split_ifs <;> rfl

/-- C14: for every playlist state and every index `i` with `0 ≤ i < len`, `remove_index(i)`
leaves the playlist without the track at `i`, the others in their order, and the volume as it
was.  If the playlist is now empty (`len = 1`), `currentIndex = -1`, `isPlaying = false` and
`currentTime = 0`.  Otherwise: if `i = currentIndex`, `currentIndex` becomes
`min(i, newLen - 1)`, which is the place of the track that was at `i + 1`, or of the new last
track when `i` was last, with `isPlaying = true` and `currentTime = 0`; if `i < currentIndex`,
`currentIndex` is decremented; if `i > currentIndex`, it is unchanged; in the last two cases
`isPlaying` and `currentTime` are unchanged. -/
theorem removeIndex_effect (st : JbState) (i : Int) (h0 : 0 ≤ i)
    (hlt : i < (st.playlist.length : Int)) :
    (removeIndex st (some i)).state.playlist = st.playlist.eraseIdx i.toNat ∧
      (removeIndex st (some i)).state.playlist
        = st.playlist.take i.toNat ++ st.playlist.drop (i.toNat + 1) ∧
      (removeIndex st (some i)).state.volume = st.volume ∧
      (st.playlist.length = 1 →
        (removeIndex st (some i)).state.playlist = [] ∧
        (removeIndex st (some i)).state.currentIndex = -1 ∧
        (removeIndex st (some i)).state.isPlaying = false ∧
        (removeIndex st (some i)).state.currentTime = 0) ∧
      (st.playlist.length ≠ 1 → i = st.currentIndex →
        (removeIndex st (some i)).state.currentIndex
          = min i (((removeIndex st (some i)).state.playlist.length : Int) - 1) ∧
        (removeIndex st (some i)).state.isPlaying = true ∧
        (removeIndex st (some i)).state.currentTime = 0 ∧
        (i + 1 < (st.playlist.length : Int) →
          (removeIndex st (some i)).state.playlist[
              (removeIndex st (some i)).state.currentIndex.toNat]?
            = st.playlist[i.toNat + 1]?) ∧
        (i + 1 = (st.playlist.length : Int) →
          (removeIndex st (some i)).state.playlist[
              (removeIndex st (some i)).state.currentIndex.toNat]?
            = (removeIndex st (some i)).state.playlist.getLast?)) ∧
      (st.playlist.length ≠ 1 → i < st.currentIndex →
        (removeIndex st (some i)).state.currentIndex = st.currentIndex - 1 ∧
        (removeIndex st (some i)).state.isPlaying = st.isPlaying ∧
        (removeIndex st (some i)).state.currentTime = st.currentTime) ∧
      (st.playlist.length ≠ 1 → st.currentIndex < i →
        (removeIndex st (some i)).state.currentIndex = st.currentIndex ∧
        (removeIndex st (some i)).state.isPlaying = st.isPlaying ∧
        (removeIndex st (some i)).state.currentTime = st.currentTime) := by
  have hs := removeIndex_state st i h0 hlt
  have hlen : (st.playlist.eraseIdx i.toNat).length = st.playlist.length - 1 :=
    List.length_eraseIdx_of_lt (by omega)
  have hpl : (removeIndex st (some i)).state.playlist = st.playlist.eraseIdx i.toNat := by
    rw [hs]
    split_ifs <;> rfl
  refine ⟨hpl, ?_, ?_, ?_, ?_, ?_, ?_⟩
  · rw [hpl, List.eraseIdx_eq_take_drop_succ]
  · rw [hs]
    split_ifs <;> rfl
  · intro h1
    rw [hs, if_pos h1]
    refine ⟨?_, rfl, rfl, rfl⟩
    apply List.eq_nil_of_length_eq_zero
    simp only [hlen]
    omega
  · intro h1 hcur
    have hci : (removeIndex st (some i)).state.currentIndex
        = min i ((st.playlist.length : Int) - 2) := by
      rw [hs, if_neg h1, if_pos hcur]
    refine ⟨?_, ?_, ?_, ?_, ?_⟩
    · rw [hci, hpl, hlen]
      omega
    · rw [hs, if_neg h1, if_pos hcur]
    · rw [hs, if_neg h1, if_pos hcur]
    · intro hnext
      have : (min i ((st.playlist.length : Int) - 2)).toNat = i.toNat := by omega
      rw [hci, hpl, this, List.getElem?_eraseIdx_of_ge _ _ _ (Nat.le_refl _)]
    · intro hlast
      have : (min i ((st.playlist.length : Int) - 2)).toNat
          = (st.playlist.eraseIdx i.toNat).length - 1 := by
        rw [hlen]
        omega
      rw [hci, hpl, this, List.getLast?_eq_getElem?]
  · intro h1 hcur
    have hne : ¬ i = st.currentIndex := by omega
    rw [hs, if_neg h1, if_neg hne]
    exact ⟨if_pos hcur, rfl, rfl⟩
  · intro h1 hcur
    have hne : ¬ i = st.currentIndex := by omega
    have hnl : ¬ i < st.currentIndex := by omega
    rw [hs, if_neg h1, if_neg hne]
    exact ⟨if_neg hnl, rfl, rfl⟩

/-- C14, witness: on `[A, B, C, D]` with the cursor on `B`, removing index 1 leaves
`[A, C, D]` with the cursor still 1, now on `C`, playing from 0; removing index 0 moves the
cursor to 0. -/
theorem removeIndex_effect_witness :
    (removeIndex fourTracks (some 1)).state.playlist = [trackA, trackC, trackD] ∧
      (removeIndex fourTracks (some 1)).state.currentIndex = 1 ∧
      (removeIndex fourTracks (some 1)).state.isPlaying = true ∧
      (removeIndex fourTracks (some 1)).state.currentTime = 0 ∧
      (removeIndex fourTracks (some 0)).state.currentIndex = 0 :=
  ⟨(removeIndex_effect fourTracks 1 (by decide) (by decide)).1,
    ((removeIndex_effect fourTracks 1 (by decide) (by decide)).2.2.2.2.1 (by decide) rfl).1,
    ((removeIndex_effect fourTracks 1 (by decide) (by decide)).2.2.2.2.1 (by decide) rfl).2.1,
    ((removeIndex_effect fourTracks 1 (by decide) (by decide)).2.2.2.2.1 (by decide) rfl).2.2.1,
    ((removeIndex_effect fourTracks 0 (by decide) (by decide)).2.2.2.2.2.1 (by decide)
      (by decide)).1⟩

theorem insertIdx_eraseIdx_self (l : List Track) (i : Nat) (x : Track)
    (h : l[i]? = some x) : (l.eraseIdx i).insertIdx i x = l := by
  induction l generalizing i with
  | nil => simp at h
  | cons a l ih =>
    cases i with
    | zero =>
      simp only [List.getElem?_cons_zero, Option.some.injEq] at h
      subst h
      simp
    | succ i =>
      simp only [List.getElem?_cons_succ] at h
      simp [List.insertIdx_succ_cons, ih i h]

/-- C15: for every playlist state and all `from`, `to` in `[0, len)`, `reorder(from, to)`
leaves the list obtained by removing the element at `from` and inserting it at index `to`; the
cursor becomes `to` if it was `from`, is decremented if `from < currentIndex ≤ to`, is
incremented if `to ≤ currentIndex < from`, and is unchanged otherwise; `isPlaying`, `volume`
and `currentTime` are unchanged. -/
theorem reorder_effect (st : JbState) (f t : Int) (hf0 : 0 ≤ f)
    (hf : f < (st.playlist.length : Int)) (ht0 : 0 ≤ t)
    (ht : t < (st.playlist.length : Int)) :
    (∃ x, st.playlist[f.toNat]? = some x ∧
        (reorder st (some f) (some t)).state.playlist
          = (st.playlist.eraseIdx f.toNat).insertIdx t.toNat x) ∧
      (reorder st (some f) (some t)).state.currentIndex =
        (if st.currentIndex = f then t
         else if f < st.currentIndex ∧ st.currentIndex ≤ t then st.currentIndex - 1
         else if t ≤ st.currentIndex ∧ st.currentIndex < f then st.currentIndex + 1
         else st.currentIndex) ∧
      (reorder st (some f) (some t)).state.isPlaying = st.isPlaying ∧
      (reorder st (some f) (some t)).state.volume = st.volume ∧
      (reorder st (some f) (some t)).state.currentTime = st.currentTime := by
  have hne : ¬ st.playlist.length = 0 := by omega
  have hcf : clamp f 0 ((st.playlist.length : Int) - 1) = f := clamp_of_mem f _ hf0 (by omega)
  have hct : clamp t 0 ((st.playlist.length : Int) - 1) = t := clamp_of_mem t _ ht0 (by omega)
  obtain ⟨x, hx, hmove⟩ := moveItem_eq st.playlist f.toNat t.toNat (by omega) (by omega)
  unfold reorder
  simp only [Option.getD_some, hcf, hct, if_neg hne]
  by_cases hft : f = t
  · subst hft
    simp only [if_true]
    refine ⟨⟨x, hx, (insertIdx_eraseIdx_self st.playlist f.toNat x hx).symm⟩, ?_, ?_, ?_, ?_⟩
    all_goals first
      | trivial
      | (split_ifs <;> omega)
  · simp only [if_neg hft]
    refine ⟨⟨x, hx, hmove⟩, ?_, ?_, ?_, ?_⟩
    all_goals first
      | trivial
      | (split_ifs <;> omega)

/-- C15, witness: `reorder(0, 2)` on `[A, B, C, D]` with the cursor on `B` (index 1) gives
`[B, C, A, D]` with the cursor 0. -/
theorem reorder_effect_witness :
    (reorder fourTracks (some 0) (some 2)).state.playlist
        = [trackB, trackC, trackA, trackD] ∧
      (reorder fourTracks (some 0) (some 2)).state.currentIndex = 0 ∧
      (∃ x, fourTracks.playlist[0]? = some x ∧
        (reorder fourTracks (some 0) (some 2)).state.playlist
          = (fourTracks.playlist.eraseIdx 0).insertIdx 2 x) :=
  ⟨rfl, by decide,
    (reorder_effect fourTracks 0 2 (by decide) (by decide) (by decide) (by decide)).1⟩

/-- C16: on a non-empty playlist of `n` tracks whose cursor `c` is valid or `-1`, `skip_next`
sets `currentIndex` to `c + 1`, and to `0` when `c` is the last index or `-1`; `skip_prev` sets
it to `c - 1`, and to `n - 1` when `c` is `0` or `-1`; both set `isPlaying = true` and
`currentTime = 0` and leave the playlist and the volume unchanged. -/
theorem skip_effect (st : JbState) (hne : st.playlist.length ≠ 0)
    (hc : st.currentIndex = -1 ∨
      (0 ≤ st.currentIndex ∧ st.currentIndex < (st.playlist.length : Int))) :
    (skipNext st).state.currentIndex =
        (if st.currentIndex = -1 ∨ st.currentIndex = (st.playlist.length : Int) - 1 then 0
         else st.currentIndex + 1) ∧
      (skipNext st).state.isPlaying = true ∧ (skipNext st).state.currentTime = 0 ∧
      (skipNext st).state.playlist = st.playlist ∧ (skipNext st).state.volume = st.volume ∧
      (skipPrev st).state.currentIndex =
        (if st.currentIndex = -1 ∨ st.currentIndex = 0 then (st.playlist.length : Int) - 1
         else st.currentIndex - 1) ∧
      (skipPrev st).state.isPlaying = true ∧ (skipPrev st).state.currentTime = 0 ∧
      (skipPrev st).state.playlist = st.playlist ∧ (skipPrev st).state.volume = st.volume := by
  unfold skipNext skipPrev
  rw [if_neg hne, if_neg hne]
  refine ⟨?_, rfl, rfl, rfl, rfl, ?_, rfl, rfl, rfl, rfl⟩
  · show (if (if st.currentIndex < 0 then (0 : Int) else st.currentIndex + 1)
        ≥ (st.playlist.length : Int) then (0 : Int)
        else (if st.currentIndex < 0 then (0 : Int) else st.currentIndex + 1)) = _
    split_ifs <;> omega
  · show (if st.currentIndex ≤ 0 then (st.playlist.length : Int) - 1
        else st.currentIndex - 1) = _
    split_ifs <;> omega

/-- C16, witness: on `[A, B, C, D]`, from the last index `skip_next` wraps to 0 and from index 0
`skip_prev` wraps to 3. -/
theorem skip_effect_witness :
    (skipNext { fourTracks with currentIndex := 3 }).state.currentIndex = 0 ∧
      (skipPrev { fourTracks with currentIndex := 0 }).state.currentIndex = 3 ∧
      (skipNext fourTracks).state.currentIndex = 2 :=
  ⟨(skip_effect { fourTracks with currentIndex := 3 } (by decide) (by decide)).1,
    (skip_effect { fourTracks with currentIndex := 0 } (by decide)
      (by decide)).2.2.2.2.2.1,
    (skip_effect fourTracks (by decide) (by decide)).1⟩

/-- C17: on an empty playlist each of `skip_next`, `skip_prev`, `play_index`, `remove_index`
and `reorder`, with any arguments, leaves the playlist state as it was and has no effect: no
call of `jbSave`, so the database is unchanged, and no event. -/
theorem empty_playlist_noop (st : JbState) (h : st.playlist.length = 0) :
    ((skipNext st).state = st ∧ (skipNext st).effects = []) ∧
      ((skipPrev st).state = st ∧ (skipPrev st).effects = []) ∧
      (∀ index seek, (playIndex st index seek).state = st ∧
        (playIndex st index seek).effects = []) ∧
      (∀ index, (removeIndex st index).state = st ∧ (removeIndex st index).effects = []) ∧
      (∀ fromIdx toIdx, (reorder st fromIdx toIdx).state = st ∧
        (reorder st fromIdx toIdx).effects = []) ∧
      (∀ (db : JbDb) (cmd : JbCmd),
        (cmd = .skipNext ∨ cmd = .skipPrev ∨ (∃ index seek, cmd = .playIndex index seek) ∨
          (∃ index, cmd = .removeIndex index) ∨
          (∃ fromIdx toIdx, cmd = .reorder fromIdx toIdx)) →
        applyEffects db (handleCmd st cmd).effects = db) := by
  refine ⟨?_, ?_, ?_, ?_, ?_, ?_⟩
  · rw [skipNext_empty st h]
    exact ⟨rfl, rfl⟩
  · rw [skipPrev_empty st h]
    exact ⟨rfl, rfl⟩
  · intro index seek
    rw [playIndex_empty st index seek h]
    exact ⟨rfl, rfl⟩
  · intro index
    rw [removeIndex_empty st index h]
    exact ⟨rfl, rfl⟩
  · intro f t
    rw [reorder_empty st f t h]
    exact ⟨rfl, rfl⟩
  · intro db cmd hcmd
    rcases hcmd with rfl | rfl | ⟨i, s, rfl⟩ | ⟨i, rfl⟩ | ⟨f, t, rfl⟩
    · simp only [handleCmd, skipNext_empty st h, applyEffects]
    · simp only [handleCmd, skipPrev_empty st h, applyEffects]
    · simp only [handleCmd, playIndex_empty st i s h, applyEffects]
    · simp only [handleCmd, removeIndex_empty st i h, applyEffects]
    · simp only [handleCmd, reorder_empty st f t h, applyEffects]

/-- C17, witness: `skip_next` on the default state, whose playlist is empty. -/
theorem empty_playlist_noop_witness :
    defaultJBState.playlist.length = 0 ∧ (skipNext defaultJBState).effects = [] ∧
      (reorder defaultJBState (some 0) (some 1)).effects = [] :=
  ⟨rfl, (empty_playlist_noop defaultJBState rfl).1.2,
    ((empty_playlist_noop defaultJBState rfl).2.2.2.2.1 (some 0) (some 1)).2⟩

/-- C18, counterexample: `play_index(0, 30000)` on the one-track playlist sets `currentTime` to
30000, not to `clamp(30000, 0, 21600) = 21600`. -/
theorem playIndex_seek_not_capped :
    oneTrack.playlist.length ≠ 0 ∧
      (playIndex oneTrack (some 0) (some 30000)).state.currentTime = 30000 ∧
      clamp 30000 0 21600 = 21600 ∧
      (playIndex oneTrack (some 0) (some 30000)).state.currentTime ≠ clamp 30000 0 21600 := by
  decide

/-- C18, amended: on a non-empty playlist, for every integer index `i` and seek `s`,
`play_index(i, s)` sets `currentIndex = clamp(i, 0, len - 1)`, `isPlaying = true` and
`currentTime = max(0, s)`, which is `clamp(s, 0, 21600)` as long as `s ≤ 21600`, and leaves the
playlist and the volume unchanged. -/
theorem playIndex_effect (st : JbState) (i s : Int) (hne : st.playlist.length ≠ 0) :
    (playIndex st (some i) (some s)).state.currentIndex
        = clamp i 0 ((st.playlist.length : Int) - 1) ∧
      (playIndex st (some i) (some s)).state.isPlaying = true ∧
      (playIndex st (some i) (some s)).state.currentTime = max 0 s ∧
      (s ≤ 21600 → (playIndex st (some i) (some s)).state.currentTime = clamp s 0 21600) ∧
      (playIndex st (some i) (some s)).state.playlist = st.playlist ∧
      (playIndex st (some i) (some s)).state.volume = st.volume := by
  unfold playIndex
  rw [if_neg hne]
  refine ⟨rfl, rfl, rfl, ?_, rfl, rfl⟩
  intro hs
  show max 0 s = clamp s 0 21600
  unfold clamp
  omega

/-- C18, witness: `play_index(9, 30)` on `[A, B, C, D]` puts the cursor on index 3 at second
30. -/
theorem playIndex_effect_witness :
    (playIndex fourTracks (some 9) (some 30)).state.currentIndex = 3 ∧
      (playIndex fourTracks (some 9) (some 30)).state.currentTime = 30 :=
  ⟨by
      have h := (playIndex_effect fourTracks 9 30 (by decide)).1
      rw [h]
      decide,
    by
      have h := (playIndex_effect fourTracks 9 30 (by decide)).2.2.1
      rw [h]
      decide⟩

theorem currentTime_nonneg_handleCmd (st : JbState) (cmd : JbCmd) (h : 0 ≤ st.currentTime) :
    0 ≤ (handleCmd st cmd).state.currentTime := by
  cases cmd with
  | addTrack item =>
    simp only [handleCmd, addTrack]
    split_ifs
    · exact h
    · cases ownField item "videoId" with
      | none => exact h
      | some v =>
        simp only
        split_ifs <;> exact h
  | playIndex index seek =>
    simp only [handleCmd, playIndex]
    split_ifs
    · exact h
    · exact le_max_left _ _
  | skipNext =>
    simp only [handleCmd, skipNext]
    split_ifs <;> first | exact h | exact le_refl _
  | skipPrev =>
    simp only [handleCmd, skipPrev]
    split_ifs <;> first | exact h | exact le_refl _
  | pause => exact h
  | resume => exact h
  | setVolume v => exact h
  | seekTo t => exact le_max_left _ _
  | removeIndex index =>
    simp only [handleCmd, removeIndex]
    split_ifs <;> first | exact h | exact le_refl _
  | reorder f t =>
    simp only [handleCmd, reorder]
    split_ifs <;> exact h

theorem currentTime_nonneg_of_reachable (st : JbState) (h : JbReachable st) :
    0 ≤ st.currentTime := by
  induction h with
  | default => exact le_refl _
  | step st cmd _ ih => exact currentTime_nonneg_handleCmd st cmd ih

/-- C19, counterexample: `seek_to(30000)` on the default state reaches a state whose
`currentTime` is 30000, above 21600. -/
theorem seekTo_not_capped :
    JbReachable (seekTo defaultJBState (some 30000)).state ∧
      (seekTo defaultJBState (some 30000)).state.currentTime = 30000 ∧
      ¬ (seekTo defaultJBState (some 30000)).state.currentTime ≤ 21600 ∧
      (seekTo defaultJBState (some 30000)).state.currentTime ≠ clamp 30000 0 21600 :=
  ⟨JbReachable.step defaultJBState (.seekTo (some 30000)) JbReachable.default, by decide,
    by decide, by decide⟩

/-- C19, amended: for every playlist state and every integer `t`, `seek_to(t)` sets
`currentTime = max(0, t)`, which is `clamp(t, 0, 21600)` as long as `t ≤ 21600`, and changes no
other field; in every reachable state `currentTime ≥ 0` (there is no upper bound). -/
theorem seekTo_effect (st : JbState) (t : Int) :
    (seekTo st (some t)).state = { st with currentTime := max 0 t } ∧
      (t ≤ 21600 → (seekTo st (some t)).state.currentTime = clamp t 0 21600) ∧
      (JbReachable st → 0 ≤ st.currentTime ∧ 0 ≤ (seekTo st (some t)).state.currentTime) := by
  refine ⟨rfl, ?_, ?_⟩
  · intro ht
    show max 0 t = clamp t 0 21600
    unfold clamp
    omega
  · intro hr
    exact ⟨currentTime_nonneg_of_reachable st hr, le_max_left _ _⟩

/-- C19, witness: `seek_to(-5)` on the reachable one-track state gives `currentTime = 0`. -/
theorem seekTo_effect_witness :
    JbReachable oneTrack ∧ (seekTo oneTrack (some (-5))).state.currentTime = 0 ∧
      0 ≤ oneTrack.currentTime :=
  ⟨oneTrack_reachable,
    by
      have h := (seekTo_effect oneTrack (-5)).2.1 (by decide)
      rw [h]
      decide,
    ((seekTo_effect oneTrack (-5)).2.2 oneTrack_reachable).1⟩

theorem volume_range_handleCmd (st : JbState) (cmd : JbCmd)
    (h : 0 ≤ st.volume ∧ st.volume ≤ 100) :
    0 ≤ (handleCmd st cmd).state.volume ∧ (handleCmd st cmd).state.volume ≤ 100 := by
  cases cmd with
  | addTrack item =>
    simp only [handleCmd, addTrack]
    split_ifs
    · exact h
    · cases ownField item "videoId" with
      | none => exact h
      | some v =>
        simp only
        split_ifs <;> exact h
  | playIndex index seek =>
    simp only [handleCmd, playIndex]
    split_ifs <;> exact h
  | skipNext =>
    simp only [handleCmd, skipNext]
    split_ifs <;> exact h
  | skipPrev =>
    simp only [handleCmd, skipPrev]
    split_ifs <;> exact h
  | pause => exact h
  | resume => exact h
  | setVolume v => exact clamp_bounds _ 100 (by decide)
  | seekTo t => exact h
  | removeIndex index =>
    simp only [handleCmd, removeIndex]
    split_ifs <;> exact h
  | reorder f t =>
    simp only [handleCmd, reorder]
    split_ifs <;> exact h

theorem volume_range_of_reachable (st : JbState) (h : JbReachable st) :
    0 ≤ st.volume ∧ st.volume ≤ 100 := by
  induction h with
  | default => decide
  | step st cmd _ ih => exact volume_range_handleCmd st cmd ih

/-- C20: for every playlist state and every integer `v`, `set_volume(v)` sets
`volume = clamp(v, 0, 100)` and leaves the playlist, `currentIndex`, `isPlaying` and
`currentTime` unchanged; in every state reachable from the default state the volume is within
`0..100`. -/
theorem setVolume_effect (st : JbState) (v : Int) :
    (setVolume st (some v)).state = { st with volume := clamp v 0 100 } ∧
      (setVolume st (some v)).state.playlist = st.playlist ∧
      (setVolume st (some v)).state.currentIndex = st.currentIndex ∧
      (setVolume st (some v)).state.isPlaying = st.isPlaying ∧
      (setVolume st (some v)).state.currentTime = st.currentTime ∧
      0 ≤ (setVolume st (some v)).state.volume ∧ (setVolume st (some v)).state.volume ≤ 100 ∧
      (JbReachable st → 0 ≤ st.volume ∧ st.volume ≤ 100) := by
  have hb := clamp_bounds v 100 (by decide)
  exact ⟨rfl, rfl, rfl, rfl, rfl, hb.1, hb.2, volume_range_of_reachable st⟩

/-- C20, witness: `set_volume(250)` on the reachable one-track state gives volume 100, and the
volume before was within range. -/
theorem setVolume_effect_witness :
    JbReachable oneTrack ∧ (setVolume oneTrack (some 250)).state.volume = 100 ∧
      (0 ≤ oneTrack.volume ∧ oneTrack.volume ≤ 100) :=
  ⟨oneTrack_reachable, by decide,
    (setVolume_effect oneTrack 250).2.2.2.2.2.2.2 oneTrack_reachable⟩

/-! ## The legacy jukebox: positions -/

theorem legacySynced_congr (s u : Legacy) (hp : u.state.playlist = s.state.playlist)
    (hd : u.db.tracks = s.db.tracks) (h : LegacySynced s) : LegacySynced u :=
  ⟨by rw [hp]; exact h.nodup, by rw [hp, hd]; exact h.sameIds, by rw [hp, hd]; exact h.agree,
    by rw [hp]; exact h.dense⟩

theorem reindexFrom_getElem? (l : List JbTrack) (k i : Nat) :
    (reindexFrom k l)[i]? = (l[i]?).map (fun t => { t with position := ((k + i : Nat) : Int) }) := by
  induction l generalizing k i with
  | nil => simp [reindexFrom]
  | cons a l ih =>
    cases i with
    | zero => simp [reindexFrom]
    | succ i =>
      simp only [reindexFrom, List.getElem?_cons_succ, ih]
      have : k + 1 + i = k + (i + 1) := by omega
      rw [this]

theorem reindexFrom_ids (l : List JbTrack) (k : Nat) :
    (reindexFrom k l).map (fun t => t.id) = l.map (fun t => t.id) := by
  induction l generalizing k with
  | nil => rfl
  | cons a l ih => simp [reindexFrom, ih]

theorem updatePosition_ids (rows : List JbTrack) (p : Int) (id : Nat) :
    (updatePosition rows p id).map (fun r => r.id) = rows.map (fun r => r.id) := by
  unfold updatePosition
  rw [List.map_map]
  apply List.map_congr_left
  intro r _
  simp only [Function.comp]
  split_ifs <;> rfl

theorem persistFrom_ids (l : List JbTrack) (k : Nat) (rows : List JbTrack) :
    (persistFrom k rows l).map (fun r => r.id) = rows.map (fun r => r.id) := by
  induction l generalizing k rows with
  | nil => rfl
  | cons a l ih => simp only [persistFrom, ih, updatePosition_ids]

/-- The loop leaves alone the rows whose id is not in the playlist. -/
theorem mem_of_mem_persistFrom (l : List JbTrack) (k : Nat) (rows : List JbTrack)
    (r : JbTrack) (hr : r ∈ persistFrom k rows l) (hid : r.id ∉ l.map (fun t => t.id)) :
    r ∈ rows := by
  induction l generalizing k rows with
  | nil => exact hr
  | cons a l ih =>
    simp only [List.map_cons, List.mem_cons, not_or] at hid
    have h1 := ih (k + 1) (updatePosition rows (k : Int) a.id) hr hid.2
    unfold updatePosition at h1
    obtain ⟨r0, hr0, hmap⟩ := List.mem_map.mp h1
    by_cases hc : r0.id = a.id
    · simp only [hc, if_true] at hmap
      rw [← hmap] at hid
      exact absurd rfl hid.1
    · simp only [hc, if_false] at hmap
      rw [← hmap]
      exact hr0

/-- After the loop, the row of a track has the index of the track as its position. -/
theorem persistFrom_position (l : List JbTrack) (k : Nat) (rows : List JbTrack)
    (hn : (l.map (fun t => t.id)).Nodup) (r : JbTrack) (hr : r ∈ persistFrom k rows l)
    (j : Nat) (t : JbTrack) (ht : l[j]? = some t) (hid : t.id = r.id) :
    r.position = ((k + j : Nat) : Int) := by
  induction l generalizing k rows j with
  | nil => simp at ht
  | cons a l ih =>
    simp only [List.map_cons, List.nodup_cons] at hn
    cases j with
    | zero =>
      simp only [List.getElem?_cons_zero, Option.some.injEq] at ht
      subst ht
      have hnot : r.id ∉ l.map (fun t => t.id) := by
        rw [← hid]
        exact hn.1
      have h1 := mem_of_mem_persistFrom l (k + 1) _ r hr hnot
      unfold updatePosition at h1
      obtain ⟨r0, _, hmap⟩ := List.mem_map.mp h1
      by_cases hc : r0.id = a.id
      · simp only [hc, if_true] at hmap
        rw [← hmap]
        simp
      · simp only [hc, if_false] at hmap
        rw [← hmap] at hid
        exact absurd hid.symm hc
    | succ j =>
      simp only [List.getElem?_cons_succ] at ht
      have := ih (k + 1) (updatePosition rows (k : Int) a.id) hn.2 hr j ht
      rw [this]
      congr 1
      omega

/-- The loop of `reindexAndPersist` brings memory and table into agreement whenever they hold
the same, distinct ids. -/
theorem legacySynced_reindexAndPersist (s : Legacy)
    (hn : (s.state.playlist.map (fun t => t.id)).Nodup)
    (hs : ∀ x, x ∈ s.db.tracks.map (fun r => r.id) ↔ x ∈ s.state.playlist.map (fun t => t.id)) :
    LegacySynced (reindexAndPersist s) := by
  refine ⟨?_, ?_, ?_, ?_⟩
  · simp only [reindexAndPersist, reindexFrom_ids]
    exact hn
  · intro x
    simp only [reindexAndPersist, reindexFrom_ids, persistFrom_ids]
    exact hs x
  · intro r hr t ht hid
    simp only [reindexAndPersist] at hr ht
    obtain ⟨j, hj⟩ := List.getElem?_of_mem ht
    rw [reindexFrom_getElem?] at hj
    cases hl : s.state.playlist[j]? with
    | none => simp [hl] at hj
    | some t0 =>
      simp only [hl, Option.map_some', Option.some.injEq] at hj
      have hpos := persistFrom_position s.state.playlist 0 s.db.tracks hn r hr j t0 hl
        (by rw [← hid, ← hj])
      rw [hpos, ← hj]
  · intro i t ht
    simp only [reindexAndPersist] at ht
    rw [reindexFrom_getElem?] at ht
    cases hl : s.state.playlist[i]? with
    | none => simp [hl] at ht
    | some t0 =>
      simp only [hl, Option.map_some', Option.some.injEq] at ht
      rw [← ht]
      simp

theorem le_maxPosition (rows : List JbTrack) : ∀ r ∈ rows, r.position ≤ maxPosition rows := by
  induction rows with
  | nil => simp
  | cons a rows ih =>
    intro r hr
    simp only [maxPosition, List.foldr_cons]
    rcases List.mem_cons.mp hr with rfl | hr
    · exact le_max_left _ _
    · exact le_trans (ih r hr) (le_max_right _ _)

theorem maxPosition_le (rows : List JbTrack) (b : Int) (hb : -1 ≤ b)
    (h : ∀ r ∈ rows, r.position ≤ b) : maxPosition rows ≤ b := by
  induction rows with
  | nil => exact hb
  | cons a rows ih =>
    simp only [maxPosition, List.foldr_cons]
    exact max_le (h a (by simp)) (ih (fun r hr => h r (by simp [hr])))

theorem le_maxRowId (rows : List JbTrack) : ∀ r ∈ rows, r.id ≤ maxRowId rows := by
  induction rows with
  | nil => simp
  | cons a rows ih =>
    intro r hr
    simp only [maxRowId, List.foldr_cons]
    rcases List.mem_cons.mp hr with rfl | hr
    · exact Nat.le_max_left _ _
    · exact Nat.le_trans (ih r hr) (Nat.le_max_right _ _)

/-- In a synced state the largest position of the table is `len - 1`. -/
theorem maxPosition_of_synced (s : Legacy) (h : LegacySynced s) :
    maxPosition s.db.tracks = (s.state.playlist.length : Int) - 1 := by
  apply le_antisymm
  · apply maxPosition_le _ _ (by omega)
    intro r hr
    have hid : r.id ∈ s.state.playlist.map (fun t => t.id) :=
      (h.sameIds r.id).mp (List.mem_map.mpr ⟨r, hr, rfl⟩)
    obtain ⟨t, ht, htid⟩ := List.mem_map.mp hid
    obtain ⟨j, hj⟩ := List.getElem?_of_mem ht
    have hlt : j < s.state.playlist.length := by
      by_contra hge
      rw [List.getElem?_eq_none (by omega)] at hj
      exact absurd hj (by simp)
    rw [h.agree r hr t ht htid, h.dense j t hj]
    omega
  · by_cases hlen : s.state.playlist.length = 0
    · have : -1 ≤ maxPosition s.db.tracks := by
        unfold maxPosition
        cases s.db.tracks with
        | nil => exact le_refl _
        | cons a rows =>
          simp only [List.foldr_cons]
          exact le_trans (by
            induction rows with
            | nil => exact le_refl _
            | cons b rows ih =>
              simp only [List.foldr_cons]
              exact le_trans ih (le_max_right _ _)) (le_max_right _ _)
      omega
    · have hlt : s.state.playlist.length - 1 < s.state.playlist.length := by omega
      have hget : s.state.playlist[s.state.playlist.length - 1]?
          = some s.state.playlist[s.state.playlist.length - 1] := by
        simp [hlt]
      have hpos := h.dense _ _ hget
      have hmem : s.state.playlist[s.state.playlist.length - 1] ∈ s.state.playlist :=
        List.getElem_mem _
      have hid : s.state.playlist[s.state.playlist.length - 1].id
          ∈ s.db.tracks.map (fun r => r.id) :=
        (h.sameIds _).mpr (List.mem_map.mpr ⟨_, hmem, rfl⟩)
      obtain ⟨r, hr, hrid⟩ := List.mem_map.mp hid
      have hrp := h.agree r hr _ hmem hrid.symm
      have := le_maxPosition s.db.tracks r hr
      rw [hrp, hpos] at this
      omega

theorem legacySynced_insertTrack (s : Legacy) (videoId url : Json)
    (title badge addedBy : Option Json) (h : LegacySynced s) :
    LegacySynced (insertTrack s videoId url title badge addedBy) := by
  have hmax := maxPosition_of_synced s h
  have hfresh : ∀ r ∈ s.db.tracks, r.id ≠ max s.db.seq (maxRowId s.db.tracks) + 1 := by
    intro r hr
    have := le_maxRowId s.db.tracks r hr
    omega
  have hfreshMem : ∀ t ∈ s.state.playlist,
      t.id ≠ max s.db.seq (maxRowId s.db.tracks) + 1 := by
    intro t ht
    have hid : t.id ∈ s.db.tracks.map (fun r => r.id) :=
      (h.sameIds t.id).mpr (List.mem_map.mpr ⟨t, ht, rfl⟩)
    obtain ⟨r, hr, hrid⟩ := List.mem_map.mp hid
    rw [← hrid]
    exact hfresh r hr
  refine ⟨?_, ?_, ?_, ?_⟩
  · simp only [insertTrack, List.map_append, List.map_cons, List.map_nil]
    rw [List.nodup_append]
    refine ⟨h.nodup, by simp, ?_⟩
    intro a ha hb
    simp only [List.mem_singleton] at hb
    obtain ⟨t, ht, rfl⟩ := List.mem_map.mp ha
    exact hfreshMem t ht hb
  · intro x
    simp only [insertTrack, List.map_append, List.map_cons, List.map_nil, List.mem_append,
      List.mem_singleton]
    rw [h.sameIds x]
  · intro r hr t ht hid
    simp only [insertTrack, List.mem_append, List.mem_singleton] at hr ht
    rcases hr with hr | rfl
    · rcases ht with ht | rfl
      · exact h.agree r hr t ht hid
      · exact absurd hid.symm (hfresh r hr)
    · rcases ht with ht | rfl
      · exact absurd hid (hfreshMem t ht)
      · rfl
  · intro i t ht
    simp only [insertTrack] at ht
    by_cases hi : i < s.state.playlist.length
    · rw [List.getElem?_append_left hi] at ht
      exact h.dense i t ht
    · rw [List.getElem?_append_right (by omega)] at ht
      have hi0 : i - s.state.playlist.length = 0 := by
        by_contra hne
        rw [List.getElem?_eq_none (by simp; omega)] at ht
        exact absurd ht (by simp)
      rw [hi0] at ht
      simp only [List.getElem?_cons_zero, Option.some.injEq] at ht
      rw [← ht]
      simp only [hmax]
      omega

theorem perm_cons_eraseIdx (l : List JbTrack) (a : Nat) (x : JbTrack) (h : l[a]? = some x) :
    l.Perm (x :: l.eraseIdx a) := by
  induction l generalizing a with
  | nil => simp at h
  | cons b l ih =>
    cases a with
    | zero =>
      simp only [List.getElem?_cons_zero, Option.some.injEq] at h
      subst h
      simp
    | succ a =>
      simp only [List.getElem?_cons_succ] at h
      simp only [List.eraseIdx_cons_succ]
      exact (List.Perm.cons b (ih a h)).trans (List.Perm.swap x b _)

theorem legacySynced_removeAt (s : Legacy) (index : JsNum) (h : LegacySynced s) :
    LegacySynced (removeAt s index) := by
  unfold removeAt
  cases hat : playlistAt s.state.playlist index with
  | none => exact h
  | some item =>
    simp only
    have hget : s.state.playlist[index.start]? = some item := by
      cases index with
      | nan => simp [playlistAt] at hat
      | int i =>
        simp only [playlistAt] at hat
        split_ifs at hat
        simpa [JsNum.start] using hat
    have hperm := perm_cons_eraseIdx s.state.playlist index.start item hget
    have hpermIds := hperm.map (fun t => t.id)
    have hnd : (item.id :: (s.state.playlist.eraseIdx index.start).map (fun t => t.id)).Nodup :=
      (List.Perm.nodup_iff hpermIds).mp h.nodup
    simp only [List.map_cons, List.nodup_cons] at hnd
    have hsync : LegacySynced (reindexAndPersist
        { state := { s.state with playlist := spliceRemove s.state.playlist index.start },
          db := { s.db with tracks := deleteTrack s.db.tracks item.id } }) := by
      apply legacySynced_reindexAndPersist
      · simp only [spliceRemove_eq_eraseIdx]
        exact hnd.2
      · intro x
        simp only [spliceRemove_eq_eraseIdx, deleteTrack, List.mem_map, List.mem_filter]
        constructor
        · rintro ⟨r, ⟨hr, hne⟩, rfl⟩
          have hx : r.id ∈ s.state.playlist.map (fun t => t.id) :=
            (h.sameIds r.id).mp (List.mem_map.mpr ⟨r, hr, rfl⟩)
          have := (List.Perm.mem_iff hpermIds).mp hx
          simp only [List.map_cons, List.mem_cons] at this
          rcases this with heq | hmem
          · simp [heq] at hne
          · exact List.mem_map.mp hmem
        · rintro ⟨t, ht, rfl⟩
          have hmem : t.id ∈ (s.state.playlist.eraseIdx index.start).map (fun t => t.id) :=
            List.mem_map.mpr ⟨t, ht, rfl⟩
          have hx : t.id ∈ s.state.playlist.map (fun t => t.id) :=
            (List.Perm.mem_iff hpermIds).mpr (by simp [hmem])
          obtain ⟨r, hr, hrid⟩ := List.mem_map.mp ((h.sameIds t.id).mpr hx)
          refine ⟨r, ⟨hr, ?_⟩, hrid⟩
          have hne : t.id ≠ item.id := fun heq => hnd.1 (heq ▸ hmem)
          simpa [hrid] using hne
    apply legacySynced_congr _ _ _ _ hsync
    · simp only [saveState]
      split_ifs <;> rfl
    · simp only [saveState]
      split_ifs <;> rfl

theorem legacySynced_move (s : Legacy) (f t : JsNum) (h : LegacySynced s) :
    LegacySynced (move s f t) := by
  unfold move
  by_cases h0 : s.state.playlist.length = 0
  · rw [if_pos h0]
    exact h
  · rw [if_neg h0]
    dsimp only
    by_cases h1 : (f.clamp 0 ((s.state.playlist.length : Int) - 1)).strictEq
        (t.clamp 0 ((s.state.playlist.length : Int) - 1)) = true
    · rw [if_pos h1]
      exact h
    · rw [if_neg h1]
      cases hget : s.state.playlist.get?
          (f.clamp 0 ((s.state.playlist.length : Int) - 1)).start with
      | none => exact h
      | some it =>
        dsimp only
        have hget2 :
            s.state.playlist[(f.clamp 0 ((s.state.playlist.length : Int) - 1)).start]?
              = some it := by simpa using hget
        have hperm := perm_cons_eraseIdx s.state.playlist _ it hget2
        have hperm2 : (spliceInsert (spliceRemove s.state.playlist
              (f.clamp 0 ((s.state.playlist.length : Int) - 1)).start)
              (t.clamp 0 ((s.state.playlist.length : Int) - 1)).start it).Perm
            s.state.playlist := by
          unfold spliceInsert
          rw [spliceRemove_eq_eraseIdx]
          refine List.Perm.trans ?_ hperm.symm
          refine List.Perm.trans List.perm_middle ?_
          rw [List.take_append_drop]
        have hpermIds := hperm2.map (fun t => t.id)
        have hsync : LegacySynced (reindexAndPersist
            { s with state := { s.state with
                playlist := spliceInsert (spliceRemove s.state.playlist
                  (f.clamp 0 ((s.state.playlist.length : Int) - 1)).start)
                  (t.clamp 0 ((s.state.playlist.length : Int) - 1)).start it } }) := by
          apply legacySynced_reindexAndPersist
          · exact (List.Perm.nodup_iff hpermIds).mpr h.nodup
          · intro x
            rw [h.sameIds x]
            exact (List.Perm.mem_iff hpermIds).symm
        refine legacySynced_congr _ _ ?_ ?_ hsync <;> rfl

theorem legacySynced_runLegacyOps (s : Legacy) (ops : List LegacyOp) (h : LegacySynced s) :
    LegacySynced (runLegacyOps s ops) := by
  induction ops generalizing s with
  | nil => exact h
  | cons op ops ih =>
    apply ih
    cases op with
    | insertTrack videoId url title badge addedBy =>
      exact legacySynced_insertTrack s videoId url title badge addedBy h
    | removeAt index => exact legacySynced_removeAt s index h
    | move f t => exact legacySynced_move s f t h

theorem legacySynced_empty : LegacySynced legacyEmpty :=
  ⟨by simp [legacyEmpty], by simp [legacyEmpty], by simp [legacyEmpty],
    by simp [legacyEmpty]⟩

theorem positions_eq_range (l : List JbTrack)
    (h : ∀ (i : Nat) (t : JbTrack), l[i]? = some t → t.position = (i : Int)) :
    l.map (fun t => t.position) = (List.range l.length).map (fun (i : Nat) => (i : Int)) := by
  apply List.ext_getElem?
  intro i
  simp only [List.getElem?_map]
  by_cases hi : i < l.length
  · have hget : l[i]? = some l[i] := by simp [hi]
    rw [hget, List.getElem?_range hi]
    simp [h i l[i] hget]
  · rw [List.getElem?_eq_none (by omega), List.getElem?_eq_none (by simp; omega)]
    rfl

/-- C13: start from a legacy playlist whose positions are `0..len-1` and agree with the table
`jb_tracks` (the state after `loadAll()`), and run any sequence of `insertTrack`, `removeAt` and
`move` with any arguments.  In the state reached the `i`-th track of the in-memory playlist has
position `i`: the positions are exactly `0..len-1` in list order, without gap or duplicate. -/
theorem legacy_positions_are_indices (s : Legacy) (h : LegacySynced s) (ops : List LegacyOp) :
    (∀ (i : Nat) (t : JbTrack),
        (runLegacyOps s ops).state.playlist[i]? = some t → t.position = (i : Int)) ∧
      (runLegacyOps s ops).state.playlist.map (fun t => t.position)
        = (List.range (runLegacyOps s ops).state.playlist.length).map (fun (i : Nat) => (i : Int)) :=
  ⟨(legacySynced_runLegacyOps s ops h).dense,
    positions_eq_range _ (legacySynced_runLegacyOps s ops h).dense⟩

/-- C13, witness: on the empty legacy jukebox, adding `A`, `B`, `C`, moving index 0 to index 2
and removing index 1 leaves `[B, A]` with positions `[0, 1]`. -/
theorem legacy_positions_are_indices_witness :
    LegacySynced legacyEmpty ∧
      (runLegacyOps legacyEmpty legacySampleOps).state.playlist.map (fun t => t.id) = [2, 1] ∧
      (runLegacyOps legacyEmpty legacySampleOps).state.playlist.map (fun t => t.position)
        = [0, 1] ∧
      (runLegacyOps legacyEmpty legacySampleOps).state.playlist.map (fun t => t.position)
        = (List.range
            (runLegacyOps legacyEmpty legacySampleOps).state.playlist.length).map
            (fun (i : Nat) => (i : Int)) :=
  ⟨legacySynced_empty, by decide, by decide,
    (legacy_positions_are_indices legacyEmpty legacySynced_empty legacySampleOps).2⟩

/-! ## The jukebox: `add_track` -/

/-- C21: for every playlist state and every item whose `videoId` is truthy (a non-empty string
is), `add_track` appends a track with that `videoId` as the last element: the new length is
`len + 1`, the first `len` tracks are the old ones in their order, and `currentIndex`,
`isPlaying`, `volume` and `currentTime` are unchanged; an item whose `videoId` is missing or
the empty string changes nothing and emits nothing. -/
theorem addTrack_frame (st : JbState) (item : Json) :
    (∀ videoId, isObjectLike item = true → ownField item "videoId" = some videoId →
        truthy videoId = true →
        ∃ t : Track, t.videoId = videoId ∧
          (addTrack st item).state.playlist = st.playlist ++ [t] ∧
          (addTrack st item).state.playlist.length = st.playlist.length + 1 ∧
          (addTrack st item).state.playlist.take st.playlist.length = st.playlist ∧
          (addTrack st item).state.playlist.getLast? = some t ∧
          (addTrack st item).state.currentIndex = st.currentIndex ∧
          (addTrack st item).state.isPlaying = st.isPlaying ∧
          (addTrack st item).state.volume = st.volume ∧
          (addTrack st item).state.currentTime = st.currentTime) ∧
      (ownField item "videoId" = none ∨ ownField item "videoId" = some (.str "") →
        (addTrack st item).state = st ∧ (addTrack st item).effects = []) ∧
      (∀ s : String, s ≠ "" → truthy (.str s) = true) := by
  refine ⟨?_, ?_, ?_⟩
  · intro videoId hobj hfield htruthy
    unfold addTrack
    simp only [hobj, hfield, htruthy, Bool.not_true, Bool.false_eq_true, if_false]
    refine ⟨_, rfl, rfl, by simp, by simp, by simp, ?_, ?_, ?_, ?_⟩
    all_goals first
      | rfl
      | trivial
  · intro h
    unfold addTrack
    by_cases hobj : isObjectLike item = true
    · rcases h with h | h
      · simp [hobj, h]
      · simp [hobj, h, truthy]
    · simp [hobj]
  · intro s hs
    have hdata : s.data ≠ [] := by
      intro h
      apply hs
      cases s
      simp_all
    have hlen : s.data.length ≠ 0 := by
      intro h
      exact hdata (List.length_eq_zero.mp h)
    simp only [truthy, bne_iff_ne, ne_eq]
    exact hlen

/-- C21, witness: adding a track `E` to `[A, B, C, D]` gives five tracks whose first four are
the old ones; the cursor stays on `B`. -/
theorem addTrack_frame_witness :
    isObjectLike (.obj [("videoId", .str "E")]) = true ∧
      ownField (.obj [("videoId", .str "E")]) "videoId" = some (.str "E") ∧
      truthy (.str "E") = true ∧
      ∃ t : Track, t.videoId = .str "E" ∧
        (addTrack fourTracks (.obj [("videoId", .str "E")])).state.playlist
          = fourTracks.playlist ++ [t] ∧
        (addTrack fourTracks (.obj [("videoId", .str "E")])).state.playlist.length
          = fourTracks.playlist.length + 1 ∧
        (addTrack fourTracks (.obj [("videoId", .str "E")])).state.playlist.take
          fourTracks.playlist.length = fourTracks.playlist ∧
        (addTrack fourTracks (.obj [("videoId", .str "E")])).state.playlist.getLast? = some t ∧
        (addTrack fourTracks (.obj [("videoId", .str "E")])).state.currentIndex
          = fourTracks.currentIndex ∧
        (addTrack fourTracks (.obj [("videoId", .str "E")])).state.isPlaying
          = fourTracks.isPlaying ∧
        (addTrack fourTracks (.obj [("videoId", .str "E")])).state.volume = fourTracks.volume ∧
        (addTrack fourTracks (.obj [("videoId", .str "E")])).state.currentTime
          = fourTracks.currentTime :=
  ⟨rfl, rfl, rfl,
    (addTrack_frame fourTracks (.obj [("videoId", .str "E")])).1 (.str "E") rfl rfl rfl⟩

/-! ## A write the store refuses -/

theorem putCampaignOn_true (s : Server) (req : PutRequest) :
    putCampaignOn true s req = putCampaign s req := by
  unfold putCampaignOn putCampaign
  simp

theorem stateUpdateOn_true (s : Server) (v : Json) :
    stateUpdateOn true s v = stateUpdate s v := by
  unfold stateUpdateOn stateUpdate
  simp

theorem restoreCampaignOn_true (s : Server) (id : IdParam) :
    restoreCampaignOn true s id = restoreCampaign s id := by
  unfold restoreCampaignOn restoreCampaign
  cases id with
  | notFinite => rfl
  | fraction => rfl
  | int i =>
    simp only
    cases findSnapshot s.db i with
    | none => rfl
    | some row =>
      simp only
      cases jsonParse row.data with
      | error e => rfl
      | ok payload => simp

theorem handleCmdOn_true (st : JbState) (cmd : JbCmd) :
    handleCmdOn true st cmd = handleCmd st cmd := by
  simp [handleCmdOn]

/-- The trace of a handler is empty, or it has one call of `jbSave`, with the state the handler
leaves. -/
theorem savedState_handleCmd (st : JbState) (cmd : JbCmd) :
    ((handleCmd st cmd).effects = [] ∧ (handleCmd st cmd).state = st) ∨
      savedState (handleCmd st cmd).effects = some (handleCmd st cmd).state := by
  cases cmd with
  | addTrack item =>
    simp only [handleCmd]
    unfold addTrack
    split_ifs
    · exact Or.inl ⟨rfl, rfl⟩
    · split
      · exact Or.inl ⟨rfl, rfl⟩
      · split_ifs
        · exact Or.inl ⟨rfl, rfl⟩
        · exact Or.inr rfl
  | playIndex index seek =>
    simp only [handleCmd]
    unfold playIndex
    split_ifs
    · exact Or.inl ⟨rfl, rfl⟩
    · exact Or.inr rfl
  | skipNext =>
    simp only [handleCmd]
    unfold skipNext
    by_cases h : st.playlist.length = 0
    · rw [if_pos h]
      exact Or.inl ⟨rfl, rfl⟩
    · rw [if_neg h]
      exact Or.inr rfl
  | skipPrev =>
    simp only [handleCmd]
    unfold skipPrev
    by_cases h : st.playlist.length = 0
    · rw [if_pos h]
      exact Or.inl ⟨rfl, rfl⟩
    · rw [if_neg h]
      exact Or.inr rfl
  | pause => exact Or.inr rfl
  | resume => exact Or.inr rfl
  | setVolume volume => exact Or.inr rfl
  | seekTo seconds => exact Or.inr rfl
  | removeIndex index =>
    simp only [handleCmd]
    unfold removeIndex
    by_cases h : st.playlist.length = 0
    · rw [if_pos h]
      exact Or.inl ⟨rfl, rfl⟩
    · rw [if_neg h]
      simp only
      by_cases h1 : (spliceRemove st.playlist
          (clamp (index.getD (-1)) 0 ((st.playlist.length : Int) - 1)).toNat).length = 0
      · rw [if_pos h1]
        exact Or.inr rfl
      · rw [if_neg h1]
        by_cases h2 : (clamp (index.getD (-1)) 0 ((st.playlist.length : Int) - 1)
            == st.currentIndex) = true
        · rw [if_pos h2]
          exact Or.inr rfl
        · rw [if_neg h2]
          exact Or.inr rfl
  | reorder f t =>
    simp only [handleCmd]
    unfold reorder
    by_cases h : st.playlist.length = 0
    · rw [if_pos h]
      exact Or.inl ⟨rfl, rfl⟩
    · rw [if_neg h]
      simp only
      by_cases h1 : clamp (f.getD (-1)) 0 ((st.playlist.length : Int) - 1)
          = clamp (t.getD (-1)) 0 ((st.playlist.length : Int) - 1)
      · rw [if_pos h1]
        exact Or.inl ⟨rfl, rfl⟩
      · rw [if_neg h1]
        exact Or.inr rfl

/-- The events a handler emits before its call of `jbSave`: none, except the `toast` and the
`play_index` of `remove_index`. -/
theorem effectsBeforeSave_handleCmd (st : JbState) (cmd : JbCmd) :
    ∀ e ∈ effectsBeforeSave (handleCmd st cmd).effects, e.emitsState = false := by
  cases cmd with
  | addTrack item =>
    simp only [handleCmd]
    unfold addTrack
    split_ifs
    · simp [effectsBeforeSave]
    · split
      · simp [effectsBeforeSave]
      · split_ifs <;> simp [effectsBeforeSave]
  | playIndex index seek =>
    simp only [handleCmd]
    unfold playIndex
    split_ifs <;> simp [effectsBeforeSave]
  | skipNext =>
    simp only [handleCmd]
    unfold skipNext
    by_cases h : st.playlist.length = 0
    · rw [if_pos h]
      simp [effectsBeforeSave]
    · rw [if_neg h]
      simp [effectsBeforeSave]
  | skipPrev =>
    simp only [handleCmd]
    unfold skipPrev
    by_cases h : st.playlist.length = 0
    · rw [if_pos h]
      simp [effectsBeforeSave]
    · rw [if_neg h]
      simp [effectsBeforeSave]
  | pause => simp [handleCmd, pause, effectsBeforeSave]
  | resume => simp [handleCmd, resume, effectsBeforeSave]
  | setVolume volume => simp [handleCmd, setVolume, effectsBeforeSave]
  | seekTo seconds => simp [handleCmd, seekTo, effectsBeforeSave]
  | removeIndex index =>
    simp only [handleCmd]
    unfold removeIndex
    by_cases h : st.playlist.length = 0
    · rw [if_pos h]
      simp [effectsBeforeSave]
    · rw [if_neg h]
      simp only
      by_cases h1 : (spliceRemove st.playlist
          (clamp (index.getD (-1)) 0 ((st.playlist.length : Int) - 1)).toNat).length = 0
      · rw [if_pos h1]
        simp [effectsBeforeSave, JbEffect.emitsState, JbEvent.isState]
      · rw [if_neg h1]
        by_cases h2 : (clamp (index.getD (-1)) 0 ((st.playlist.length : Int) - 1)
            == st.currentIndex) = true
        · rw [if_pos h2]
          simp [effectsBeforeSave, JbEffect.emitsState, JbEvent.isState]
        · rw [if_neg h2]
          simp [effectsBeforeSave]
  | reorder f t =>
    simp only [handleCmd]
    unfold reorder
    by_cases h : st.playlist.length = 0
    · rw [if_pos h]
      simp [effectsBeforeSave]
    · rw [if_neg h]
      simp only
      by_cases h1 : clamp (f.getD (-1)) 0 ((st.playlist.length : Int) - 1)
          = clamp (t.getD (-1)) 0 ((st.playlist.length : Int) - 1)
      · rw [if_pos h1]
        simp [effectsBeforeSave]
      · rw [if_neg h1]
        simp [effectsBeforeSave]

theorem applyEffects_effectsBeforeSave (db : JbDb) (l : List JbEffect) :
    applyEffects db (effectsBeforeSave l) = db := by
  induction l with
  | nil => rfl
  | cons e l ih =>
    cases e with
    | save st => rfl
    | emit audience event => simpa [effectsBeforeSave, applyEffects] using ih

theorem savedState_effectsBeforeSave (l : List JbEffect) :
    savedState (effectsBeforeSave l) = none := by
  induction l with
  | nil => rfl
  | cons e l ih =>
    cases e with
    | save st => rfl
    | emit audience event => simpa [effectsBeforeSave, savedState] using ih

/-- What a command leaves when the store refuses the write: the state the command leaves on a
successful write, the tables as they were, and no event `state`. -/
theorem handleCmdOn_false (st : JbState) (cmd : JbCmd) :
    (handleCmdOn false st cmd).state = (handleCmd st cmd).state ∧
      (∀ db, applyEffects db (handleCmdOn false st cmd).effects = db) ∧
      (∀ e ∈ (handleCmdOn false st cmd).effects, e.emitsState = false) := by
  rcases savedState_handleCmd st cmd with ⟨he, hs⟩ | hsaved
  · have h : handleCmdOn false st cmd = handleCmd st cmd := by
      simp [handleCmdOn, he, savedState]
    rw [h, he]
    exact ⟨rfl, fun db => rfl, by simp⟩
  · have h : handleCmdOn false st cmd
        = ⟨(handleCmd st cmd).state, effectsBeforeSave (handleCmd st cmd).effects⟩ := by
      simp [handleCmdOn, hsaved]
    rw [h]
    exact ⟨rfl, fun db => applyEffects_effectsBeforeSave db _,
      effectsBeforeSave_handleCmd st cmd⟩

/-- C22, counterexample: with a store that refuses the write, `add_track` on the default
playlist leaves a playlist of one track in memory, and `state:update` leaves the new document
in memory; in both cases the tables are as before. -/
theorem failed_write_keeps_mutation :
    (handleCmdOn false defaultJBState
        (.addTrack (.obj [("videoId", .str "A")]))).state.playlist.length = 1 ∧
      defaultJBState.playlist.length = 0 ∧
      (handleCmdOn false defaultJBState (.addTrack (.obj [("videoId", .str "A")]))).state
        ≠ defaultJBState ∧
      (handleCmdOn false defaultJBState (.addTrack (.obj [("videoId", .str "A")]))).effects = [] ∧
      (stateUpdateOn false freshServer noteDoc).server.state = noteDoc ∧
      (stateUpdateOn false freshServer noteDoc).server.db = freshServer.db ∧
      freshServer.state = .obj [] :=
  ⟨rfl, rfl, fun h => absurd (congrArg (fun x => x.playlist.length) h) (by decide), rfl, rfl,
    rfl, rfl⟩

/-- C22, amended: when the store refuses the write, `PUT /api/campaign` and restore leave the
document, the version and the tables as they were, emit nothing, and answer 500 where the
request would have been accepted; `state:update` and every playlist command have assigned the
in-memory state before the write, so it is the state the operation leaves on a successful
write, while the tables are as they were and no `state:broadcast` or `state` event is
emitted. -/
theorem failed_write_effect (s : Server) (st : JbState) :
    (∀ req, (putCampaignOn false s req).server = s ∧ (putCampaignOn false s req).emits = [] ∧
        ((putCampaign s req).status = some 200 →
          (putCampaignOn false s req).status = some 500)) ∧
      (∀ id, (restoreCampaignOn false s id).server = s ∧
        (restoreCampaignOn false s id).emits = [] ∧
        ((restoreCampaign s id).status = some 200 →
          (restoreCampaignOn false s id).status = some 500)) ∧
      (∀ v, (stateUpdateOn false s v).server.state = (stateUpdate s v).server.state ∧
        (stateUpdateOn false s v).server.db = s.db ∧
        (stateUpdateOn false s v).server.currentETag = s.currentETag ∧
        (stateUpdateOn false s v).emits = []) ∧
      (∀ cmd, (handleCmdOn false st cmd).state = (handleCmd st cmd).state ∧
        (∀ db, applyEffects db (handleCmdOn false st cmd).effects = db) ∧
        (∀ e ∈ (handleCmdOn false st cmd).effects, e.emitsState = false)) := by
  refine ⟨?_, ?_, ?_, ?_⟩
  · intro req
    unfold putCampaignOn putCampaign Outcome.status
    split_ifs <;> simp_all
  · intro id
    unfold restoreCampaignOn restoreCampaign Outcome.status
    cases id with
    | notFinite => simp
    | fraction => simp
    | int i =>
      simp only
      cases findSnapshot s.db i with
      | none => simp
      | some row =>
        simp only
        cases jsonParse row.data with
        | error e => simp
        | ok payload => simp
  · intro v
    unfold stateUpdateOn stateUpdate
    split_ifs <;> simp_all
  · intro cmd
    exact handleCmdOn_false st cmd

/-- C22, witness: on the fresh server a `PUT` of a small document that the store refuses is
answered 500 and leaves the server as it was; `add_track` keeps its track in memory. -/
theorem failed_write_effect_witness :
    (putCampaign freshServer ⟨noteDoc, none, none, none⟩).status = some 200 ∧
      (putCampaignOn false freshServer ⟨noteDoc, none, none, none⟩).status = some 500 ∧
      (putCampaignOn false freshServer ⟨noteDoc, none, none, none⟩).server = freshServer ∧
      (handleCmdOn false defaultJBState (.addTrack (.obj [("videoId", .str "A")]))).state
        = oneTrack :=
  ⟨rfl,
    ((failed_write_effect freshServer defaultJBState).1 ⟨noteDoc, none, none, none⟩).2.2 rfl,
    ((failed_write_effect freshServer defaultJBState).1 ⟨noteDoc, none, none, none⟩).1,
    ((failed_write_effect freshServer defaultJBState).2.2.2
      (.addTrack (.obj [("videoId", .str "A")]))).1⟩

/-! ## The order of persistence and events -/

/-- Every handler but `remove_index` emits nothing before its call of `jbSave`. -/
theorem save_first_unless_removeIndex (st : JbState) (cmd : JbCmd)
    (h : ∀ index, cmd ≠ .removeIndex index) :
    effectsBeforeSave (handleCmd st cmd).effects = [] := by
  cases cmd with
  | addTrack item =>
    simp only [handleCmd]
    unfold addTrack
    split_ifs
    · rfl
    · split
      · rfl
      · split_ifs <;> rfl
  | playIndex index seek =>
    simp only [handleCmd]
    unfold playIndex
    split_ifs <;> rfl
  | skipNext =>
    simp only [handleCmd]
    unfold skipNext
    by_cases h : st.playlist.length = 0
    · rw [if_pos h]
      rfl
    · rw [if_neg h]
      rfl
  | skipPrev =>
    simp only [handleCmd]
    unfold skipPrev
    by_cases h : st.playlist.length = 0
    · rw [if_pos h]
      rfl
    · rw [if_neg h]
      rfl
  | pause => rfl
  | resume => rfl
  | setVolume volume => rfl
  | seekTo seconds => rfl
  | removeIndex index => exact absurd rfl (h index)
  | reorder f t =>
    simp only [handleCmd]
    unfold reorder
    by_cases h : st.playlist.length = 0
    · rw [if_pos h]
      rfl
    · rw [if_neg h]
      simp only
      by_cases h1 : clamp (f.getD (-1)) 0 ((st.playlist.length : Int) - 1)
          = clamp (t.getD (-1)) 0 ((st.playlist.length : Int) - 1)
      · rw [if_pos h1]
        rfl
      · rw [if_neg h1]
        rfl

/-- C23, the code at the failing input: `remove_index` emits before it persists.  Removing the
current track `B` of `[A, B, C, D]` emits `play_index` with index 1 and then calls `jbSave`;
removing the only track of a playlist emits the toast and then calls `jbSave`.  The handler of
`play_index` on the same playlist calls `jbSave` first. -/
theorem removeIndex_emits_before_save :
    (removeIndex fourTracks (some 1)).effects
        = [.emit .all (.playIndex 1 0), .save (removeIndex fourTracks (some 1)).state,
           .emit .all (.state (removeIndex fourTracks (some 1)).state)] ∧
      (removeIndex oneTrack (some 0)).effects
        = [.emit .all (.toast "Playlist vazia."), .save defaultJBState,
           .emit .all (.state defaultJBState)] ∧
      effectsBeforeSave (removeIndex fourTracks (some 1)).effects
        = [.emit .all (.playIndex 1 0)] ∧
      effectsBeforeSave (playIndex fourTracks (some 1) (some 0)).effects = [] :=
  ⟨rfl, rfl, rfl, rfl⟩

/-- C24: on a non-empty playlist each of `play_index`, `skip_next` and `skip_prev` has the
trace `jbSave`, one `play_index` event to all with the new `currentIndex` and `currentTime`,
then the `state` event with the new state. -/
theorem jump_before_full_state (st : JbState) (hne : st.playlist.length ≠ 0)
    (index seek : Option Int) :
    (playIndex st index seek).effects
        = [.save (playIndex st index seek).state,
           .emit .all (.playIndex (playIndex st index seek).state.currentIndex
             (playIndex st index seek).state.currentTime),
           .emit .all (.state (playIndex st index seek).state)] ∧
      (skipNext st).effects
        = [.save (skipNext st).state,
           .emit .all (.playIndex (skipNext st).state.currentIndex
             (skipNext st).state.currentTime),
           .emit .all (.state (skipNext st).state)] ∧
      (skipPrev st).effects
        = [.save (skipPrev st).state,
           .emit .all (.playIndex (skipPrev st).state.currentIndex
             (skipPrev st).state.currentTime),
           .emit .all (.state (skipPrev st).state)] := by
  refine ⟨?_, ?_, ?_⟩
  · unfold playIndex
    rw [if_neg hne]
  · unfold skipNext
    rw [if_neg hne]
  · unfold skipPrev
    rw [if_neg hne]

/-- C24, witness: `skip_next` on `[A, B, C, D]` with the cursor on `B` saves, emits
`play_index` with index 2 and seek 0, then the state. -/
theorem jump_before_full_state_witness :
    fourTracks.playlist.length ≠ 0 ∧
      (skipNext fourTracks).effects
        = [.save (skipNext fourTracks).state, .emit .all (.playIndex 2 0),
           .emit .all (.state (skipNext fourTracks).state)] :=
  ⟨by decide, (jump_before_full_state fourTracks (by decide) none none).2.1⟩

/-- C25, counterexample: `set_volume` and `seek_to` on `[A, B, C, D]` change the state and
emit no `state` event. -/
theorem setVolume_seekTo_emit_no_state :
    (handleCmd fourTracks (.setVolume (some 30))).state.volume = 30 ∧
      fourTracks.volume = 70 ∧
      (handleCmd fourTracks (.setVolume (some 30))).effects.any JbEffect.emitsState = false ∧
      (handleCmd fourTracks (.seekTo (some 40))).state.currentTime = 40 ∧
      fourTracks.currentTime = 12 ∧
      (handleCmd fourTracks (.seekTo (some 40))).effects.any JbEffect.emitsState = false :=
  ⟨rfl, rfl, rfl, rfl, rfl, rfl⟩

/-- C25, amended: a command other than `set_volume` and `seek_to` that is accepted (its
handler does not return at a guard) ends by emitting to all the event `state` with the state
it leaves; `set_volume` saves and emits only `volume` to all, `seek_to` saves and emits only
`seek` to the other sockets. -/
theorem state_broadcast_after_mutation (st : JbState) (cmd : JbCmd) :
    ((∀ v, cmd ≠ .setVolume v) → (∀ t, cmd ≠ .seekTo t) → (handleCmd st cmd).effects ≠ [] →
        (handleCmd st cmd).effects.getLast?
          = some (.emit .all (.state (handleCmd st cmd).state))) ∧
      (∀ v, (handleCmd st (.setVolume v)).effects
        = [.save (handleCmd st (.setVolume v)).state,
           .emit .all (.volume (handleCmd st (.setVolume v)).state.volume)]) ∧
      (∀ t, (handleCmd st (.seekTo t)).effects
        = [.save (handleCmd st (.seekTo t)).state,
           .emit .others (.seek (handleCmd st (.seekTo t)).state.currentTime)]) := by
  refine ⟨?_, fun v => rfl, fun t => rfl⟩
  intro hv hs hne
  cases cmd with
  | addTrack item =>
    simp only [handleCmd] at hne ⊢
    unfold addTrack at hne ⊢
    by_cases hobj : (!isObjectLike item) = true
    · rw [if_pos hobj] at hne
      exact absurd rfl hne
    · rw [if_neg hobj] at hne ⊢
      cases hf : ownField item "videoId" with
      | none =>
        rw [hf] at hne
        exact absurd rfl hne
      | some videoId =>
        rw [hf] at hne
        simp only at hne ⊢
        by_cases ht : (!truthy videoId) = true
        · rw [if_pos ht] at hne
          exact absurd rfl hne
        · rw [if_neg ht]
          rfl
  | playIndex index seek =>
    simp only [handleCmd] at hne ⊢
    unfold playIndex at hne ⊢
    split_ifs at hne ⊢
    · exact absurd rfl hne
    · rfl
  | skipNext =>
    simp only [handleCmd] at hne ⊢
    by_cases h : st.playlist.length = 0
    · exact absurd (congrArg JbOutcome.effects (skipNext_empty st h)) hne
    · unfold skipNext
      rw [if_neg h]
      rfl
  | skipPrev =>
    simp only [handleCmd] at hne ⊢
    by_cases h : st.playlist.length = 0
    · exact absurd (congrArg JbOutcome.effects (skipPrev_empty st h)) hne
    · unfold skipPrev
      rw [if_neg h]
      rfl
  | pause => rfl
  | resume => rfl
  | setVolume volume => exact absurd rfl (hv volume)
  | seekTo seconds => exact absurd rfl (hs seconds)
  | removeIndex index =>
    simp only [handleCmd] at hne ⊢
    by_cases h : st.playlist.length = 0
    · exact absurd (congrArg JbOutcome.effects (removeIndex_empty st index h)) hne
    · unfold removeIndex
      rw [if_neg h]
      simp only
      by_cases h1 : (spliceRemove st.playlist
          (clamp (index.getD (-1)) 0 ((st.playlist.length : Int) - 1)).toNat).length = 0
      · rw [if_pos h1]
        rfl
      · rw [if_neg h1]
        by_cases h2 : (clamp (index.getD (-1)) 0 ((st.playlist.length : Int) - 1)
            == st.currentIndex) = true
        · rw [if_pos h2]
          rfl
        · rw [if_neg h2]
          rfl
  | reorder f t =>
    simp only [handleCmd] at hne ⊢
    unfold reorder at hne ⊢
    by_cases h : st.playlist.length = 0
    · rw [if_pos h] at hne
      exact absurd rfl hne
    · rw [if_neg h] at hne ⊢
      simp only at hne ⊢
      by_cases h1 : clamp (f.getD (-1)) 0 ((st.playlist.length : Int) - 1)
          = clamp (t.getD (-1)) 0 ((st.playlist.length : Int) - 1)
      · rw [if_pos h1] at hne
        exact absurd rfl hne
      · rw [if_neg h1]
        rfl

/-- C25, witness: `pause` on `[A, B, C, D]` ends with the `state` event; `set_volume` has the
trace of a save and a `volume` event. -/
theorem state_broadcast_after_mutation_witness :
    (handleCmd fourTracks .pause).effects ≠ [] ∧
      (handleCmd fourTracks .pause).effects.getLast?
        = some (.emit .all (.state (handleCmd fourTracks .pause).state)) ∧
      (handleCmd fourTracks (.setVolume (some 30))).effects
        = [.save (handleCmd fourTracks (.setVolume (some 30))).state, .emit .all (.volume 30)] :=
  ⟨List.cons_ne_nil _ _,
    (state_broadcast_after_mutation fourTracks .pause).1 (fun _ h => JbCmd.noConfusion h)
      (fun _ h => JbCmd.noConfusion h) (List.cons_ne_nil _ _),
    (state_broadcast_after_mutation fourTracks (.setVolume (some 30))).2.1 (some 30)⟩

/-! ## The legacy variants next to `server.js` -/

theorem map_toTrack_reindexFrom (l : List JbTrack) (k : Nat) :
    (reindexFrom k l).map JbTrack.toTrack = l.map JbTrack.toTrack := by
  induction l generalizing k with
  | nil => rfl
  | cons t ts ih => simp [reindexFrom, ih, JbTrack.toTrack]

theorem map_eraseIdx {α β : Type} (f : α → β) (l : List α) (i : Nat) :
    (l.eraseIdx i).map f = (l.map f).eraseIdx i := by
  induction l generalizing i with
  | nil => rfl
  | cons a l ih =>
    cases i with
    | zero => rfl
    | succ i => simp [List.eraseIdx_cons_succ, ih]

theorem length_reindexFrom (l : List JbTrack) (k : Nat) :
    (reindexFrom k l).length = l.length := by
  induction l generalizing k with
  | nil => rfl
  | cons t ts ih => simp [reindexFrom, ih]

/-- The in-memory state `removeAt` leaves for an index inside the playlist. -/
theorem removeAt_state (s : Legacy) (i : Int) (h0 : 0 ≤ i)
    (hlt : i < (s.state.playlist.length : Int)) :
    (removeAt s (.int i)).state =
      { s.state with
        playlist := reindexFrom 0 (s.state.playlist.eraseIdx i.toNat),
        currentIndex :=
          if JsNum.le (.int ((s.state.playlist.length : Int) - 1)) s.state.currentIndex then
            .int ((s.state.playlist.length : Int) - 2)
          else s.state.currentIndex } := by
  have hi : i.toNat < s.state.playlist.length := by omega
  have hat : playlistAt s.state.playlist (.int i) = some s.state.playlist[i.toNat] := by
    have hneg : ¬ i < 0 := by omega
    simp [playlistAt, hneg, hi]
  have hlen : ((s.state.playlist.eraseIdx i.toNat).length : Int)
      = (s.state.playlist.length : Int) - 1 := by
    rw [List.length_eraseIdx_of_lt hi]
    omega
  unfold removeAt
  rw [hat]
  simp only [reindexAndPersist, JsNum.start, spliceRemove_eq_eraseIdx, length_reindexFrom, hlen,
    saveState]
  have h2 : (s.state.playlist.length : Int) - 1 - 1 = (s.state.playlist.length : Int) - 2 := by
    omega
  rw [h2]
  split_ifs <;> rfl

/-- C26, counterexample: on `[A, B, C, D]` with the cursor on `C` (index 2), removing index 0
leaves `[B, C, D]` in both variants; `server.js` moves the cursor to 1 (still `C`), the legacy
`removeAt` leaves it at 2 (now `D`). -/
theorem removeAt_cursor_differs :
    legacyFour.state.playlist.map JbTrack.toTrack = fourTracksOnC.playlist ∧
      legacyFour.state.currentIndex = .int fourTracksOnC.currentIndex ∧
      (removeAt legacyFour (.int 0)).state.playlist.map JbTrack.toTrack
        = [trackB, trackC, trackD] ∧
      (removeIndex fourTracksOnC (some 0)).state.playlist = [trackB, trackC, trackD] ∧
      (removeIndex fourTracksOnC (some 0)).state.currentIndex = 1 ∧
      (removeAt legacyFour (.int 0)).state.currentIndex = .int 2 :=
  ⟨rfl, rfl, rfl, rfl, rfl, rfl⟩

/-- C26, amended: let a legacy state and a state of `server.js` hold the same tracks in the
same order and the same cursor, the cursor being `-1` or an index, and let `0 ≤ i < len`.  Then
`removeAt(i)` and `remove_index(i)` leave the same tracks in the same order.  They leave the
same `currentIndex` unless `i < currentIndex < len - 1`; in that case `server.js` decrements
the cursor, which stays on its track, and the legacy variant leaves the number as it is, which
moves the cursor to the following track.  The legacy variant leaves `isPlaying`, `volume` and
`currentTime` as they were. -/
theorem removeAt_vs_removeIndex (s : Legacy) (st : JbState) (i : Int)
    (hpl : s.state.playlist.map JbTrack.toTrack = st.playlist)
    (hcur : s.state.currentIndex = .int st.currentIndex)
    (hvalid : -1 ≤ st.currentIndex ∧ st.currentIndex < (st.playlist.length : Int))
    (h0 : 0 ≤ i) (hlt : i < (st.playlist.length : Int)) :
    (removeAt s (.int i)).state.playlist.map JbTrack.toTrack
        = (removeIndex st (some i)).state.playlist ∧
      (i < st.currentIndex ∧ st.currentIndex < (st.playlist.length : Int) - 1 →
        (removeAt s (.int i)).state.currentIndex = .int st.currentIndex ∧
        (removeIndex st (some i)).state.currentIndex = st.currentIndex - 1) ∧
      (¬ (i < st.currentIndex ∧ st.currentIndex < (st.playlist.length : Int) - 1) →
        (removeAt s (.int i)).state.currentIndex
          = .int (removeIndex st (some i)).state.currentIndex) ∧
      (removeAt s (.int i)).state.isPlaying = s.state.isPlaying ∧
      (removeAt s (.int i)).state.volume = s.state.volume ∧
      (removeAt s (.int i)).state.currentTime = s.state.currentTime := by
  have hlen : s.state.playlist.length = st.playlist.length := by
    rw [← hpl, List.length_map]
  have hL := removeAt_state s i h0 (by omega)
  have hS := removeIndex_state st i h0 hlt
  rw [hL, hS, hcur, hlen]
  have hmap : (reindexFrom 0 (s.state.playlist.eraseIdx i.toNat)).map JbTrack.toTrack
      = st.playlist.eraseIdx i.toNat := by
    rw [map_toTrack_reindexFrom, ← hpl, map_eraseIdx]
  have hleg : ∀ c : Int, JsNum.le (.int ((st.playlist.length : Int) - 1)) (.int c)
      = decide ((st.playlist.length : Int) - 1 ≤ c) := fun c => rfl
  refine ⟨?_, ?_, ?_, rfl, rfl, rfl⟩
  · simp only [hmap]
    split_ifs <;> rfl
  · rintro ⟨h1, h2⟩
    have hle : ¬ ((st.playlist.length : Int) - 1 ≤ st.currentIndex) := by omega
    have hne1 : ¬ st.playlist.length = 1 := by omega
    have hne2 : ¬ i = st.currentIndex := by omega
    rw [hleg, decide_eq_false hle, if_neg hne1, if_neg hne2, if_pos h1]
    exact ⟨rfl, rfl⟩
  · intro hn
    by_cases hone : st.playlist.length = 1
    · rw [if_pos hone, hleg]
      by_cases hle : (st.playlist.length : Int) - 1 ≤ st.currentIndex
      · rw [decide_eq_true hle]
        show JsNum.int _ = JsNum.int _
        congr 1
        dsimp only
        omega
      · rw [decide_eq_false hle]
        show JsNum.int _ = JsNum.int _
        congr 1
        dsimp only
        omega
    · rw [if_neg hone, hleg]
      by_cases hic : i = st.currentIndex
      · rw [if_pos hic]
        by_cases hle : (st.playlist.length : Int) - 1 ≤ st.currentIndex
        · rw [decide_eq_true hle]
          show JsNum.int _ = JsNum.int _
          congr 1
          dsimp only
          omega
        · rw [decide_eq_false hle]
          show JsNum.int _ = JsNum.int _
          congr 1
          dsimp only
          omega
      · rw [if_neg hic]
        by_cases hle : (st.playlist.length : Int) - 1 ≤ st.currentIndex
        · rw [decide_eq_true hle]
          have hlt2 : i < st.currentIndex := by omega
          show JsNum.int _ = JsNum.int _
          congr 1
          show _ = if i < st.currentIndex then st.currentIndex - 1 else st.currentIndex
          rw [if_pos hlt2]
          omega
        · rw [decide_eq_false hle]
          have hlt2 : ¬ i < st.currentIndex := by omega
          show JsNum.int _ = JsNum.int _
          congr 1
          show _ = if i < st.currentIndex then st.currentIndex - 1 else st.currentIndex
          rw [if_neg hlt2]

/-- C26, witness: on `[A, B, C, D]` with the cursor on `C`, removing index 3 leaves `[A, B, C]`
and the cursor 2 in both variants. -/
theorem removeAt_vs_removeIndex_witness :
    legacyFour.state.playlist.map JbTrack.toTrack = fourTracksOnC.playlist ∧
      legacyFour.state.currentIndex = .int fourTracksOnC.currentIndex ∧
      (removeAt legacyFour (.int 3)).state.playlist.map JbTrack.toTrack
        = (removeIndex fourTracksOnC (some 3)).state.playlist ∧
      (removeAt legacyFour (.int 3)).state.currentIndex
        = .int (removeIndex fourTracksOnC (some 3)).state.currentIndex :=
  ⟨rfl, rfl,
    (removeAt_vs_removeIndex legacyFour fourTracksOnC 3 rfl rfl (by decide) (by decide)
      (by decide)).1,
    (removeAt_vs_removeIndex legacyFour fourTracksOnC 3 rfl rfl (by decide) (by decide)
      (by decide)).2.2.1 (by decide)⟩

/-- The legacy handler of `set_volume` for a number other than 0: the volume is
`clamp(v, 0, 100)`. -/
theorem legacySetVolume_of_ne_zero (s : Legacy) (v : Int) (h : v ≠ 0) :
    (legacySetVolume s (.int v)).state.volume = clamp v 0 100 := by
  simp [legacySetVolume, saveState, JsNum.orDefault, h]

/-- C27, the code at the failing input: in the legacy variants `set_volume(0)` sets the volume
to 70, not to `clamp(0, 0, 100) = 0`: `Number(volume) || 70` takes 0 for a missing number.  The
handler of `server.js` sets it to 0. -/
theorem legacySetVolume_zero_gives_70 :
    (legacySetVolume legacyFour (.int 0)).state.volume = 70 ∧
      (legacySetVolume legacyFour (.int 0)).db.stateRow.volume = 70 ∧
      clamp 0 0 100 = 0 ∧
      (setVolume fourTracks (some 0)).state.volume = 0 :=
  ⟨rfl, rfl, rfl, rfl⟩

/-! ## The client handler of `state` -/

theorem idDiffers_eq_false (curId : Option String) (want : Json) :
    idDiffers curId want = false ↔ ∃ s, curId = some s ∧ want = .str s := by
  cases curId with
  | none => simp [idDiffers]
  | some a =>
    cases want
    case str b =>
      simp only [idDiffers, bne_eq_false_iff_eq, Option.some.injEq, Json.str.injEq,
        exists_eq_left']
      exact eq_comm
    all_goals simp [idDiffers]

/-- C28: in the handler of `state`, with the player ready and the cursor on a track of the
playlist, the media is reloaded if and only if the loaded video id differs from the `videoId`
of that track (they are equal when `videoId` is the same string); when they are equal there is
no reload, and `seekTo` is called, with the desired time, if and only if
`|localTime - desiredTime| > 1.5`. -/
theorem onState_reload_or_resync (p : Player) (st : JbState) (item : Track)
    (hready : p.ready = true) (hidx : 0 ≤ st.currentIndex)
    (hitem : st.playlist.get? st.currentIndex.toNat = some item) :
    ((onState p st).any PlayerCall.isLoad = true ↔ idDiffers p.videoId item.videoId = true) ∧
      (idDiffers p.videoId item.videoId = false ↔
        ∃ s, p.videoId = some s ∧ item.videoId = .str s) ∧
      (idDiffers p.videoId item.videoId = false →
        (onState p st).any PlayerCall.isLoad = false ∧
        ((onState p st).any PlayerCall.isSeek = true ↔
          |max 0 p.time - max 0 (st.currentTime : ℚ)| > 3 / 2) ∧
        (∀ t, PlayerCall.seekTo t ∈ onState p st → t = max 0 (st.currentTime : ℚ))) := by
  have hneg : ¬ st.currentIndex < 0 := by omega
  have hon : onState p st =
      (if idDiffers p.videoId item.videoId then
          loadAndPlay p st st.currentIndex (max 0 (st.currentTime : ℚ))
        else if |max 0 p.time - max 0 (st.currentTime : ℚ)| > 3 / 2 then
          [.seekTo (max 0 (st.currentTime : ℚ))]
        else []) ++ [if st.isPlaying then .playVideo else .pauseVideo, .setVolume st.volume] := by
    unfold onState
    simp only [hready, hneg, hitem, Bool.not_true, decide_False, Bool.or_self,
      Bool.false_eq_true, if_false]
  have hload : ∀ seek, loadAndPlay p st st.currentIndex seek =
      [if seek > 0 then .loadVideoById item.videoId (some seek)
       else .loadVideoById item.videoId none, .setVolume st.volume] := by
    intro seek
    unfold loadAndPlay
    simp only [hready, hneg, hitem, Bool.not_true, Bool.false_eq_true, if_false]
  have htail : ∀ b : Bool, PlayerCall.isLoad (if b then .playVideo else .pauseVideo) = false ∧
      PlayerCall.isSeek (if b then .playVideo else .pauseVideo) = false := by
    intro b
    cases b <;> exact ⟨rfl, rfl⟩
  refine ⟨?_, idDiffers_eq_false _ _, ?_⟩
  · rw [hon]
    cases hd : idDiffers p.videoId item.videoId with
    | true =>
      simp only [if_true, hload]
      refine ⟨fun _ => trivial, fun _ => ?_⟩
      by_cases hs : max 0 (st.currentTime : ℚ) > 0
      · simp [hs, PlayerCall.isLoad]
      · simp [hs, PlayerCall.isLoad]
    | false =>
      simp only [Bool.false_eq_true, if_false]
      refine ⟨fun h => ?_, fun h => nomatch h⟩
      exfalso
      by_cases hdelta : |max 0 p.time - max 0 (st.currentTime : ℚ)| > 3 / 2
      · cases hp : st.isPlaying <;> simp [hdelta, hp, PlayerCall.isLoad] at h
      · cases hp : st.isPlaying <;> simp [hdelta, hp, PlayerCall.isLoad] at h
  · intro hd
    rw [hon, hd]
    simp only [Bool.false_eq_true, if_false]
    by_cases hdelta : |max 0 p.time - max 0 (st.currentTime : ℚ)| > 3 / 2
    · rw [if_pos hdelta]
      refine ⟨?_, ?_, ?_⟩
      · cases hp : st.isPlaying <;> simp [PlayerCall.isLoad]
      · cases hp : st.isPlaying <;> simp [PlayerCall.isSeek, hdelta]
      · intro t ht
        cases hp : st.isPlaying <;> simp [hp] at ht <;> exact ht
    · rw [if_neg hdelta]
      refine ⟨?_, ?_, ?_⟩
      · cases hp : st.isPlaying <;> simp [PlayerCall.isLoad]
      · cases hp : st.isPlaying <;> simp [PlayerCall.isSeek, hdelta]
      · intro t ht
        cases hp : st.isPlaying <;> simp [hp] at ht

/-- C28, witness: the state `[A, B, C, D]` with the cursor on `B` at second 12 reaches a player
that has `B` loaded at second 12: no reload. -/
theorem onState_reload_or_resync_witness :
    playerOnB.ready = true ∧ 0 ≤ fourTracks.currentIndex ∧
      fourTracks.playlist.get? fourTracks.currentIndex.toNat = some trackB ∧
      idDiffers playerOnB.videoId trackB.videoId = false ∧
      (onState playerOnB fourTracks).any PlayerCall.isLoad = false :=
  ⟨rfl, by decide, rfl, rfl,
    ((onState_reload_or_resync playerOnB fourTracks trackB rfl (by decide) rfl).2.2 rfl).1⟩

/-! ## `reorder` and the track under the cursor -/

theorem getElem?_insertIdx_cases {α : Type} (l : List α) (t : Nat) (x : α)
    (ht : t ≤ l.length) (j : Nat) :
    (l.insertIdx t x)[j]? = if j < t then l[j]? else if j = t then some x else l[j - 1]? := by
  induction l generalizing t j with
  | nil =>
    have ht0 : t = 0 := by simpa using ht
    subst ht0
    cases j <;> simp
  | cons a l ih =>
    cases t with
    | zero =>
      cases j <;> simp
    | succ t =>
      simp only [List.length_cons, Nat.add_le_add_iff_right] at ht
      cases j with
      | zero => simp [List.insertIdx_succ_cons]
      | succ j =>
        simp only [List.insertIdx_succ_cons, List.getElem?_cons_succ, ih t ht j,
          Nat.add_lt_add_iff_right, Nat.add_right_cancel_iff, Nat.add_sub_cancel]
        by_cases h1 : j < t
        · simp [h1]
        · by_cases h2 : j = t
          · simp [h2]
          · have hj : j - 1 + 1 = j := by omega
            simp only [h1, h2, if_false]
            rw [← hj, List.getElem?_cons_succ, hj]

/-- Where an element ends up when the element at `f` is taken out and put back at `t`. -/
theorem getElem?_move {α : Type} (l : List α) (f t c : Nat) (x : α) (hf : f < l.length)
    (ht : t < l.length) (hx : l[f]? = some x) :
    ((l.eraseIdx f).insertIdx t x)[if c = f then t else if f < c ∧ c ≤ t then c - 1
        else if t ≤ c ∧ c < f then c + 1 else c]? = l[c]? := by
  have hlen : (l.eraseIdx f).length = l.length - 1 := List.length_eraseIdx_of_lt hf
  rw [getElem?_insertIdx_cases _ _ _ (by omega), List.getElem?_eraseIdx,
    List.getElem?_eraseIdx]
  by_cases h1 : c = f
  · subst h1
    simp [hx]
  · rw [if_neg h1]
    by_cases h2 : f < c ∧ c ≤ t
    · rw [if_pos h2]
      have ha : c - 1 < t := by omega
      have hb : ¬ c - 1 < f := by omega
      rw [if_pos ha, if_neg hb]
      congr 1
      omega
    · rw [if_neg h2]
      by_cases h3 : t ≤ c ∧ c < f
      · rw [if_pos h3]
        have ha : ¬ c + 1 < t := by omega
        have hb : ¬ c + 1 = t := by omega
        have hc : c + 1 - 1 < f := by omega
        rw [if_neg ha, if_neg hb, if_pos hc]
        congr 1
      · rw [if_neg h3]
        by_cases h4 : c < t
        · rw [if_pos h4]
          have hb : c < f := by omega
          rw [if_pos hb]
        · have h5 : ¬ c = t := by omega
          have h6 : ¬ c - 1 < f := by omega
          rw [if_neg h4, if_neg h5, if_neg h6]
          congr 1
          omega

theorem perm_cons_eraseIdx_of_getElem? {α : Type} (l : List α) (a : Nat) (x : α)
    (h : l[a]? = some x) : (x :: l.eraseIdx a).Perm l := by
  induction l generalizing a with
  | nil => simp at h
  | cons b l ih =>
    cases a with
    | zero =>
      simp only [List.getElem?_cons_zero, Option.some.injEq] at h
      subst h
      simp
    | succ a =>
      simp only [List.getElem?_cons_succ] at h
      simp only [List.eraseIdx_cons_succ]
      exact (List.Perm.swap b x _).trans ((ih a h).cons b)

/-- C29: on a non-empty playlist whose cursor is `-1` or an index, `reorder(from, to)` with any
integers (or missing fields) leaves a permutation of the old list of the same length; a cursor
that is an index stays an index, and the track at the new cursor in the new list is the track
that was at the old cursor in the old list; a cursor of `-1` stays `-1`. -/
theorem reorder_keeps_cursor_track (st : JbState) (hne : st.playlist.length ≠ 0)
    (hvalid : st.currentIndex = -1 ∨
      (0 ≤ st.currentIndex ∧ st.currentIndex < (st.playlist.length : Int)))
    (fromIdx toIdx : Option Int) :
    (0 ≤ st.currentIndex →
        0 ≤ (reorder st fromIdx toIdx).state.currentIndex ∧
        (reorder st fromIdx toIdx).state.currentIndex
          < ((reorder st fromIdx toIdx).state.playlist.length : Int) ∧
        (reorder st fromIdx toIdx).state.playlist[
            (reorder st fromIdx toIdx).state.currentIndex.toNat]?
          = st.playlist[st.currentIndex.toNat]?) ∧
      (reorder st fromIdx toIdx).state.playlist.Perm st.playlist ∧
      (reorder st fromIdx toIdx).state.playlist.length = st.playlist.length ∧
      (st.currentIndex = -1 → (reorder st fromIdx toIdx).state.currentIndex = -1) := by
  have hfb := clamp_bounds (fromIdx.getD (-1)) ((st.playlist.length : Int) - 1) (by omega)
  have htb := clamp_bounds (toIdx.getD (-1)) ((st.playlist.length : Int) - 1) (by omega)
  generalize hf : clamp (fromIdx.getD (-1)) 0 ((st.playlist.length : Int) - 1) = f at hfb
  generalize ht : clamp (toIdx.getD (-1)) 0 ((st.playlist.length : Int) - 1) = t at htb
  have hFlt : f.toNat < st.playlist.length := by omega
  have hTlt : t.toNat < st.playlist.length := by omega
  obtain ⟨x, hx, hmove⟩ := moveItem_eq st.playlist f.toNat t.toNat hFlt hTlt
  have hlenE : (st.playlist.eraseIdx f.toNat).length = st.playlist.length - 1 :=
    List.length_eraseIdx_of_lt hFlt
  have hpermM : (moveItem st.playlist f.toNat t.toNat).Perm st.playlist := by
    rw [hmove]
    exact (List.perm_insertIdx x _ (by omega)).trans
      (perm_cons_eraseIdx_of_getElem? st.playlist f.toNat x hx)
  unfold reorder
  rw [if_neg hne]
  simp only [hf, ht]
  by_cases hft : f = t
  · rw [if_pos hft]
    refine ⟨fun h0 => ⟨h0, ?_, rfl⟩, List.Perm.refl _, rfl, fun h => h⟩
    rcases hvalid with h | h
    · omega
    · exact h.2
  · rw [if_neg hft]
    simp only
    refine ⟨?_, hpermM, hpermM.length_eq, ?_⟩
    · intro h0
      have hc : st.currentIndex < (st.playlist.length : Int) := by
        rcases hvalid with h | h
        · omega
        · exact h.2
      have key := getElem?_move st.playlist f.toNat t.toNat st.currentIndex.toNat x hFlt hTlt hx
      rw [← hmove] at key
      have hidx : (if st.currentIndex = f then t
            else if f < st.currentIndex ∧ t ≥ st.currentIndex then st.currentIndex - 1
            else if f > st.currentIndex ∧ t ≤ st.currentIndex then st.currentIndex + 1
            else st.currentIndex).toNat
          = (if st.currentIndex.toNat = f.toNat then t.toNat
            else if f.toNat < st.currentIndex.toNat ∧ st.currentIndex.toNat ≤ t.toNat then
              st.currentIndex.toNat - 1
            else if t.toNat ≤ st.currentIndex.toNat ∧ st.currentIndex.toNat < f.toNat then
              st.currentIndex.toNat + 1
            else st.currentIndex.toNat) := by
        split_ifs <;> omega
      refine ⟨?_, ?_, ?_⟩
      · split_ifs <;> omega
      · rw [hpermM.length_eq]
        split_ifs <;> omega
      · rw [hidx]
        exact key
    · intro hm1
      have h1 : ¬ st.currentIndex = f := by omega
      have h2 : ¬ (f < st.currentIndex ∧ t ≥ st.currentIndex) := by omega
      have h3 : ¬ (f > st.currentIndex ∧ t ≤ st.currentIndex) := by omega
      rw [if_neg h1, if_neg h2, if_neg h3]
      exact hm1

/-- C29, witness: `reorder(0, 2)` on `[A, B, C, D]` with the cursor on `B` leaves the cursor on
`B`. -/
theorem reorder_keeps_cursor_track_witness :
    fourTracks.playlist.length ≠ 0 ∧
      (0 ≤ fourTracks.currentIndex ∧
        fourTracks.currentIndex < (fourTracks.playlist.length : Int)) ∧
      (reorder fourTracks (some 0) (some 2)).state.playlist[
          (reorder fourTracks (some 0) (some 2)).state.currentIndex.toNat]?
        = fourTracks.playlist[fourTracks.currentIndex.toNat]? ∧
      (reorder fourTracks (some 0) (some 2)).state.playlist.Perm fourTracks.playlist :=
  ⟨by decide, by decide,
    ((reorder_keeps_cursor_track fourTracks (by decide) (Or.inr (by decide)) (some 0)
      (some 2)).1 (by decide)).2.2,
    (reorder_keeps_cursor_track fourTracks (by decide) (Or.inr (by decide)) (some 0)
      (some 2)).2.1⟩

/-! ## The route `DELETE /api/albums/:album` -/

/-- The two exits of the route: 400 with nothing removed when the normalised name is empty or
`default`, otherwise 200 with the two directories of that name. -/
theorem deleteAlbum_cases (param : String) :
    ((normaliza param = "" ∨ normaliza param = "default") ∧
        deleteAlbum param = ⟨400, []⟩) ∨
      (normaliza param ≠ "" ∧ normaliza param ≠ "default" ∧
        deleteAlbum param
          = ⟨200, [GALLERY_ROOT ++ [normaliza param], THUMBS_ROOT ++ [normaliza param]]⟩) := by
  unfold deleteAlbum
  simp only
  by_cases h0 : (normaliza param).data.length = 0
  · left
    have hd : (normaliza param).data = [] := List.length_eq_zero.mp h0
    have he : normaliza param = "" := by
      cases hn : normaliza param with
      | mk data =>
        rw [hn] at hd
        simp only at hd
        rw [hd]
    exact ⟨Or.inl he, by rw [if_pos h0]⟩
  · have hne : normaliza param ≠ "" := by
      intro he
      apply h0
      rw [he]
      rfl
    rw [if_neg h0]
    by_cases h1 : normaliza param = "default"
    · left
      exact ⟨Or.inr h1, by rw [if_pos h1]⟩
    · right
      exact ⟨hne, h1, by rw [if_neg h1]⟩

/-- A request for a name other than `_thumbs` removes nothing of another album: neither
directory it hands to `fsp.rm` holds an image or a thumbnail of an album with another name. -/
theorem deleteAlbum_spares_other_albums (param album file : String)
    (hthumbs : normaliza param ≠ "_thumbs") (hother : album ≠ normaliza param)
    (halbum : album ≠ "_thumbs") :
    ∀ dir ∈ (deleteAlbum param).removed,
      dir.isPrefixOf (imagePath album file) = false ∧
        dir.isPrefixOf (thumbPath album file) = false := by
  intro dir hdir
  rcases deleteAlbum_cases param with ⟨_, h⟩ | ⟨_, _, h⟩
  · rw [h] at hdir
    simp at hdir
  · rw [h] at hdir
    simp only [List.mem_cons, List.mem_singleton, List.not_mem_nil, or_false] at hdir
    rcases hdir with rfl | rfl
    · simp [GALLERY_ROOT, imagePath, thumbPath, THUMBS_ROOT, List.isPrefixOf, hthumbs,
        Ne.symm hother]
    · simp only [GALLERY_ROOT, imagePath, thumbPath, THUMBS_ROOT, List.isPrefixOf,
        List.cons_append, List.nil_append, Bool.and_eq_false_imp, Bool.and_true,
        beq_iff_eq, beq_eq_false_iff_ne, ne_eq, Bool.true_and, Bool.and_false, Bool.and_self]
      simp [Ne.symm hother, Ne.symm halbum]

/-- C30, the code at the failing input: `DELETE /api/albums/_thumbs` is answered 200 and hands
`GALLERY_ROOT/_thumbs`, which is `THUMBS_ROOT`, to `fsp.rm`; the thumbnail of every image of
every album, the default album included, lies below it.  On a disk with an image and its
thumbnail in the albums `default` and `maps`, both thumbnails are gone afterwards, while a
request for `default` itself is answered 400. -/
theorem deleteAlbum_thumbs_removes_every_thumbnail :
    deleteAlbum "_thumbs" = ⟨200, [THUMBS_ROOT, THUMBS_ROOT ++ ["_thumbs"]]⟩ ∧
      (∀ album file : String, THUMBS_ROOT.isPrefixOf (thumbPath album file) = true) ∧
      deleteAlbumFiles sampleDisk "_thumbs"
        = [imagePath "default" "a.png", imagePath "maps" "b.png"] ∧
      deleteAlbum "default" = ⟨400, []⟩ :=
  ⟨by decide, fun album file => by simp [THUMBS_ROOT, GALLERY_ROOT, thumbPath, List.isPrefixOf],
    by decide, by decide⟩

end RpgRealtime
